import Mathlib

/-!
# Node lifecycle orchestrator (package cmd, file cmd/scaffold.go)

A shallow embedding of `FlowNodeBuilder` and of the functions that `Run` executes.

* The builder is a record; every Go method becomes a function on a `Node`, the builder together
  with the part of the world the process acts on (persisted store, signal channel, recorded
  interaction trace and logger output).
* Callbacks are defunctionalised: a registered function is a code (`ComponentFn`, or a user
  code of type `U`) and the environment `Env` interprets it. The closures built by the
  scaffold itself are constructors that carry their captured variables.
* `os.Exit` ends the control flow, and so does `log.Fatal()...Msg` when the level of the logger
  lets a fatal event through; a function returns `Step.next` with the new node or `Step.halt`
  with the way the process ended. Of the logger the builder keeps its level: `initLogger` sets
  it from the flag `--loglevel`, and under a level above `fatal` a fatal log event is nil, its
  `Msg` does nothing and the code after it runs.
* A call that returns a value and an error is a pair: the value it returns together with a
  non-nil error is what the code after a fatal log event that did not exit goes on with. A
  dereference of a nil pointer in scaffold.go itself ends the process (`Termination.panic`).
* A `select` is resolved by the environment (`Env.wait`), subject to the contents of the
  one-slot signal channel.
* Queries of protocol state (`Head`, `Identity`) and the constructor `NewState` read the
  persisted store and do not write it; the writers are `InitMax`, `Bootstrap`, the bootstrap
  functions and the callbacks of the caller.
* The trace of a node records the interactions with the surroundings in the order they
  happen; the claims about Run are statements about the trace it leaves behind.

The bit operations and the big-endian encodings of `ledger/common/utils.go` are embedded in
the namespace `common`, the broadcaster of `module/broadcast/broadcast.go` in the namespace
`broadcast` and the mock assigner of `engine/verification/utils/mocked.go` in the namespace
`utils`, after the definitions of `cmd`.
-/

namespace cmd

/-! ## Data model -/

/-- The constant `notSet` of scaffold.go. -/
def notSet : String := "not set"

/-- BaseConfig is the general config for the FlowNodeBuilder (durations are numbers). -/
structure BaseConfig where
  nodeIDHex : String
  bindAddr : String
  nodeRole : String
  timeout : Nat
  datadir : String
  level : String
  metricsPort : Nat
  nClusters : Nat
  BootstrapDir : String
  profilerEnabled : Bool
  profilerDir : String
  profilerInterval : Nat
  profilerDuration : Nat
deriving DecidableEq, Repr

/-- Node identifiers (flow.Identifier), declared outside cmd. -/
abbrev Identifier := Nat

/-- Private keys (crypto.PrivateKey), declared outside cmd. -/
abbrev PrivateKey := Nat

/-- Public keys (crypto.PublicKey); `Equals` is equality of the representing numbers. -/
abbrev PublicKey := Nat

/-- Chain identifiers (flow.ChainID). -/
abbrev ChainID := String

/-- Block header (flow.Header): only the chain identifier is read by cmd. -/
structure Header where
  ChainID : ChainID
  Height : Nat
deriving DecidableEq, Repr

/-- Block (flow.Block): a header and a payload that cmd never inspects. -/
structure Block where
  Header : cmd.Header
  Payload : Nat
deriving DecidableEq, Repr

/-- Quorum certificate (model.QuorumCertificate), never inspected by cmd. -/
structure QuorumCertificate where
  id : Nat
deriving DecidableEq, Repr

/-- Execution result (flow.ExecutionResult), never inspected by cmd. -/
structure ExecutionResult where
  id : Nat
deriving DecidableEq, Repr

/-- Block seal (flow.Seal), never inspected by cmd. -/
structure Seal where
  id : Nat
deriving DecidableEq, Repr

/-- Public DKG data (dkg.PublicData), never inspected by cmd. -/
structure DKGPublicData where
  id : Nat
deriving DecidableEq, Repr

/-- Identity of a node as recorded in protocol state (flow.Identity). -/
structure Identity where
  NodeID : Identifier
  NetworkPubKey : PublicKey
  StakingPubKey : PublicKey
deriving DecidableEq, Repr

/-- Private node info read from the bootstrap directory (bootstrap.NodeInfoPriv). -/
structure NodeInfoPriv where
  StakingPrivKey : PrivateKey
  NetworkPrivKey : PrivateKey
deriving DecidableEq, Repr

/-- The local node object built by local.New. -/
structure Local where
  me : Identity
  sk : PrivateKey
deriving DecidableEq, Repr

/-- Component factories. The first five are the closures created by the scaffold itself
(enqueueNetworkInit, enqueueMetricsServerInit, enqueueTracer, initProfiler, initMetrics), the
last two with the variable they capture; `user u` is a factory handed to `Component` by the
caller. -/
inductive ComponentFn (U O : Type) where
  | network
  | metricsServer
  | tracer
  | profiler (p : Option O)
  | mempools (m : O)
  | user (u : U)
deriving DecidableEq, Repr

structure namedModuleFunc (U : Type) where
  fn : U
  name : String
deriving DecidableEq, Repr

structure namedComponentFunc (U O : Type) where
  fn : ComponentFn U O
  name : String
deriving DecidableEq, Repr

structure namedDoneObject (O : Type) where
  ob : O
  name : String
deriving DecidableEq, Repr

structure namedBootstrapFunc (U : Type) where
  fn : U
  name : String
deriving DecidableEq, Repr

/-- The levels of zerolog (zerolog.Level), lowest first. -/
inductive Level where
  | debug
  | info
  | warn
  | error
  | fatal
  | panic
  | noLevel
  | disabled
deriving DecidableEq, Repr

/-- The number of a level (DebugLevel is 0, Disabled is 7). -/
def Level.toNat : Level → Nat
  | .debug => 0
  | .info => 1
  | .warn => 2
  | .error => 3
  | .fatal => 4
  | .panic => 5
  | .noLevel => 6
  | .disabled => 7

/-- The level filter of a zerolog logger: a logger of level `logger` makes an event of level
`lvl` when `lvl` is not below its own level, and a nil event, on which every method is a
no-op, otherwise. The global level of zerolog is left at its default, which filters nothing. -/
def Level.enabled (logger lvl : Level) : Bool := decide (logger.toNat ≤ lvl.toNat)

/-- FlowNodeBuilder, the builder struct used for all flow nodes. Of the logger `Logger` the
level is kept, which decides whether a fatal log event exits. Fields that no modelled function
reads or writes (flags, MetricsRegisterer, Metrics, Storage, MsgValidators, RootCommit,
RootAccountPublicKey, RootTokenSupply) are left out; the database handle `DB` and the signal
channel `sig` are the `store` and `sig` of `Node`. A pointer field is an option, `none` for
nil; the DKG state is identified with the public data it wraps. -/
structure FlowNodeBuilder (U O : Type) where
  BaseConfig : cmd.BaseConfig
  NodeID : Identifier := 0
  Logger : Level := .debug
  Me : Option Local := none
  Tracer : Option O := none
  State : Bool := false
  DKGState : Option DKGPublicData := none
  Network : Option O := none
  modules : List (namedModuleFunc U) := []
  components : List (namedComponentFunc U O) := []
  doneObject : List (namedDoneObject O) := []
  bootstraps : List (namedBootstrapFunc U) := []
  postInitFns : List U := []
  stakingKey : PrivateKey := 0
  networkKey : PrivateKey := 0
  RootBlock : Option Block := none
  RootQC : Option QuorumCertificate := none
  RootResult : Option ExecutionResult := none
  RootSeal : Option Seal := none
  RootChainID : ChainID := ""
deriving DecidableEq, Repr

/-! ## Registration (Module, Component, PostInit) -/

/-- Module enables setting up dependencies of the engine with the builder context. -/
def FlowNodeBuilder.Module {U O : Type} (fnb : FlowNodeBuilder U O) (name : String) (f : U) :
    FlowNodeBuilder U O :=
  { fnb with modules := fnb.modules ++ [{ fn := f, name := name }] }

/-- Component adds a new component to the node that conforms to the ReadyDone interface. -/
def FlowNodeBuilder.Component {U O : Type} (fnb : FlowNodeBuilder U O) (name : String)
    (f : ComponentFn U O) : FlowNodeBuilder U O :=
  { fnb with components := fnb.components ++ [{ fn := f, name := name }] }

/-- PostInit appends a post-init hook. -/
def FlowNodeBuilder.PostInit {U O : Type} (fnb : FlowNodeBuilder U O) (f : U) :
    FlowNodeBuilder U O :=
  { fnb with postInitFns := fnb.postInitFns ++ [f] }

/-- A registration call made on the builder by a callback while it runs. The unexported fields
of the builder are out of reach of a callback, which lives in another package, so the calls of
the exported registration methods are all it can do to the registry. -/
inductive Registration (U O : Type) where
  | Module (name : String) (f : U)
  | Component (name : String) (f : ComponentFn U O)
  | PostInit (f : U)
deriving DecidableEq, Repr

/-- Perform one registration call. -/
def Registration.apply {U O : Type} (fnb : FlowNodeBuilder U O) :
    Registration U O → FlowNodeBuilder U O
  | .Module name f => fnb.Module name f
  | .Component name f => fnb.Component name f
  | .PostInit f => fnb.PostInit f

/-- Perform the registration calls of a callback, in the order it made them. -/
def applyRegs {U O : Type} (fnb : FlowNodeBuilder U O) (rs : List (Registration U O)) :
    FlowNodeBuilder U O :=
  rs.foldl Registration.apply fnb

/-! ## The world around the builder -/

/-- Which case of a `select` was taken: the channel of the component (`Ready()` in
handleComponent, `Done()` in handleDoneObject), the timer `time.After(timeout)`, or `fnb.sig`. -/
inductive Select where
  | signal
  | timeout
  | sig
deriving DecidableEq, Repr

/-- What the surroundings do while the process sits in one blocking operation: `sigs` signals
are delivered to the process since the previous blocking operation ended and before the timer
of this one runs out, `fires` says whether the channel of the component becomes readable before
the timer runs out, and `sigFirst` says which of the two the `select` takes when both the
component channel and `fnb.sig` can proceed. -/
structure WaitEnv where
  sigs : Nat
  fires : Bool
  sigFirst : Bool
deriving DecidableEq, Repr

/-- Contents of `fnb.sig` (made by `make(chan os.Signal, 1)`) after `sigs` deliveries by
signal.Notify, which does not block: a delivery to the full channel is dropped. -/
def notify (buf sigs : Nat) : Nat := min 1 (buf + sigs)

/-- Resolve a `select` over the component channel, the timer and `fnb.sig`; the result is the
case taken and the contents of `fnb.sig` afterwards (a receive takes the signal out). -/
def selectWait (buf : Nat) (w : WaitEnv) : Select × Nat :=
  let avail := notify buf w.sigs
  if 0 < avail ∧ (w.fires = false ∨ w.sigFirst = true) then (Select.sig, avail - 1)
  else if w.fires then (Select.signal, avail)
  else (Select.timeout, avail)

/-- Error of a storage query: storage.ErrNotFound (possibly wrapped) or any other error. -/
inductive StorErr where
  | ErrNotFound
  | other (msg : String)
deriving DecidableEq, Repr

/-- What a callback does to its surroundings while it runs: the registration calls it makes on
the builder and the persisted store it leaves behind. -/
structure Effect (U O S : Type) where
  regs : List (Registration U O)
  store : S

/-- Everything outside scaffold.go: libraries, file system, the protocol state package, the
callbacks of the caller and the timing of signals. `S` is the content of the persisted store. -/
structure Env (U O S : Type) where
  /-- pflag.Parse: the bound configuration after the command line was read. -/
  Parse : BaseConfig → BaseConfig
  /-- The function flow.HexStringToIdentifier: the identifier and the error it returns. -/
  HexStringToIdentifier : String → Identifier × Option String
  /-- filepath.Join. -/
  Join : String → String → String
  /-- The path constants of package bootstrap. -/
  PathRootBlock : String
  PathRootQC : String
  PathRootResult : String
  PathRootSeal : String
  PathDKGDataPub : String
  /-- fmt.Sprintf(bootstrap.PathNodeInfoPriv, myID). -/
  PathNodeInfoPriv : Identifier → String
  /-- ioutil.ReadFile. -/
  ReadFile : String → Except String String
  /-- json.Unmarshal at each of the types it is used at: the value it leaves in the variable
  it is given and the error it returns. -/
  UnmarshalBlock : String → Block × Option String
  UnmarshalQC : String → QuorumCertificate × Option String
  UnmarshalResult : String → ExecutionResult × Option String
  UnmarshalSeal : String → Seal × Option String
  /-- json.Unmarshal into the encodable DKG data, followed by its method ForHotStuff. -/
  UnmarshalDKG : String → DKGPublicData × Option String
  UnmarshalNodeInfoPriv : String → NodeInfoPriv × Option String
  /-- zerolog.ParseLevel: the level and the error it returns. -/
  ParseLevel : String → Level × Option String
  /-- debug.NewAutoProfiler: the profiler (a pointer) and the error it returns. -/
  NewAutoProfiler : BaseConfig → Option O × Option String
  /-- os.MkdirAll, its error. -/
  MkdirAll : String → Option String
  /-- badger.Open, its error. -/
  badgerOpen : String → Option String
  /-- trace.NewTracer: the tracer (a pointer) and the error it returns. -/
  NewTracer : String → Option O × Option String
  /-- metrics.NewMempoolCollector. -/
  NewMempoolCollector : O
  /-- metrics.NewServer. -/
  NewServer : Nat → Bool → O
  /-- operation.RetryOnConflict(fnb.DB.Update, operation.InitMax). -/
  InitMax : S → S × Option String
  /-- protocol.NewState, its error. -/
  NewState : Nat → Option String
  /-- The query state.Final().Head(). -/
  Head : S → Except StorErr Header
  /-- The mutation state.Mutate().Bootstrap(root, result, seal) on the three pointers. -/
  Bootstrap : Option Block → Option ExecutionResult → Option Seal → S → S × Option String
  /-- The query state.Final().Identity(id): the identity (a pointer) and the error. -/
  Identity : S → Identifier → Option cmd.Identity × Option String
  /-- The method PublicKey() of a private key. -/
  PublicKey : PrivateKey → cmd.PublicKey
  /-- The constructor local.New: the local node object (a pointer) and the error. -/
  localNew : cmd.Identity → PrivateKey → Option Local × Option String
  /-- Body of the network factory of enqueueNetworkInit (middleware, identities of the final
  state, own identity, libp2p network): the network it builds or the error it returns. -/
  networkInit : FlowNodeBuilder U O → S → Except String O
  /-- A post-init hook of the caller. -/
  postInitFn : U → FlowNodeBuilder U O → S → Effect U O S
  /-- A module init function of the caller and the error it returns. -/
  moduleFn : U → FlowNodeBuilder U O → S → Effect U O S × Option String
  /-- A component factory of the caller with the pair (object, error) it returns. -/
  componentFn : U → FlowNodeBuilder U O → S → Effect U O S × Option O × Option String
  /-- A bootstrap function applied to the protocol state and the error it returns. -/
  bootstrapFn : U → S → S × Option String
  /-- The method Close of the database, its error. -/
  Close : S → Option String
  /-- The surroundings during the k-th blocking operation of the process. -/
  wait : Nat → WaitEnv

/-- The two branches of initState. -/
inductive Path where
  | bootstrap
  | resume
deriving DecidableEq, Repr

/-- The call sites of the base inits whose error is handed to `MustNot` or to a fatal log
event. HexStringToIdentifier is called at two sites, `nodeID` in initNodeInfo and `myID` in
initState; three loaders are called in either branch of initState. -/
inductive Call where
  | nodeID
  | loadPrivateNodeInfo
  | ParseLevel
  | NewAutoProfiler
  | MkdirAll
  | badgerOpen
  | NewTracer
  | InitMax
  | NewState
  | loadRootBlock (p : Path)
  | loadRootQC (p : Path)
  | loadRootResult
  | loadRootSeal
  | loadDKGPublicData (p : Path)
  | myID
  | Identity
  | networkKeyEquals
  | stakingKeyEquals
  | localNew
deriving DecidableEq, Repr

/-- The message of the fatal log event at each call site. -/
def Call.msg : Call → String
  | .nodeID => "could not parse hex ID"
  | .loadPrivateNodeInfo => "failed to load private node info"
  | .ParseLevel => "invalid log level"
  | .NewAutoProfiler => "could not initialize profiler"
  | .MkdirAll => "could not create datadir"
  | .badgerOpen => "could not open key-value store"
  | .NewTracer => "could not initialize tracer"
  | .InitMax => "could not initialize max tracker"
  | .NewState => "could not initialize flow state"
  | .loadRootBlock _ => "could not load root block"
  | .loadRootQC _ => "could not load root QC"
  | .loadRootResult => "could not load root execution result"
  | .loadRootSeal => "could not load root seal"
  | .loadDKGPublicData _ => "could not load public DKG data"
  | .myID => "could not parse node identifier"
  | .Identity => "could not get identity"
  | .networkKeyEquals => "configured networking key does not match protocol state"
  | .stakingKeyEquals => "configured staking key does not match protocol state"
  | .localNew => "could not initialize local"

/-- One interaction of the process with its surroundings, with the result that came back. -/
inductive Event (U O : Type) where
  /-- The call at a site of the base inits returned; `ok` is false when it returned an error. -/
  | call (c : Call) (ok : Bool)
  /-- The query state.Final().Head(): `none` when it found a head, else its error. -/
  | headQuery (err : Option StorErr)
  /-- The genesis commit state.Mutate().Bootstrap and its error. -/
  | genesisCommit (err : Option String)
  /-- A bootstrap function was applied. -/
  | bootstrapFn (b : namedBootstrapFunc U) (err : Option String)
  /-- A post-init hook was run. -/
  | postInit (f : U)
  /-- A module init function was run. -/
  | moduleFn (v : namedModuleFunc U) (err : Option String)
  /-- A component factory was invoked and returned (ob, err). -/
  | componentFn (v : namedComponentFunc U O) (ob : Option O) (err : Option String)
  /-- The select of handleComponent on the object was resolved. -/
  | readyWait (d : namedDoneObject O) (r : Select)
  /-- The receive of the main loop; `got` is false when no signal ever comes. -/
  | mainWait (got : Bool)
  /-- The select of handleDoneObject on the object was resolved. -/
  | doneWait (d : namedDoneObject O) (r : Select)
  /-- The database was closed, with the error of Close. -/
  | closeDB (err : Option String)
deriving DecidableEq, Repr

/-- How the control flow of the process ends: `fatal` is the os.Exit(1) that zerolog performs
when a Fatal event is sent, `abort` the os.Exit(1) of the two selects, `exit0` the os.Exit(0) at
the end of Run, `panic` a nil dereference, `blocked` a receive that never returns. -/
inductive Termination where
  | fatal (msg : String)
  | abort
  | exit0
  | panic
  | blocked
deriving DecidableEq, Repr

/-- Exit status of the process; none for a process that never exits. -/
def Termination.code : Termination → Option Nat
  | .fatal _ => some 1
  | .abort => some 1
  | .exit0 => some 0
  | .panic => some 2
  | .blocked => none

/-- The builder together with the state of the world it acts on. -/
structure Node (U O S : Type) where
  fnb : FlowNodeBuilder U O
  /-- Content of the persisted store behind fnb.DB. -/
  store : S
  /-- Number of signals in the channel fnb.sig. -/
  sig : Nat := 0
  /-- Number of blocking operations resolved so far. -/
  waits : Nat := 0
  /-- Interactions so far, oldest first. -/
  trace : List (Event U O) := []
  /-- Logger calls so far, oldest first. -/
  logs : List (Level × String) := []

/-- Result of running a piece of the process: it returned, or the process ended in it. -/
inductive Step (σ : Type) where
  | next (s : σ)
  | halt (t : Termination) (s : σ)

/-- Sequencing: what follows runs only if the process is still alive. -/
def Step.bind {σ : Type} (r : Step σ) (f : σ → Step σ) : Step σ :=
  match r with
  | .next s => f s
  | .halt t s => .halt t s

/-- The state a step ends in. -/
def Step.node {σ : Type} : Step σ → σ
  | .next s => s
  | .halt _ s => s

/-- How the process ended, if it did in this step. -/
def Step.term {σ : Type} : Step σ → Option Termination
  | .next _ => none
  | .halt t _ => some t

section
variable {U O S : Type}

/-- Record an interaction. -/
def Node.emit (n : Node U O S) (e : Event U O) : Node U O S :=
  { n with trace := n.trace ++ [e] }

/-- Record a logger call, whether or not the level of the logger lets the event through. -/
def Node.log (n : Node U O S) (l : Level) (msg : String) : Node U O S :=
  { n with logs := n.logs ++ [(l, msg)] }

/-- The idiom `fnb.Logger.Fatal()...Msg(msg)`: when the level of the logger lets a fatal event
through, the message is written and the process exits; otherwise the event is nil, `Msg` does
nothing and the call returns. -/
def Fatal (msg : String) (n : Node U O S) : Step (Node U O S) :=
  if n.fnb.Logger.enabled .fatal then .halt (.fatal msg) (n.log .fatal msg)
  else .next (n.log .fatal msg)

/-- MustNot asserts that the given error must not occur: `fnb.MustNot(err).Msg(msg)` is a no-op
for a nil error and the fatal log event of `fnb.Logger` for any other. -/
def MustNot (err : Option String) (msg : String) (n : Node U O S) : Step (Node U O S) :=
  match err with
  | none => .next n
  | some _ => Fatal msg n

/-- A callback ran: its registration calls and its writes to the store took place. -/
def Node.effect (n : Node U O S) (e : Effect U O S) : Node U O S :=
  { n with fnb := applyRegs n.fnb e.regs, store := e.store }

/-- The idiom `if !ok { fnb.Logger.Fatal().Msg(msg) }` for the result `ok` of the comparison
at call site `c`. -/
def check (c : Call) (ok : Bool) (n : Node U O S) : Step (Node U O S) :=
  if ok then .next (n.emit (.call c true)) else Fatal c.msg (n.emit (.call c false))

/-- A range loop over a slice: the slice is read once, before the first iteration, and the
body runs on its elements in order until the process ends. -/
def forEach {α : Type} (body : α → Node U O S → Step (Node U O S)) :
    List α → Node U O S → Step (Node U O S)
  | [], n => .next n
  | x :: xs, n => (body x n).bind (forEach body xs)

/-- The idiom `err := f(...); fnb.MustNot(err).Msg(msg)` at call site `c`, where `msg` is the
message `c.msg` of that site. -/
def mustNil (c : Call) (err : Option String) (n : Node U O S) : Step (Node U O S) :=
  match err with
  | some _ => Fatal c.msg (n.emit (.call c false))
  | none => .next (n.emit (.call c true))

/-- The idiom `x, err := f(...); fnb.MustNot(err).Msg(msg)` at call site `c`, followed by the
rest of the function, which uses the value `x` that came with the error. -/
def must {α : Type} (c : Call) (r : α × Option String) (n : Node U O S)
    (rest : α → Node U O S → Step (Node U O S)) : Step (Node U O S) :=
  (mustNil c r.2 n).bind (rest r.1)

/-! ## Loaders of the bootstrap directory

Each loader returns a pointer and an error: nil with the error of ReadFile, else the address of
the variable that json.Unmarshal was given, with the error of json.Unmarshal. -/

def loadRootBlock (env : Env U O S) (dir : String) : Option Block × Option String :=
  match env.ReadFile (env.Join dir env.PathRootBlock) with
  | .error e => (none, some e)
  | .ok data => (some (env.UnmarshalBlock data).1, (env.UnmarshalBlock data).2)

def loadRootQC (env : Env U O S) (dir : String) : Option QuorumCertificate × Option String :=
  match env.ReadFile (env.Join dir env.PathRootQC) with
  | .error e => (none, some e)
  | .ok data => (some (env.UnmarshalQC data).1, (env.UnmarshalQC data).2)

def loadRootResult (env : Env U O S) (dir : String) : Option ExecutionResult × Option String :=
  match env.ReadFile (env.Join dir env.PathRootResult) with
  | .error e => (none, some e)
  | .ok data => (some (env.UnmarshalResult data).1, (env.UnmarshalResult data).2)

def loadRootSeal (env : Env U O S) (dir : String) : Option Seal × Option String :=
  match env.ReadFile (env.Join dir env.PathRootSeal) with
  | .error e => (none, some e)
  | .ok data => (some (env.UnmarshalSeal data).1, (env.UnmarshalSeal data).2)

def loadDKGPublicData (env : Env U O S) (dir : String) : Option DKGPublicData × Option String :=
  match env.ReadFile (env.Join dir env.PathDKGDataPub) with
  | .error e => (none, some e)
  | .ok data => (some (env.UnmarshalDKG data).1, (env.UnmarshalDKG data).2)

/-- Loads the private info for this node from disk (eg. private staking/network keys). -/
def loadPrivateNodeInfo (env : Env U O S) (dir : String) (myID : Identifier) :
    Option NodeInfoPriv × Option String :=
  match env.ReadFile (env.Join dir (env.PathNodeInfoPriv myID)) with
  | .error e => (none, some e)
  | .ok data => (some (env.UnmarshalNodeInfoPriv data).1, (env.UnmarshalNodeInfoPriv data).2)

/-! ## Base inits -/

def initNodeInfo (env : Env U O S) (n : Node U O S) : Step (Node U O S) :=
  (if n.fnb.BaseConfig.nodeIDHex = notSet then Fatal "cannot start without node ID" n
    else .next n).bind fun n0 =>
  must .nodeID (env.HexStringToIdentifier n0.fnb.BaseConfig.nodeIDHex) n0 fun nodeID n1 =>
  must .loadPrivateNodeInfo (loadPrivateNodeInfo env n1.fnb.BaseConfig.BootstrapDir nodeID) n1
    fun info n2 =>
  let n3 := { n2 with fnb := { n2.fnb with NodeID := nodeID } }
  match info with
  | none => .halt .panic n3
  | some info =>
    .next { n3 with fnb := { n3.fnb with
      stakingKey := info.StakingPrivKey, networkKey := info.NetworkPrivKey } }

/-- The function strings.ToLower, on the ASCII letters. -/
def ToLower (s : String) : String := String.mk (s.data.map Char.toLower)

/-- The fatal log event goes to `log`, a child of `fnb.Logger` with the same level; once the
level is parsed, `fnb.Logger` becomes the logger with that level (lines 251 to 257). -/
def initLogger (env : Env U O S) (n : Node U O S) : Step (Node U O S) :=
  let n1 := n.log .info ("flow " ++ n.fnb.BaseConfig.nodeRole ++ " node starting up")
  must .ParseLevel (env.ParseLevel (ToLower n1.fnb.BaseConfig.level)) n1 fun lvl n2 =>
  .next { n2 with fnb := { n2.fnb with Logger := lvl } }

def initProfiler (env : Env U O S) (n : Node U O S) : Step (Node U O S) :=
  if n.fnb.BaseConfig.profilerEnabled = false then
    .next n
  else
    must .NewAutoProfiler (env.NewAutoProfiler n.fnb.BaseConfig) n fun profiler n1 =>
    .next { n1 with fnb := n1.fnb.Component "profiler" (.profiler profiler) }

def initDB (env : Env U O S) (n : Node U O S) : Step (Node U O S) :=
  (mustNil .MkdirAll (env.MkdirAll n.fnb.BaseConfig.datadir) n).bind fun n1 =>
  mustNil .badgerOpen (env.badgerOpen n1.fnb.BaseConfig.datadir) n1

def initMetrics (env : Env U O S) (n : Node U O S) : Step (Node U O S) :=
  must .NewTracer (env.NewTracer n.fnb.BaseConfig.nodeRole) n fun tracer n1 =>
  let mempools := env.NewMempoolCollector
  .next { n1 with fnb :=
    ({ n1.fnb with Tracer := tracer }).Component "mempools metrics" (.mempools mempools) }

def initStorage (env : Env U O S) (n : Node U O S) : Step (Node U O S) :=
  let r := env.InitMax n.store
  mustNil .InitMax r.2 { n with store := r.1 }

/-! ## initState -/

/-- One iteration of the loop over `fnb.bootstraps` in initState (lines 401-404). -/
def applyBootstrap (env : Env U O S) (b : namedBootstrapFunc U) (n : Node U O S) :
    Step (Node U O S) :=
  let r := env.bootstrapFn b.fn n.store
  MustNot r.2 "could not apply bootstrap function"
    ({ n with store := r.1 }.emit (.bootstrapFn b r.2))

/-- Lines 400 to 411 of initState: the bootstrap functions and the public DKG data. -/
def initStateCallbacks (env : Env U O S) (n : Node U O S) : Step (Node U O S) :=
  (forEach (applyBootstrap env) n.fnb.bootstraps n).bind fun n9 =>
  must (.loadDKGPublicData .bootstrap) (loadDKGPublicData env n9.fnb.BaseConfig.BootstrapDir) n9
    fun dkgPubData n10 =>
  .next { n10 with fnb := { n10.fnb with DKGState := dkgPubData } }

/-- The branch of initState taken when the head query answers ErrNotFound (lines 373-411).
The root block and the root QC are stored in the builder before their error is looked at; the
read of `fnb.RootBlock.Header.ChainID` dereferences the root block. -/
def initStateBootstrap (env : Env U O S) (n : Node U O S) : Step (Node U O S) :=
  let n0 := n.log .info "bootstrapping empty protocol state"
  let rb := loadRootBlock env n0.fnb.BaseConfig.BootstrapDir
  (mustNil (.loadRootBlock .bootstrap) rb.2
    { n0 with fnb := { n0.fnb with RootBlock := rb.1 } }).bind fun n1 =>
  match n1.fnb.RootBlock with
  | none => .halt .panic n1
  | some rootBlock =>
    let n2 := { n1 with fnb := { n1.fnb with RootChainID := rootBlock.Header.ChainID } }
    let qc := loadRootQC env n2.fnb.BaseConfig.BootstrapDir
    (mustNil (.loadRootQC .bootstrap) qc.2
      { n2 with fnb := { n2.fnb with RootQC := qc.1 } }).bind fun n4 =>
    must .loadRootResult (loadRootResult env n4.fnb.BaseConfig.BootstrapDir) n4
      fun rootResult n5 =>
    must .loadRootSeal (loadRootSeal env n5.fnb.BaseConfig.BootstrapDir) n5
      fun rootSeal n6 =>
    let r := env.Bootstrap n6.fnb.RootBlock rootResult rootSeal n6.store
    let n7 := { n6 with store := r.1 }.emit (.genesisCommit r.2)
    (MustNot r.2 "could not bootstrap protocol state" n7).bind (initStateCallbacks env)

/-- The branch of initState taken when the head query answers without error (lines 415-444). -/
def initStateResume (env : Env U O S) (n : Node U O S) : Step (Node U O S) :=
  let rb := loadRootBlock env n.fnb.BaseConfig.BootstrapDir
  (mustNil (.loadRootBlock .resume) rb.2
    { n with fnb := { n.fnb with RootBlock := rb.1 } }).bind fun n1 =>
  match n1.fnb.RootBlock with
  | none => .halt .panic n1
  | some rootBlock =>
    let n2 := { n1 with fnb := { n1.fnb with RootChainID := rootBlock.Header.ChainID } }
    let qc := loadRootQC env n2.fnb.BaseConfig.BootstrapDir
    (mustNil (.loadRootQC .resume) qc.2
      { n2 with fnb := { n2.fnb with RootQC := qc.1 } }).bind fun n4 =>
    must (.loadDKGPublicData .resume) (loadDKGPublicData env n4.fnb.BaseConfig.BootstrapDir) n4
      fun dkgPubData n5 =>
    .next { n5 with fnb := { n5.fnb with DKGState := dkgPubData } }

/-- The end of initState, common to both branches (lines 447-464). The read of
`self.NetworkPubKey` dereferences the identity that the query returned; the local node object
is stored in `fnb.Me` before its error is looked at. -/
def initStateIdentity (env : Env U O S) (n : Node U O S) : Step (Node U O S) :=
  must .myID (env.HexStringToIdentifier n.fnb.BaseConfig.nodeIDHex) n fun myID n1 =>
  must .Identity (env.Identity n1.store myID) n1 fun self n2 =>
  match self with
  | none => .halt .panic n2
  | some self =>
    (check .networkKeyEquals (self.NetworkPubKey == env.PublicKey n2.fnb.networkKey) n2).bind
      fun n3 =>
    (check .stakingKeyEquals (self.StakingPubKey == env.PublicKey n3.fnb.stakingKey) n3).bind
      fun n4 =>
    let me := env.localNew self n4.fnb.stakingKey
    (mustNil .localNew me.2 { n4 with fnb := { n4.fnb with Me := me.1 } }).bind fun n5 =>
    .next { n5 with fnb := { n5.fnb with State := true } }

/-- The branching of initState on the error of the head query (lines 371-445). -/
def initStateBranch (env : Env U O S) (n : Node U O S) : Step (Node U O S) :=
  match env.Head n.store with
  | .error .ErrNotFound => initStateBootstrap env (n.emit (.headQuery (some .ErrNotFound)))
  | .error (.other m) =>
    Fatal "could not check existing database" (n.emit (.headQuery (some (.other m))))
  | .ok _ => initStateResume env (n.emit (.headQuery none))

def initState (env : Env U O S) (n : Node U O S) : Step (Node U O S) :=
  (mustNil .NewState (env.NewState n.fnb.BaseConfig.nClusters) n).bind fun n1 =>
  (initStateBranch env n1).bind fun n2 =>
  initStateIdentity env n2

/-! ## Handlers -/

def handlePostInit (env : Env U O S) (f : U) (n : Node U O S) : Step (Node U O S) :=
  .next ((n.effect (env.postInitFn f n.fnb n.store)).emit (.postInit f))

def handleModule (env : Env U O S) (v : namedModuleFunc U) (n : Node U O S) :
    Step (Node U O S) :=
  let r := env.moduleFn v.fn n.fnb n.store
  let n1 := (n.effect r.1).emit (.moduleFn v r.2)
  match r.2 with
  | some _ => Fatal "module initialization failed" n1
  | none => .next (n1.log .info "module initialization complete")

/-- The call `v.fn(fnb)` of a component factory: the node afterwards and the pair it returns. -/
def callComponent (env : Env U O S) (fn : ComponentFn U O) (n : Node U O S) :
    Node U O S × Option O × Option String :=
  match fn with
  | .network =>
    match env.networkInit n.fnb n.store with
    | .error e => (n, none, some e)
    | .ok net => ({ n with fnb := { n.fnb with Network := some net } }, some net, none)
  | .metricsServer =>
    (n, some (env.NewServer n.fnb.BaseConfig.metricsPort n.fnb.BaseConfig.profilerEnabled), none)
  | .tracer => (n, n.fnb.Tracer, none)
  | .profiler p => (n, p, none)
  | .mempools m => (n, some m, none)
  | .user u =>
    let r := env.componentFn u n.fnb n.store
    (n.effect r.1, r.2.1, r.2.2)

/-- The select of handleComponent (lines 486 to 495) on the object `readyAware`. -/
def awaitReady (env : Env U O S) (name : String) (readyAware : O) (n : Node U O S) :
    Step (Node U O S) :=
  let w := selectWait n.sig (env.wait n.waits)
  let n1 := { n with sig := w.2, waits := n.waits + 1 }.emit
    (.readyWait { ob := readyAware, name := name } w.1)
  match w.1 with
  | .signal => .next (n1.log .info "component startup complete")
  | .timeout => Fatal "component startup timed out" n1
  | .sig => .halt .abort (n1.log .warn "component startup aborted")

/-- The method call `readyAware.Ready()` on a nil object panics; the append to `fnb.doneObject`
(line 497) follows the select whatever case returned from it. -/
def handleComponent (env : Env U O S) (v : namedComponentFunc U O) (n : Node U O S) :
    Step (Node U O S) :=
  let c := callComponent env v.fn n
  let n1 := c.1.emit (.componentFn v c.2.1 c.2.2)
  (match c.2.2 with
    | some _ => Fatal "component initialization failed" n1
    | none => Step.next (n1.log .info "component initialization complete")).bind fun n2 =>
  match c.2.1 with
  | none => .halt .panic n2
  | some readyAware =>
    (awaitReady env v.name readyAware n2).bind fun n3 =>
    .next { n3 with fnb := { n3.fnb with
      doneObject := n3.fnb.doneObject ++ [namedDoneObject.mk readyAware v.name] } }

def handleDoneObject (env : Env U O S) (v : namedDoneObject O) (n : Node U O S) :
    Step (Node U O S) :=
  let w := selectWait n.sig (env.wait n.waits)
  let n1 := { n with sig := w.2, waits := n.waits + 1 }.emit (.doneWait v w.1)
  match w.1 with
  | .signal => .next (n1.log .info "component shutdown complete")
  | .timeout => Fatal "component shutdown timed out" n1
  | .sig => .halt .abort (n1.log .warn "component shutdown aborted")

def closeDatabase (env : Env U O S) (n : Node U O S) : Step (Node U O S) :=
  let err := env.Close n.store
  let n1 := n.emit (.closeDB err)
  match err with
  | some _ => .next (n1.log .error "could not close database")
  | none => .next n1

/-! ## FlowNode and Run -/

/-- The method baseFlags binds the configuration parameters to flags; binding a flag stores
its default value in the bound field. `datadir` is the default data directory,
filepath.Join(homedir, ".flow", "database") for the home directory of the user. Durations are
in nanoseconds. -/
def baseFlags (datadir : String) (fnb : FlowNodeBuilder U O) : FlowNodeBuilder U O :=
  { fnb with BaseConfig :=
    { nodeIDHex := notSet
      bindAddr := notSet
      nodeRole := fnb.BaseConfig.nodeRole
      timeout := 60 * 1000000000
      datadir := datadir
      level := "info"
      metricsPort := 8080
      nClusters := 2
      BootstrapDir := "bootstrap"
      profilerEnabled := false
      profilerDir := "profiler"
      profilerInterval := 15 * 60 * 1000000000
      profilerDuration := 10 * 1000000000 } }

def enqueueNetworkInit (fnb : FlowNodeBuilder U O) : FlowNodeBuilder U O :=
  fnb.Component "network" .network

def enqueueMetricsServerInit (fnb : FlowNodeBuilder U O) : FlowNodeBuilder U O :=
  fnb.Component "metrics server" .metricsServer

def enqueueTracer (fnb : FlowNodeBuilder U O) : FlowNodeBuilder U O :=
  fnb.Component "tracer" .tracer

/-- FlowNode creates a new Flow node builder with the given name; `datadir` is the default
data directory that baseFlags computes from the home directory of the user. The logger is
zerolog.New(os.Stderr), a logger of the lowest level, which filters nothing. The call of
registerBadgerMetrics does nothing to the builder. -/
def FlowNode (role : String) (datadir : String) : FlowNodeBuilder U O :=
  let builder : FlowNodeBuilder U O :=
    { BaseConfig :=
        { nodeIDHex := "", bindAddr := "", nodeRole := role, timeout := 0, datadir := "",
          level := "", metricsPort := 0, nClusters := 0, BootstrapDir := "",
          profilerEnabled := false, profilerDir := "", profilerInterval := 0,
          profilerDuration := 0 }
      Logger := .debug }
  enqueueTracer (enqueueMetricsServerInit (enqueueNetworkInit (baseFlags datadir builder)))

/-- The receive `<-fnb.sig` of the main loop: it takes a signal out of the channel, and never
returns when none is there and none comes. -/
def mainWait (env : Env U O S) (n : Node U O S) : Step (Node U O S) :=
  let avail := notify n.sig (env.wait n.waits).sigs
  if avail = 0 then
    .halt .blocked (n.emit (.mainWait false))
  else
    .next ({ n with sig := avail - 1, waits := n.waits + 1 }.emit (.mainWait true))

/-- The loop `for i := len(fnb.doneObject) - 1; i >= 0; i--` of Run, entered with `k = i + 1`. -/
def stopFrom (env : Env U O S) : Nat → Node U O S → Step (Node U O S)
  | 0, n => .next n
  | i + 1, n =>
    match n.fnb.doneObject[i]? with
    | none => .halt .panic n
    | some doneObject => (handleDoneObject env doneObject n).bind (stopFrom env i)

/-- Run initiates all common components (logger, database, protocol state etc.) then starts
each component. It also sets up a channel to gracefully shut down each component if a SIGINT is
received. The process starts on builder `fnb` with persisted store `store`. -/
def Run (env : Env U O S) (fnb : FlowNodeBuilder U O) (store : S) : Step (Node U O S) :=
  let n0 : Node U O S :=
    { fnb := { fnb with BaseConfig := env.Parse fnb.BaseConfig }, store := store, sig := 0 }
  (initNodeInfo env n0).bind fun n =>
  (initLogger env n).bind fun n =>
  (initProfiler env n).bind fun n =>
  (initDB env n).bind fun n =>
  (initMetrics env n).bind fun n =>
  (initStorage env n).bind fun n =>
  (initState env n).bind fun n =>
  (forEach (handlePostInit env) n.fnb.postInitFns n).bind fun n =>
  (forEach (handleModule env) n.fnb.modules n).bind fun n =>
  (forEach (handleComponent env) n.fnb.components n).bind fun n =>
  let n := n.log .info (n.fnb.BaseConfig.nodeRole ++ " node startup complete")
  (mainWait env n).bind fun n =>
  let n := n.log .info (n.fnb.BaseConfig.nodeRole ++ " node shutting down")
  (stopFrom env n.fnb.doneObject.length n).bind fun n =>
  (closeDatabase env n).bind fun n =>
  let n := n.log .info (n.fnb.BaseConfig.nodeRole ++ " node shutdown complete")
  .halt .exit0 n

end


/-! ## Observations on a trace -/

section
variable {U O : Type}

/-- The stage of Run a call site belongs to: 0 for the base inits before initState, 1 for
initState up to the genesis commit, 4 for initState after the bootstrap functions. -/
def Call.phase : Call → Nat
  | .nodeID | .loadPrivateNodeInfo | .ParseLevel | .NewAutoProfiler | .MkdirAll | .badgerOpen
  | .NewTracer | .InitMax => 0
  | .NewState | .loadRootBlock _ | .loadRootQC _ | .loadRootResult | .loadRootSeal => 1
  | .loadDKGPublicData _ | .myID | .Identity | .networkKeyEquals | .stakingKeyEquals
  | .localNew => 4

/-- The call sites of initNodeInfo and initLogger: their fatal log event goes to the logger
the builder was made with, before the level of the flag `--loglevel` is set. -/
def Call.early : Call → Bool
  | .nodeID | .loadPrivateNodeInfo | .ParseLevel => true
  | _ => false

/-- The stage of Run an interaction belongs to. -/
def Event.phase : Event U O → Nat
  | .call c _ => c.phase
  | .headQuery _ => 1
  | .genesisCommit _ => 2
  | .bootstrapFn _ _ => 3
  | .postInit _ => 5
  | .moduleFn _ _ => 6
  | .componentFn _ _ _ => 7
  | .readyWait _ _ => 7
  | .mainWait _ => 8
  | .doneWait _ _ => 9
  | .closeDB _ => 10

/-- The way the process ends right after an interaction, for the results that end it; `x`
says whether the logger that initLogger configured lets a fatal event through. Nothing is said
of a failed call of initNodeInfo or initLogger, whose fatal log event goes to another logger.
A factory that returned a nil object ends the process at the latest by the call of `Ready()`
on it. -/
def Event.term (x : Bool) : Event U O → Option Termination
  | .call c false => if x && !c.early then some (.fatal c.msg) else none
  | .call _ true => none
  | .headQuery (some (.other _)) =>
    if x then some (.fatal "could not check existing database") else none
  | .headQuery _ => none
  | .genesisCommit (some _) =>
    if x then some (.fatal "could not bootstrap protocol state") else none
  | .genesisCommit none => none
  | .bootstrapFn _ (some _) =>
    if x then some (.fatal "could not apply bootstrap function") else none
  | .bootstrapFn _ none => none
  | .postInit _ => none
  | .moduleFn _ (some _) => if x then some (.fatal "module initialization failed") else none
  | .moduleFn _ none => none
  | .componentFn _ none (some _) =>
    if x then some (.fatal "component initialization failed") else some .panic
  | .componentFn _ (some _) (some _) =>
    if x then some (.fatal "component initialization failed") else none
  | .componentFn _ none none => some .panic
  | .componentFn _ (some _) none => none
  | .readyWait _ .signal => none
  | .readyWait _ .timeout => if x then some (.fatal "component startup timed out") else none
  | .readyWait _ .sig => some .abort
  | .mainWait false => some .blocked
  | .mainWait true => none
  | .doneWait _ .signal => none
  | .doneWait _ .timeout => if x then some (.fatal "component shutdown timed out") else none
  | .doneWait _ .sig => some .abort
  | .closeDB _ => none

/-- The component records whose factory was invoked, in the order of invocation. -/
def invoked (t : List (Event U O)) : List (namedComponentFunc U O) :=
  t.filterMap fun e => match e with
    | .componentFn v _ _ => some v
    | _ => none

/-- The objects whose readiness wait was resolved by the ready signal, in that order. -/
def readied (t : List (Event U O)) : List (namedDoneObject O) :=
  t.filterMap fun e => match e with
    | .readyWait d .signal => some d
    | _ => none

/-- The objects whose readiness was awaited, in the order of the waits. -/
def readyAwaited (t : List (Event U O)) : List (namedDoneObject O) :=
  t.filterMap fun e => match e with
    | .readyWait d _ => some d
    | _ => none

/-- The objects whose readiness wait returned to handleComponent, in that order: the waits
resolved by the ready signal and, when a fatal log event does not exit (`x = false`), those
resolved by the timer. -/
def pushed (x : Bool) (t : List (Event U O)) : List (namedDoneObject O) :=
  t.filterMap fun e => match e with
    | .readyWait d .signal => some d
    | .readyWait d .timeout => if x then none else some d
    | _ => none

/-- The objects whose done signal was awaited, in the order of the waits. -/
def doneAwaited (t : List (Event U O)) : List (namedDoneObject O) :=
  t.filterMap fun e => match e with
    | .doneWait d _ => some d
    | _ => none

/-- The bootstrap functions that were applied, in the order of application. -/
def bootstrapped (t : List (Event U O)) : List (namedBootstrapFunc U) :=
  t.filterMap fun e => match e with
    | .bootstrapFn b _ => some b
    | _ => none

end

/-! ## The invariant of Run -/

section
variable {U O S : Type}

/-- Whether a fatal log event of the logger of the node exits. -/
def Node.exits (n : Node U O S) : Bool := n.fnb.Logger.enabled .fatal

/-- Whether the level that initLogger parses from the flag `--loglevel` lets a fatal log event
through, so that the event exits. -/
def fatalExits (env : Env U O S) (fnb : FlowNodeBuilder U O) : Bool :=
  (env.ParseLevel (ToLower (env.Parse fnb.BaseConfig).level)).1.enabled .fatal

/-- Events that belong to no loop over components, bootstrap functions or started objects. -/
def Event.plain : Event U O → Bool
  | .call _ _ | .headQuery _ | .genesisCommit _ | .postInit _ | .moduleFn _ _ | .mainWait _ => true
  | _ => false

/-- An event `b` may occur later than `a`: `a` did not end the process and belongs to the same
stage or an earlier one. -/
def follows (x : Bool) (a b : Event U O) : Prop := a.term x = none ∧ a.phase ≤ b.phase

/-- What holds of the node between two stages of Run (`z = none`, the process is alive) and
when the process has ended (`z = some _`): `D` and `B` are the started objects and the
bootstrap functions of the builder Run was called on, `x` says whether a fatal log event of
the logger that initLogger configured exits, `k` is the stage reached. -/
structure Good (D : List (namedDoneObject O)) (B : List (namedBootstrapFunc U)) (x : Bool)
    (k : Nat) (z : Option Termination) (n : Node U O S) : Prop where
  /-- An interaction that ends the process ended it, in the way it says. -/
  dead : ∀ e ∈ n.trace, ∀ t, e.term x = some t → z = some t
  /-- No interaction of a later stage took place. -/
  ph : ∀ e ∈ n.trace, e.phase ≤ k
  /-- The stages come in order and nothing comes after an interaction that ends the process. -/
  pw : n.trace.Pairwise (follows x)
  /-- The started-components stack holds the objects whose readiness wait returned. -/
  done : n.fnb.doneObject = D ++ pushed x n.trace
  /-- The factories invoked are an initial part of the registered components. -/
  inv : invoked n.trace <+: n.fnb.components
  /-- Nothing changes the list of bootstrap functions. -/
  boots : n.fnb.bootstraps = B
  /-- The bootstrap functions applied are an initial part of that list. -/
  boot : bootstrapped n.trace <+: B
  /-- A bootstrap function is applied only after the call of the genesis commit. -/
  commit : ∀ b err, .bootstrapFn b err ∈ n.trace → ∃ r, .genesisCommit r ∈ n.trace
  /-- The done signals awaited are an initial part of the stack read from its top. -/
  stop : doneAwaited n.trace <+: n.fnb.doneObject.reverse
  /-- Past the shutdown loop all of the stack was awaited. -/
  fin : 10 ≤ k → doneAwaited n.trace = n.fnb.doneObject.reverse
  /-- The process exits with status 0 only past the shutdown loop. -/
  exit : z = some .exit0 → 10 ≤ k
  /-- While the process is alive its logger has the level that initLogger configured. -/
  lvl : z = none → n.exits = x

/-- What holds of the node up to the end of initLogger: the interactions so far are calls of
initNodeInfo and initLogger, and the registry is untouched. -/
def Early (D : List (namedDoneObject O)) (B : List (namedBootstrapFunc U)) (n : Node U O S) :
    Prop :=
  (∀ e ∈ n.trace, ∃ c ok, e = .call c ok ∧ c.early = true) ∧ n.fnb.doneObject = D ∧
    n.fnb.bootstraps = B

/-- The same of a step, which does not end the process by the exit with status 0. -/
def Step.Early (D : List (namedDoneObject O)) (B : List (namedBootstrapFunc U))
    (r : Step (Node U O S)) : Prop :=
  cmd.Early D B r.node ∧ r.term ≠ some .exit0

/-- The invariant of a step: `Good` at stage `k` if the process is alive, `Good` at the stage
it ended in otherwise. -/
def Step.Good (D : List (namedDoneObject O)) (B : List (namedBootstrapFunc U)) (x : Bool)
    (k : Nat) (r : Step (Node U O S)) : Prop :=
  match r with
  | .next n => cmd.Good D B x k none n
  | .halt z n => ∃ j, cmd.Good D B x j (some z) n

end

/-! ## Branches of initState -/

/-- The branch of initState an interaction belongs to, for those that occur in one branch
only. -/
def Event.path {U O : Type} : Event U O → Option Path
  | .call (.loadRootBlock p) _ => some p
  | .call (.loadRootQC p) _ => some p
  | .call (.loadDKGPublicData p) _ => some p
  | .call .loadRootResult _ => some .bootstrap
  | .call .loadRootSeal _ => some .bootstrap
  | .genesisCommit _ => some .bootstrap
  | .bootstrapFn _ _ => some .bootstrap
  | _ => none

/-- A step from `n` adds interactions that all satisfy `P`, and leaves the persisted store as
it is when `K` holds. -/
def Emits {U O S : Type} (P : Event U O → Prop) (K : Prop) (n : Node U O S)
    (r : Step (Node U O S)) : Prop :=
  (K → r.node.store = n.store) ∧ ∃ d, r.node.trace = n.trace ++ d ∧ ∀ e ∈ d, P e

/-! ## Stages of Run -/

section
variable {U O S : Type}

/-- The post-init hooks that ran, in the order they ran. -/
def hooksRun (t : List (Event U O)) : List U :=
  t.filterMap fun e => match e with
    | .postInit f => some f
    | _ => none

/-- The module records whose init function ran, in the order they ran. -/
def modulesRun (t : List (Event U O)) : List (namedModuleFunc U) :=
  t.filterMap fun e => match e with
    | .moduleFn v _ => some v
    | _ => none

/-- A step from `n` that belongs to the stages up to `hi` and does not end the process by the
exit with status 0 or by a receive that never returns. -/
def Within (hi : Nat) (n : Node U O S) (r : Step (Node U O S)) : Prop :=
  (∃ d, r.node.trace = n.trace ++ d ∧ ∀ e ∈ d, e.phase ≤ hi) ∧
  r.term ≠ some .exit0 ∧ r.term ≠ some .blocked

/-- Waits on done signals from which the shutdown loop went on: none of them was resolved by
an abort signal. -/
def Waited (ws : List (Event U O)) : Prop :=
  ∀ e ∈ ws, ∃ d r, e = .doneWait d r ∧ r ≠ .sig

/-- The node Run starts on (lines 592 to 600): the flags are parsed into the configuration
and the channel `fnb.sig` is made, empty. -/
def startNode (env : Env U O S) (fnb : FlowNodeBuilder U O) (store : S) : Node U O S :=
  { fnb := { fnb with BaseConfig := env.Parse fnb.BaseConfig }, store := store, sig := 0 }

/-- Lines 602 to 614 of Run: the base inits and initState. -/
def runInits (env : Env U O S) (n : Node U O S) : Step (Node U O S) :=
  (initNodeInfo env n).bind fun n =>
  (initLogger env n).bind fun n =>
  (initProfiler env n).bind fun n =>
  (initDB env n).bind fun n =>
  (initMetrics env n).bind fun n =>
  (initStorage env n).bind fun n =>
  initState env n

/-- Lines 602 to 628 of Run: the base inits, initState and the three loops over the post-init
hooks, the modules and the components. -/
def runStartup (env : Env U O S) (n : Node U O S) : Step (Node U O S) :=
  (runInits env n).bind fun n =>
  (forEach (handlePostInit env) n.fnb.postInitFns n).bind fun n =>
  (forEach (handleModule env) n.fnb.modules n).bind fun n =>
  forEach (handleComponent env) n.fnb.components n

/-- Lines 636 to 646 of Run: the shutdown of the started objects in reverse order, the close
of the database and the end of the process. -/
def runStop (env : Env U O S) (n : Node U O S) : Step (Node U O S) :=
  (stopFrom env n.fnb.doneObject.length n).bind fun n =>
  (closeDatabase env n).bind fun n =>
  let n := n.log .info (n.fnb.BaseConfig.nodeRole ++ " node shutdown complete")
  .halt .exit0 n

/-- Lines 630 to 646 of Run: the main loop, then the shutdown. -/
def runShutdown (env : Env U O S) (n : Node U O S) : Step (Node U O S) :=
  let n := n.log .info (n.fnb.BaseConfig.nodeRole ++ " node startup complete")
  (mainWait env n).bind fun n =>
  runStop env (n.log .info (n.fnb.BaseConfig.nodeRole ++ " node shutting down"))

/-- The component records that a sequence of registration calls adds, in the order of the
calls. -/
def componentsOf (rs : List (Registration U O)) : List (namedComponentFunc U O) :=
  rs.filterMap fun r => match r with
    | .Component name f => some { fn := f, name := name }
    | _ => none

end

/-! ## An example environment -/

/-- A wait in which the component signal fires and no signal is delivered. -/
def wFires : WaitEnv := { sigs := 0, fires := true, sigFirst := false }

/-- A wait in which one signal is delivered and the component signal does not fire. -/
def wSignal : WaitEnv := { sigs := 1, fires := false, sigFirst := false }

/-- A wait in which nothing happens before the timer runs out. -/
def wQuiet : WaitEnv := { sigs := 0, fires := false, sigFirst := false }

/-- The level that zerolog.ParseLevel finds for the name of a level; for any other string it
returns NoLevel with an error. -/
def parseLevel (s : String) : Level × Option String :=
  if s = "debug" then (.debug, none)
  else if s = "info" then (.info, none)
  else if s = "warn" then (.warn, none)
  else if s = "error" then (.error, none)
  else if s = "fatal" then (.fatal, none)
  else if s = "panic" then (.panic, none)
  else (.noLevel, some "Unknown Level String, defaulting to NoLevel")

/-- An environment in which every call succeeds: the command line sets the node ID and leaves
the log level at `info`; the store is a number, 0 for the empty database; the bootstrap
directory holds all artifacts; the keys of the node match the identity in protocol state; a
user factory `u` returns the object `u`; the k-th blocking operation meets the surroundings
`w k`. -/
def exampleEnv (w : Nat → WaitEnv) : Env Nat Nat Nat where
  Parse := fun c => { c with nodeIDHex := "ab", level := "info" }
  HexStringToIdentifier := fun _ => (5, none)
  Join := fun a b => a ++ "/" ++ b
  PathRootBlock := "root-block.json"
  PathRootQC := "root-qc.json"
  PathRootResult := "root-result.json"
  PathRootSeal := "root-seal.json"
  PathDKGDataPub := "dkg-data.pub.json"
  PathNodeInfoPriv := fun _ => "node-info.priv.json"
  ReadFile := fun p => .ok p
  UnmarshalBlock := fun _ => ({ Header := { ChainID := "flow", Height := 0 }, Payload := 0 }, none)
  UnmarshalQC := fun _ => ({ id := 1 }, none)
  UnmarshalResult := fun _ => ({ id := 2 }, none)
  UnmarshalSeal := fun _ => ({ id := 3 }, none)
  UnmarshalDKG := fun _ => ({ id := 4 }, none)
  UnmarshalNodeInfoPriv := fun _ => ({ StakingPrivKey := 8, NetworkPrivKey := 7 }, none)
  ParseLevel := parseLevel
  NewAutoProfiler := fun _ => (some 100, none)
  MkdirAll := fun _ => none
  badgerOpen := fun _ => none
  NewTracer := fun _ => (some 101, none)
  NewMempoolCollector := 102
  NewServer := fun _ _ => 103
  InitMax := fun s => (s, none)
  NewState := fun _ => none
  Head := fun s => if s = 0 then .error .ErrNotFound else .ok { ChainID := "flow", Height := 0 }
  Bootstrap := fun _ _ _ _ => (1, none)
  Identity := fun _ id => (some { NodeID := id, NetworkPubKey := 7, StakingPubKey := 8 }, none)
  PublicKey := fun k => k
  localNew := fun i k => (some { me := i, sk := k }, none)
  networkInit := fun _ _ => .ok 104
  postInitFn := fun _ _ s => { regs := [], store := s }
  moduleFn := fun _ _ s => ({ regs := [], store := s }, none)
  componentFn := fun u _ s => ({ regs := [], store := s }, some u, none)
  bootstrapFn := fun _ s => (s, none)
  Close := fun _ => none
  wait := w

/-- The environment `env` started with the flag `--loglevel panic`: initLogger configures a
logger whose level is above `fatal`. -/
def atLevelPanic (env : Env Nat Nat Nat) : Env Nat Nat Nat :=
  { env with Parse := fun c => { env.Parse c with level := "panic" } }

/-- A builder with no registration at all. -/
def bareFnb : FlowNodeBuilder Nat Nat :=
  { BaseConfig :=
    { nodeIDHex := "", bindAddr := "", nodeRole := "consensus", timeout := 0, datadir := "",
      level := "", metricsPort := 0, nClusters := 0, BootstrapDir := "",
      profilerEnabled := false, profilerDir := "", profilerInterval := 0,
      profilerDuration := 0 } }

/-- A builder with the two user components `a` and `b`. -/
def twoFnb : FlowNodeBuilder Nat Nat :=
  (bareFnb.Component "a" (.user 1)).Component "b" (.user 2)

/-- The interactions of the base inits in `exampleEnv` on a store with a finalized head. -/
def resumeInits : List (Event Nat Nat) :=
  [.call .nodeID true, .call .loadPrivateNodeInfo true, .call .ParseLevel true,
    .call .MkdirAll true, .call .badgerOpen true, .call .NewTracer true,
    .call .InitMax true, .call .NewState true, .headQuery none,
    .call (.loadRootBlock .resume) true, .call (.loadRootQC .resume) true,
    .call (.loadDKGPublicData .resume) true, .call .myID true, .call .Identity true,
    .call .networkKeyEquals true, .call .stakingKeyEquals true, .call .localNew true]

/-- The environment `exampleEnv` in which the factory of the user component 2 returns an
error, together with an object. -/
def failingEnv (w : Nat → WaitEnv) : Env Nat Nat Nat :=
  { exampleEnv w with
    componentFn := fun u _ s =>
      ({ regs := [], store := s }, some u, if u = 2 then some "no such engine" else none) }

/-- The interactions of the startup of the components of `twoFnb` when every readiness wait is
resolved by the ready signal, and of the main loop when a signal arrives. -/
def twoStarted : List (Event Nat Nat) :=
  [.componentFn { fn := .user 1, name := "a" } (some 1) none,
    .readyWait { ob := 1, name := "a" } .signal,
    .componentFn { fn := .user 2, name := "b" } (some 2) none,
    .readyWait { ob := 2, name := "b" } .signal,
    .componentFn { fn := .mempools 102, name := "mempools metrics" } (some 102) none,
    .readyWait { ob := 102, name := "mempools metrics" } .signal,
    .mainWait true]

/-- The environment `exampleEnv` in which the head query fails with an error other than
ErrNotFound. -/
def brokenHeadEnv : Env Nat Nat Nat :=
  { exampleEnv (fun _ => wFires) with Head := fun _ => .error (.other "disk error") }

/-- The environment `exampleEnv` in which the public half of every private key is a key
that protocol state does not hold for this node. -/
def mismatchEnv : Env Nat Nat Nat :=
  { exampleEnv (fun _ => wFires) with PublicKey := fun k => k + 1 }

/-- A builder with the three bootstrap functions `x`, `y` and `z` and the user component
`a`. -/
def bootFnb : FlowNodeBuilder Nat Nat :=
  { bareFnb.Component "a" (.user 1) with
    bootstraps := [{ fn := 1, name := "x" }, { fn := 2, name := "y" }, { fn := 3, name := "z" }] }

/-- The interactions of the base inits in `exampleEnv` on the empty store, up to the genesis
commit. -/
def genesisInits : List (Event Nat Nat) :=
  [.call .nodeID true, .call .loadPrivateNodeInfo true, .call .ParseLevel true,
    .call .MkdirAll true, .call .badgerOpen true, .call .NewTracer true,
    .call .InitMax true, .call .NewState true, .headQuery (some .ErrNotFound),
    .call (.loadRootBlock .bootstrap) true, .call (.loadRootQC .bootstrap) true,
    .call .loadRootResult true, .call .loadRootSeal true, .genesisCommit none]

/-- The builder `bareFnb` with the keys that initNodeInfo loads in `exampleEnv`. -/
def keyedFnb : FlowNodeBuilder Nat Nat :=
  { bareFnb with NodeID := 5, stakingKey := 8, networkKey := 7 }

/-- The builder `keyedFnb` with a logger of level `panic`, as initLogger configures it under
the flag `--loglevel panic`. -/
def keyedPanicFnb : FlowNodeBuilder Nat Nat :=
  { keyedFnb with Logger := .panic }

/-- The surroundings in which one signal arrives while the main loop waits; every component
signal fires. -/
def oneSignal (k : Nat) : WaitEnv := if k = 3 then wSignal else wFires

/-- The surroundings in which one signal arrives while the main loop waits and a second one
while the done signal of the second object from the top is awaited. -/
def twoSignals (k : Nat) : WaitEnv := if k = 3 ∨ k = 5 then wSignal else wFires

/-- The environment `exampleEnv` in which one signal arrives in the main loop and the database
fails to close. -/
def closeFailEnv : Env Nat Nat Nat :=
  { exampleEnv oneSignal with Close := fun _ => some "disk full" }

/-- The environment `exampleEnv` with a bootstrap directory in which the root execution result
and the root seal cannot be parsed. -/
def sealedEnv : Env Nat Nat Nat :=
  { exampleEnv (fun _ => wFires) with
    UnmarshalResult := fun _ => ({ id := 0 }, some "unexpected end of JSON input")
    UnmarshalSeal := fun _ => ({ id := 0 }, some "unexpected end of JSON input") }

/-- The environment `exampleEnv` in which the module `m2` returns an error. -/
def moduleFailEnv : Env Nat Nat Nat :=
  { exampleEnv (fun _ => wFires) with
    moduleFn := fun u _ s => ({ regs := [], store := s }, if u = 2 then some "no key" else none) }

/-- A builder with a post-init hook, the modules `m1` and `m2` and the component `a`. -/
def stagedFnb : FlowNodeBuilder Nat Nat :=
  (((bareFnb.Component "a" (.user 1)).Module "m1" 1).Module "m2" 2).PostInit 9

/-- The surroundings in which one signal arrives while the main loop waits and, in the wait
that follows, nothing happens before the timer runs out. -/
def signalThenQuiet (k : Nat) : WaitEnv :=
  if k = 3 then wSignal else if k = 4 then wQuiet else wFires

/-- The surroundings in which nothing happens before the timer of the first wait runs out;
in every later wait the component signal fires, and one signal arrives in the wait number 3,
the main loop of a run of `twoFnb`. -/
def quietThenSignal (k : Nat) : WaitEnv :=
  if k = 0 then wQuiet else if k = 3 then wSignal else wFires

/-! ## More example environments -/

/-- The environment `exampleEnv` in which the public DKG data cannot be parsed and the
bootstrap function `u` adds `u` to the persisted store. -/
def dkgFailEnv : Env Nat Nat Nat :=
  { exampleEnv (fun _ => wFires) with
    UnmarshalDKG := fun _ => ({ id := 0 }, some "unexpected end of JSON input")
    bootstrapFn := fun u s => (s + u, none) }

/-- The surroundings in which one signal arrives in the wait number `k` and every component
signal fires. -/
def signalAt (k : Nat) (i : Nat) : WaitEnv := if i = k then wSignal else wFires

/-- The environment `exampleEnv` in which the command line enables the profiler and one signal
arrives while the main loop waits, after seven components have started. -/
def profiledEnv : Env Nat Nat Nat :=
  { exampleEnv (signalAt 7) with
    Parse := fun c => { c with nodeIDHex := "ab", level := "info", profilerEnabled := true } }

/-- A builder made by FlowNode on which the caller registers the component `a`, the module `m`
and the component `b`. -/
def flowFnb : FlowNodeBuilder Nat Nat :=
  applyRegs (FlowNode "consensus" "/data")
    [.Component "a" (.user 1), .Module "m" 5, .Component "b" (.user 2)]

/-- The environment `exampleEnv` in which every post-init hook registers the component `late`,
every module init function the component `mcomp`, and the factory of the user component 1 the
component `nested`; one signal arrives while the main loop waits, after four components have
started. -/
def nestingEnv : Env Nat Nat Nat :=
  { exampleEnv (signalAt 4) with
    postInitFn := fun _ _ s => { regs := [.Component "late" (.user 3)], store := s }
    moduleFn := fun _ _ s => ({ regs := [.Component "mcomp" (.user 4)], store := s }, none)
    componentFn := fun u _ s =>
      ({ regs := if u = 1 then [.Component "nested" (.user 5)] else [], store := s }, some u,
        none) }

/-- A builder with the component `a`, the module `m1` and a post-init hook. -/
def nestFnb : FlowNodeBuilder Nat Nat :=
  ((bareFnb.Component "a" (.user 1)).Module "m1" 1).PostInit 9

/-! ## Runs under the flag `--loglevel panic` -/

/-- A builder made by FlowNode on which the caller registers the components `a` and `b`. -/
def flowTwoFnb : FlowNodeBuilder Nat Nat :=
  applyRegs (FlowNode "consensus" "/data") [.Component "a" (.user 1), .Component "b" (.user 2)]

/-- The surroundings of a run of `flowTwoFnb` in which nothing happens before the timer of the
wait number 3 runs out, the wait on the ready signal of `a`; every other component signal
fires, and one signal arrives in the wait number 6, the main loop. -/
def slowStart (k : Nat) : WaitEnv :=
  if k = 3 then wQuiet else if k = 6 then wSignal else wFires

/-- The environment `exampleEnv` in which the factory of the user component 2 returns an
error, together with an object; one signal arrives in the wait number 6, the main loop of a
run of `flowTwoFnb`. -/
def flowFailingEnv : Env Nat Nat Nat :=
  { exampleEnv (signalAt 6) with
    componentFn := fun u _ s =>
      ({ regs := [], store := s }, some u, if u = 2 then some "no such engine" else none) }

/-- The environment `mismatchEnv` in which one signal arrives in the wait number 6, the main
loop of a run of `flowTwoFnb`. -/
def flowMismatchEnv : Env Nat Nat Nat :=
  { exampleEnv (signalAt 6) with PublicKey := fun k => k + 1 }

/-- The environment `exampleEnv` with a bootstrap directory in which the root quorum
certificate cannot be parsed. -/
def qcFailEnv : Env Nat Nat Nat :=
  { exampleEnv (fun _ => wFires) with
    UnmarshalQC := fun _ => ({ id := 0 }, some "unexpected end of JSON input") }

/-- A builder made by FlowNode on which the caller registers a post-init hook, the modules
`m1`, `m2` and `m3` and the component `a`. -/
def flowStagedFnb : FlowNodeBuilder Nat Nat :=
  applyRegs (FlowNode "consensus" "/data")
    [.PostInit 9, .Module "m1" 1, .Module "m2" 2, .Module "m3" 3, .Component "a" (.user 1)]

/-- The interactions of the startup of the three components that FlowNode registers, when
every readiness wait is resolved by the ready signal. -/
def flowStarted : List (Event Nat Nat) :=
  [.componentFn { fn := .network, name := "network" } (some 104) none,
    .readyWait { ob := 104, name := "network" } .signal,
    .componentFn { fn := .metricsServer, name := "metrics server" } (some 103) none,
    .readyWait { ob := 103, name := "metrics server" } .signal,
    .componentFn { fn := .tracer, name := "tracer" } (some 101) none,
    .readyWait { ob := 101, name := "tracer" } .signal]

/-- The interactions of the startup of the mempools metrics and of the main loop when a
signal arrives. -/
def flowRunning : List (Event Nat Nat) :=
  [.componentFn { fn := .mempools 102, name := "mempools metrics" } (some 102) none,
    .readyWait { ob := 102, name := "mempools metrics" } .signal,
    .mainWait true]

/-- The interactions of the shutdown of a run of `flowTwoFnb` in which the six objects are on
the stack of started objects, every done signal fires and the database closes. -/
def flowStopped : List (Event Nat Nat) :=
  [.doneWait { ob := 102, name := "mempools metrics" } .signal,
    .doneWait { ob := 2, name := "b" } .signal, .doneWait { ob := 1, name := "a" } .signal,
    .doneWait { ob := 101, name := "tracer" } .signal,
    .doneWait { ob := 103, name := "metrics server" } .signal,
    .doneWait { ob := 104, name := "network" } .signal, .closeDB none]

end cmd

namespace common

/-! ## Bit operations on byte slices (ledger/common/utils.go)

A byte is a natural number below 256 and a byte slice a list of them; an `int` is an integer,
with the truncated division and remainder of Go. -/

/-- Outcome of a Go function that can end in a run-time panic (an index out of range). -/
inductive Outcome (α : Type) where
  | ret (a : α)
  | panic
deriving DecidableEq, Repr

/-- The index expression `b[i]` for an `int` index: none when it is out of range. -/
def index (b : List Nat) (i : Int) : Option Nat :=
  if i < 0 then none else b[i.toNat]?

/-- The verb `%v` of package fmt at a byte slice. -/
def formatBytes (b : List Nat) : String :=
  "[" ++ " ".intercalate (b.map toString) ++ "]"

/-- The expression `1 << int(7 - idx%8)` at type byte: a shift by 8 or more gives 0. -/
def mask (idx : Int) : Nat :=
  (1 <<< (7 - idx.tmod 8).toNat) % 256

/-- IsBitSet returns if the bit at index `idx` in the byte array `b` is set to 1 (big endian);
the result is the pair (bool, error). -/
def IsBitSet (b : List Nat) (idx : Int) : Outcome (Bool × Option String) :=
  if idx ≥ (b.length : Int) * 8 then
    .ret (false, some ("input (" ++ formatBytes b ++ ") only has " ++ toString (b.length * 8) ++
      " bits, can't look up bit " ++ toString idx))
  else
    match index b (idx.tdiv 8) with
    | none => .panic
    | some x => .ret (x &&& mask idx != 0, none)

/-- SetBit sets the bit at position i in the byte array b to 1; the result is the content of
the array afterwards and the error. -/
def SetBit (b : List Nat) (i : Int) : Outcome (List Nat × Option String) :=
  if i ≥ (b.length : Int) * 8 then
    .ret (b, some ("input (" ++ formatBytes b ++ ") only has " ++ toString (b.length * 8) ++
      " bits, can't set bit " ++ toString i))
  else
    match index b (i.tdiv 8) with
    | none => .panic
    | some x => .ret (b.set (i.tdiv 8).toNat ((x ||| mask i) % 256), none)

/-! ## Big-endian encodings (ledger/common/utils.go) -/

/-- Conversion `byte(v)` of an unsigned integer: the low eight bits are kept. -/
def byte (v : Nat) : Nat := v % 256

/-- `binary.BigEndian.PutUint16(b, v)` of the Go standard library, called by
`Uint16ToBinary`: after the bounds check `_ = b[1]` it stores `byte(v >> 8)` in `b[0]` and
`byte(v)` in `b[1]`. -/
def PutUint16 (b : List Nat) (v : Nat) : Outcome (List Nat) :=
  if b.length < 2 then .panic
  else .ret ((b.set 0 (byte (v >>> 8))).set 1 (byte v))

/-- `binary.BigEndian.PutUint64(b, v)` of the Go standard library, called by
`Uint64ToBinary`: after the bounds check `_ = b[7]` it stores `byte(v >> 56)` in `b[0]`,
`byte(v >> 48)` in `b[1]`, and so on down to `byte(v)` in `b[7]`. -/
def PutUint64 (b : List Nat) (v : Nat) : Outcome (List Nat) :=
  if b.length < 8 then .panic
  else .ret ((((((((b.set 0 (byte (v >>> 56))).set 1 (byte (v >>> 48))).set 2
    (byte (v >>> 40))).set 3 (byte (v >>> 32))).set 4 (byte (v >>> 24))).set 5
    (byte (v >>> 16))).set 6 (byte (v >>> 8))).set 7 (byte v))

/-- `Uint16ToBinary(integer)`: `integer` is a `uint16`, a natural number below `2^16`;
`make([]byte, 2)` is the slice of two zero bytes. -/
def Uint16ToBinary (integer : Nat) : Outcome (List Nat) :=
  PutUint16 (List.replicate 2 0) integer

/-- `Uint64ToBinary(integer)`: `integer` is a `uint64`, a natural number below `2^64`;
`make([]byte, 8)` is the slice of eight zero bytes. -/
def Uint64ToBinary (integer : Nat) : Outcome (List Nat) :=
  PutUint64 (List.replicate 8 0) integer

end common

/-! ## module/broadcast/broadcast.go -/
namespace broadcast

/-- A Go channel of `struct{}` values, as far as a sender and a receiver can tell: the
buffer capacity given to `make`, the number of values waiting in the buffer, and whether
`close` was called on it. -/
structure Chan where
  cap : Nat
  pending : Nat
  closed : Bool
deriving DecidableEq, Repr

/-- The struct `Broadcaster`. A Go channel value is a reference: `subscriptions` maps a
subscription ID to the address of its channel in the memory `Mem.chans`. The map is an
association list with one entry per key; the order of the entries carries no meaning,
as the iteration order of a Go map carries none. The mutex `mu` is held by every method
from entry to return, so the methods run one at a time and are state transformers.
The platform has 64 bits: `nextID`, a Go `int`, is an integer from `-2^63` to `2^63 - 1`, and
`bufSize`, a `uint`, is a natural number below `2^64`. -/
structure Broadcaster where
  subscriptions : List (Int × Nat)
  nextID : Int
  bufSize : Nat
deriving DecidableEq, Repr

/-- The broadcaster together with the channels made so far; a channel's address is its
position in `chans`. A channel outlives its map entry, since the subscriber keeps it. -/
structure Mem where
  b : Broadcaster
  chans : List Chan
deriving DecidableEq, Repr

/-- The struct `Subscription`: its ID and the address of its channel. The field
`unsubscribe` is the closure that calls `b.unsubscribe(id)`, determined by `id`. -/
structure Subscription where
  id : Int
  ch : Nat
deriving DecidableEq, Repr

/-- The constant `defaultSubscriptionBufferSize`. -/
def defaultSubscriptionBufferSize : Nat := 10

/-- The type `Opt`, `func(*Broadcaster)`. -/
abbrev Opt := Broadcaster → Broadcaster

/-- `WithBufferSize(size)`; `size` is a `uint`. -/
def WithBufferSize (size : Nat) : Opt := fun broadcaster =>
  { broadcaster with bufSize := size }

/-- `NewBroadcaster(opts...)`: an empty map, `nextID` at its zero value, the default
buffer size, then every option applied in order. -/
def NewBroadcaster (opts : List Opt) : Broadcaster :=
  opts.foldl (fun b apply => apply b)
    { subscriptions := [], nextID := 0, bufSize := defaultSubscriptionBufferSize }

/-- The memory right after `NewBroadcaster(opts...)`: no channel made yet. -/
def start (opts : List Opt) : Mem := { b := NewBroadcaster opts, chans := [] }

/-- The map assignment `m[id] = ch`: an entry of the same key is replaced. -/
def mapSet (m : List (Int × Nat)) (id : Int) (ch : Nat) : List (Int × Nat) :=
  (id, ch) :: m.filter fun e => e.1 != id

/-- The map deletion `delete(m, id)`. -/
def mapDelete (m : List (Int × Nat)) (id : Int) : List (Int × Nat) :=
  m.filter fun e => e.1 != id

/-- The statement `x++` at the type `int`: the sum wraps around at `2^63`. -/
def incr (x : Int) : Int := (x + 1 + 2 ^ 63) % 2 ^ 64 - 2 ^ 63

/-- The built-in `make(chan struct{}, size)` for a size of type `uint`: the size is converted
to `int`, and `make` panics when the result is negative, that is when `size` is `2^63` or
more. The element type has size zero, so the buffer takes no memory and every other size is
accepted. -/
def makeChan (size : Nat) : Except String Chan :=
  if size < 2 ^ 63 then .ok { cap := size, pending := 0, closed := false }
  else .error "makechan: size out of range"

/-- `Broadcaster.Subscribe()`: increments `nextID`, makes a channel of capacity `bufSize`,
stores it under the new ID and returns the subscription. The result is the memory when the
call ends and what the call ends in: the subscription it returns, or the panic of `make`, which
leaves `nextID` incremented and the map as it was. -/
def Subscribe (s : Mem) : Mem × Except String Subscription :=
  let nextID := incr s.b.nextID
  let id := nextID
  match makeChan s.b.bufSize with
  | .error e => ({ s with b := { s.b with nextID := nextID } }, .error e)
  | .ok c =>
    let ch := s.chans.length
    ({ b := { s.b with nextID := nextID, subscriptions := mapSet s.b.subscriptions id ch },
       chans := s.chans ++ [c] },
     .ok { id := id, ch := ch })

/-- The `select` statement of `Broadcast`, one send case and an empty `default`, on the
channel at address `a`: a send on a closed channel panics; a send on
a channel with room in its buffer adds one value; otherwise the send cannot proceed and
the `default` branch leaves the channel as it is. (With capacity 0 a send proceeds only
when a receiver is waiting, who takes the value at once: nothing stays pending.) -/
def trySend (chans : List Chan) (a : Nat) : Except String (List Chan) :=
  match chans[a]? with
  | none => .ok chans
  | some c =>
    if c.closed then .error "send on closed channel"
    else if c.pending < c.cap then .ok (chans.set a { c with pending := c.pending + 1 })
    else .ok chans

/-- `Broadcaster.Broadcast()`: one non-blocking send on the channel of every entry of
the map. -/
def Broadcast (s : Mem) : Except String Mem :=
  (s.b.subscriptions.foldlM (fun chans e => trySend chans e.2) s.chans).map
    fun chans => { s with chans := chans }

/-- The built-in `close(ch)` on the channel at address `a`: closing a closed channel
panics. -/
def close (chans : List Chan) (a : Nat) : Except String (List Chan) :=
  match chans[a]? with
  | none => .error "close of nil channel"
  | some c =>
    if c.closed then .error "close of closed channel"
    else .ok (chans.set a { c with closed := true })

/-- `Broadcaster.unsubscribe(id)`: returns at once when the map has no entry for `id`;
otherwise closes the channel of the entry and deletes the entry. -/
def unsubscribe (id : Int) (s : Mem) : Except String Mem :=
  match s.b.subscriptions.lookup id with
  | none => .ok s
  | some ch =>
    (close s.chans ch).map fun chans =>
      { b := { s.b with subscriptions := mapDelete s.b.subscriptions id }, chans := chans }

/-- `Subscription.Unsubscribe()`: calls the closure stored at `Subscribe`. -/
def Subscription.Unsubscribe (sub : Subscription) (s : Mem) : Except String Mem :=
  unsubscribe sub.id s

/-- A subscriber's receive `<-sub.Ch()` on the channel at address `a` when it can
proceed by taking a buffered value; in every other case the memory is unchanged. -/
def receive (a : Nat) (s : Mem) : Mem :=
  match s.chans[a]? with
  | none => s
  | some c =>
    if 0 < c.pending then { s with chans := s.chans.set a { c with pending := c.pending - 1 } }
    else s

/-- The calls a client can make on a broadcaster and its subscriptions. -/
inductive Op where
  | Subscribe
  | Broadcast
  | Unsubscribe (id : Int)
  | Receive (ch : Nat)
deriving DecidableEq, Repr

/-- One call. -/
def exec (s : Mem) : Op → Except String Mem
  | .Subscribe => (Subscribe s).2.map fun _ => (Subscribe s).1
  | .Broadcast => Broadcast s
  | .Unsubscribe id => unsubscribe id s
  | .Receive ch => .ok (receive ch s)

/-- A sequence of calls, from left to right; a panic ends it. -/
def run (ops : List Op) (s : Mem) : Except String Mem := ops.foldlM exec s

/-- The invariant of the reachable memories: the map has one entry per key and no two
entries share a channel, and the channel of every entry exists, is open, has the capacity
`bufSize` and holds no more values than that. -/
structure Inv (s : Mem) : Prop where
  keys : (s.b.subscriptions.map Prod.fst).Nodup
  addrs : (s.b.subscriptions.map Prod.snd).Nodup
  live : ∀ e ∈ s.b.subscriptions, ∃ c, s.chans[e.2]? = some c ∧ c.closed = false ∧
    c.cap = s.b.bufSize ∧ c.pending ≤ c.cap

/-- What holds of the reachable memories as long as fewer than `2^63` calls of Subscribe were
made: `nextID` is not negative and has not wrapped around, and every key lies in
`1..nextID`. -/
structure Ranged (s : Mem) : Prop where
  nonneg : 0 ≤ s.b.nextID
  below : s.b.nextID < 2 ^ 63
  range : ∀ e ∈ s.b.subscriptions, 1 ≤ e.1 ∧ e.1 ≤ s.b.nextID

/-- The channel after a successful or declined non-blocking send. -/
def bump (c : Chan) : Chan := { c with pending := min c.cap (c.pending + 1) }

/-- The calls of an example: two subscriptions, the first of them cancelled, one
broadcast. -/
def exampleOps : List Op := [.Subscribe, .Subscribe, .Unsubscribe 1, .Broadcast]

/-- The memory after the calls `exampleOps` on a broadcaster made without an option. -/
def exampleMem : Mem :=
  { b := { subscriptions := [(2, 1)], nextID := 2, bufSize := 10 },
    chans := [{ cap := 10, pending := 0, closed := true },
              { cap := 10, pending := 1, closed := false }] }

end broadcast

namespace utils

/-! ## engine/verification/utils/mocked.go -/

/-- The type `flow.Identifier`, a 32-byte value, here a number. -/
abbrev Identifier := Nat

/-- The type `flow.Chunk` as far as `Assign` reads it: the field `Index`, a `uint64`, and the
rest of the chunk. -/
structure Chunk where
  Index : Nat
  body : Nat
deriving DecidableEq, Repr

/-- Modelled from the spec: the type `chmodel.Assignment` of package `model/chunks`, with
`NewAssignment` and `Add`, is not among the sources. An assignment is represented by the calls
of `Add` made on it, in order: each call assigns a chunk to a list of verifier identifiers. -/
structure Assignment where
  added : List (Chunk × List Identifier)
deriving DecidableEq, Repr

/-- Modelled from the spec: `chmodel.NewAssignment()`, the assignment on which `Add` was not
called yet. -/
def NewAssignment : Assignment := { added := [] }

/-- Modelled from the spec: `a.Add(chunk, verifiers)` records that `chunk` is assigned to
`verifiers`. -/
def Assignment.Add (a : Assignment) (chunk : Chunk) (verifiers : List Identifier) :
    Assignment :=
  { added := a.added ++ [(chunk, verifiers)] }

/-- The struct `MockAssigner`. -/
structure MockAssigner where
  me : Identifier
  isAssigned : Nat → Bool

/-- `NewMockAssigner(id, f)`. -/
def NewMockAssigner (id : Identifier) (f : Nat → Bool) : MockAssigner :=
  { me := id, isAssigned := f }

/-- `MockAssigner.Assign(ids, chunks, blockID)`: the pair of the assignment, `none` for the
nil pointer, and the error, `none` for nil. The loop over `chunks` adds a chunk only when
`m.isAssigned(c.Index)` holds. -/
def MockAssigner.Assign (m : MockAssigner) (_ids : List Identifier) (chunks : List Chunk)
    (_blockID : Identifier) : Option Assignment × Option String :=
  if chunks.length = 0 then
    (none, some "assigner called with empty chunk list")
  else
    let a := chunks.foldl
      (fun a c => if m.isAssigned c.Index then a.Add c [m.me] else a) NewAssignment
    (some a, none)

end utils

namespace cmd

/-! # Theorems -/

section
variable {U O S : Type}

theorem plain_phase_le {e : Event U O} (h : e.plain = true) : e.phase ≤ 8 := by
  cases e <;> simp [Event.plain, Event.phase] at h ⊢
  case call c ok => cases c <;> simp [Call.phase]

theorem Good.clean {D : List (namedDoneObject O)} {B : List (namedBootstrapFunc U)} {x : Bool}
    {k : Nat} {n : Node U O S} (h : Good D B x k none n) : ∀ e ∈ n.trace, e.term x = none := by
  intro e he
  cases hx : e.term x with
  | none => rfl
  | some t => exact absurd (h.dead e he t hx) (by simp)

/-- The general step of the invariant: the process went on from `n` to `q` through the
interactions `d`. -/
theorem Good.append {D : List (namedDoneObject O)} {B : List (namedBootstrapFunc U)} {x : Bool}
    {k j : Nat} {n q : Node U O S} {z : Option Termination} (d : List (Event U O))
    (h : Good D B x k none n) (ht : q.trace = n.trace ++ d)
    (hpw : d.Pairwise (follows x)) (hph : ∀ e ∈ d, k ≤ e.phase ∧ e.phase ≤ j) (hk : k ≤ j)
    (hdead : ∀ e ∈ d, ∀ t, e.term x = some t → z = some t)
    (hdone : q.fnb.doneObject = n.fnb.doneObject ++ pushed x d)
    (hinv : invoked n.trace ++ invoked d <+: q.fnb.components)
    (hboots : q.fnb.bootstraps = n.fnb.bootstraps)
    (hboot : bootstrapped n.trace ++ bootstrapped d <+: B)
    (hstop : doneAwaited n.trace ++ doneAwaited d <+: q.fnb.doneObject.reverse)
    (hfin : 10 ≤ j → doneAwaited n.trace ++ doneAwaited d = q.fnb.doneObject.reverse)
    (hexit : z = some .exit0 → 10 ≤ j) (hlvl : z = none → q.exits = x)
    (hcommit : ∀ b err, .bootstrapFn b err ∈ d → ∃ r, .genesisCommit r ∈ n.trace) :
    Good D B x j z q := by
  have hcl := h.clean
  constructor
  · intro e he t hx
    rw [ht, List.mem_append] at he
    rcases he with he | he
    · rw [hcl e he] at hx; exact absurd hx (by simp)
    · exact hdead e he t hx
  · intro e he
    rw [ht, List.mem_append] at he
    rcases he with he | he
    · exact le_trans (h.ph e he) hk
    · exact (hph e he).2
  · rw [ht, List.pairwise_append]
    exact ⟨h.pw, hpw, fun a ha b hb => ⟨hcl a ha, le_trans (h.ph a ha) (hph b hb).1⟩⟩
  · rw [ht, hdone, h.done]; simp [pushed]
  · rw [ht]; simpa [invoked] using hinv
  · rw [hboots]; exact h.boots
  · rw [ht]; simpa [bootstrapped] using hboot
  · intro b err hm
    rw [ht, List.mem_append] at hm
    rw [ht]
    rcases hm with hm | hm
    · obtain ⟨r, hr⟩ := h.commit b err hm
      exact ⟨r, List.mem_append_left _ hr⟩
    · obtain ⟨r, hr⟩ := hcommit b err hm
      exact ⟨r, List.mem_append_left _ hr⟩
  · rw [ht]; simpa [doneAwaited] using hstop
  · intro h10
    rw [ht]; simpa [doneAwaited] using hfin h10
  · exact hexit
  · exact hlvl

theorem Good.emit_plain {D : List (namedDoneObject O)} {B : List (namedBootstrapFunc U)}
    {x : Bool} {k : Nat} {n : Node U O S} {z : Option Termination} {e : Event U O}
    (h : Good D B x k none n) (he : e.plain = true) (hk : k ≤ e.phase)
    (htm : ∀ t, e.term x = some t → z = some t)
    (hx : z ≠ some .exit0) : Good D B x e.phase z (n.emit e) := by
  have h8 := plain_phase_le he
  refine Good.append [e] h rfl (by simp) (by simpa using hk) hk (by simpa using htm) ?_ ?_ rfl
    ?_ ?_ (fun h10 => by omega) (fun h0 => absurd h0 hx) (fun _ => h.lvl rfl) ?_
  · cases e <;> simp [Event.plain, pushed, Node.emit] at he ⊢
  · have := h.inv
    cases e <;> simp [Event.plain, invoked, Node.emit] at he this ⊢ <;> exact this
  · have := h.boot
    cases e <;> simp [Event.plain, bootstrapped] at he this ⊢ <;> exact this
  · have := h.stop
    cases e <;> simp [Event.plain, doneAwaited, Node.emit] at he this ⊢ <;> exact this
  · intro b err hm
    simp only [List.mem_singleton] at hm
    subst hm
    simp [Event.plain] at he

theorem Good.frame {D : List (namedDoneObject O)} {B : List (namedBootstrapFunc U)} {x : Bool}
    {k : Nat} {z : Option Termination} {n q : Node U O S} (h : Good D B x k z n)
    (ht : q.trace = n.trace) (hd : q.fnb.doneObject = n.fnb.doneObject)
    (hc : n.fnb.components <+: q.fnb.components)
    (hb : q.fnb.bootstraps = n.fnb.bootstraps) (hl : q.fnb.Logger = n.fnb.Logger) :
    Good D B x k z q := by
  constructor
  · rw [ht]; exact h.dead
  · rw [ht]; exact h.ph
  · rw [ht]; exact h.pw
  · rw [ht, hd]; exact h.done
  · rw [ht]; exact h.inv.trans hc
  · rw [hb]; exact h.boots
  · rw [ht]; exact h.boot
  · rw [ht]; exact h.commit
  · rw [ht, hd]; exact h.stop
  · rw [ht, hd]; exact h.fin
  · exact h.exit
  · intro hz
    rw [← h.lvl hz]
    simp only [Node.exits, hl]

theorem Good.log {D : List (namedDoneObject O)} {B : List (namedBootstrapFunc U)} {x : Bool}
    {k : Nat} {z : Option Termination} {n : Node U O S} (h : Good D B x k z n) (l : Level)
    (msg : String) : Good D B x k z (n.log l msg) :=
  h.frame rfl rfl (List.prefix_refl _) rfl rfl

theorem Good.mono {D : List (namedDoneObject O)} {B : List (namedBootstrapFunc U)} {x : Bool}
    {k j : Nat} {z : Option Termination} {n : Node U O S} (h : Good D B x k z n) (hk : k ≤ j)
    (h10 : 10 ≤ j → 10 ≤ k) : Good D B x j z n :=
  { h with
    ph := fun e he => le_trans (h.ph e he) hk
    fin := fun h10j => h.fin (h10 h10j)
    exit := fun h0 => le_trans (h.exit h0) hk }

/-- The process ends without a further interaction. -/
theorem Good.halt {D : List (namedDoneObject O)} {B : List (namedBootstrapFunc U)} {x : Bool}
    {k : Nat} {n : Node U O S} (h : Good D B x k none n) (z : Termination)
    (hx : z = .exit0 → 10 ≤ k) : Good D B x k (some z) n := by
  have hcl := h.clean
  exact
    { h with
      dead := fun e he t ht => by rw [hcl e he] at ht; exact absurd ht (by simp)
      exit := fun h0 => hx (by simpa using h0)
      lvl := fun h0 => absurd h0 (by simp) }

theorem Step.Good.andThen {D : List (namedDoneObject O)} {B : List (namedBootstrapFunc U)}
    {x : Bool} {k j : Nat} {r : Step (Node U O S)} {f : Node U O S → Step (Node U O S)}
    (h : Step.Good D B x k r) (hf : ∀ n, cmd.Good D B x k none n → Step.Good D B x j (f n)) :
    Step.Good D B x j (r.bind f) := by
  cases r with
  | next n => exact hf n h
  | halt z n => exact h

theorem Step.Good.raise {D : List (namedDoneObject O)} {B : List (namedBootstrapFunc U)}
    {x : Bool} {k j : Nat} {r : Step (Node U O S)} (h : Step.Good D B x k r) (hk : k ≤ j)
    (h10 : 10 ≤ j → 10 ≤ k) : Step.Good D B x j r := by
  cases r with
  | next n => exact cmd.Good.mono h hk h10
  | halt z n => exact h

/-- A fatal log event right after the interaction `e`: the process ends when the logger lets
the event through and goes on otherwise. -/
theorem Good.emit_fatal {D : List (namedDoneObject O)} {B : List (namedBootstrapFunc U)}
    {x : Bool} {k : Nat} {n : Node U O S} {e : Event U O} (h : Good D B x k none n)
    (he : e.plain = true) (hk : k ≤ e.phase) (msg : String)
    (htm : e.term x = if x then some (.fatal msg) else none) :
    Step.Good D B x e.phase (Fatal msg (n.emit e)) := by
  have hl : (n.emit e).fnb.Logger.enabled .fatal = x := h.lvl rfl
  unfold Fatal
  rw [hl]
  cases x with
  | true =>
    exact ⟨_, (h.emit_plain (z := some (.fatal msg)) he hk (by simp [htm]) (by simp)).log _ _⟩
  | false =>
    exact (h.emit_plain (z := none) he hk (by simp [htm]) (by simp)).log _ _

theorem mustNil_good {D : List (namedDoneObject O)} {B : List (namedBootstrapFunc U)} {x : Bool}
    {k : Nat} {n : Node U O S} (h : Good D B x k none n) (c : Call) (err : Option String)
    (hk : k ≤ c.phase) (hc : c.early = false) : Step.Good D B x c.phase (mustNil c err n) := by
  cases err with
  | none =>
    exact h.emit_plain (e := .call c true) rfl hk (by simp [Event.term]) (by simp)
  | some e =>
    exact h.emit_fatal (e := .call c false) rfl hk _ (by cases x <;> simp [Event.term, hc])

theorem check_good {D : List (namedDoneObject O)} {B : List (namedBootstrapFunc U)} {x : Bool}
    {k : Nat} {n : Node U O S} (h : Good D B x k none n) (c : Call) (ok : Bool)
    (hk : k ≤ c.phase) (hc : c.early = false) : Step.Good D B x c.phase (check c ok n) := by
  cases ok with
  | true =>
    exact h.emit_plain (e := .call c true) rfl hk (by simp [Event.term]) (by simp)
  | false =>
    exact h.emit_fatal (e := .call c false) rfl hk _ (by cases x <;> simp [Event.term, hc])

theorem must_good {D : List (namedDoneObject O)} {B : List (namedBootstrapFunc U)} {x : Bool}
    {k j : Nat} {n : Node U O S} {α : Type} (h : Good D B x k none n) (c : Call)
    (r : α × Option String) (rest : α → Node U O S → Step (Node U O S))
    (hk : k ≤ c.phase) (hc : c.early = false)
    (hrest : ∀ a m, Good D B x c.phase none m → Step.Good D B x j (rest a m)) :
    Step.Good D B x j (must c r n rest) :=
  (mustNil_good h c r.2 hk hc).andThen (hrest r.1)

theorem forEach_good {D : List (namedDoneObject O)} {B : List (namedBootstrapFunc U)} {x : Bool}
    {k : Nat} {α : Type} (body : α → Node U O S → Step (Node U O S))
    (hbody : ∀ a n, Good D B x k none n → Step.Good D B x k (body a n)) :
    ∀ (xs : List α) (n : Node U O S), Good D B x k none n →
      Step.Good D B x k (forEach body xs n)
  | [], _, h => h
  | a :: xs, n, h => (hbody a n h).andThen (forEach_good body hbody xs)

/-! ## The stages of Run keep the invariant -/

theorem applyRegs_doneObject (rs : List (Registration U O)) :
    ∀ fnb : FlowNodeBuilder U O, (applyRegs fnb rs).doneObject = fnb.doneObject := by
  induction rs with
  | nil => intro fnb; rfl
  | cons r rs ih =>
    intro fnb
    simp only [applyRegs, List.foldl_cons] at ih ⊢
    rw [ih]
    cases r <;> rfl

theorem applyRegs_bootstraps (rs : List (Registration U O)) :
    ∀ fnb : FlowNodeBuilder U O, (applyRegs fnb rs).bootstraps = fnb.bootstraps := by
  induction rs with
  | nil => intro fnb; rfl
  | cons r rs ih =>
    intro fnb
    simp only [applyRegs, List.foldl_cons] at ih ⊢
    rw [ih]
    cases r <;> rfl

theorem applyRegs_Logger (rs : List (Registration U O)) :
    ∀ fnb : FlowNodeBuilder U O, (applyRegs fnb rs).Logger = fnb.Logger := by
  induction rs with
  | nil => intro fnb; rfl
  | cons r rs ih =>
    intro fnb
    simp only [applyRegs, List.foldl_cons] at ih ⊢
    rw [ih]
    cases r <;> rfl

theorem applyRegs_components (rs : List (Registration U O)) :
    ∀ fnb : FlowNodeBuilder U O, fnb.components <+: (applyRegs fnb rs).components := by
  induction rs with
  | nil => intro fnb; exact List.prefix_refl _
  | cons r rs ih =>
    intro fnb
    simp only [applyRegs, List.foldl_cons] at ih ⊢
    refine List.IsPrefix.trans ?_ (ih _)
    cases r
    · exact List.prefix_refl _
    · exact List.prefix_append _ _
    · exact List.prefix_refl _

theorem Good.effect {D : List (namedDoneObject O)} {B : List (namedBootstrapFunc U)} {x : Bool}
    {k : Nat} {z : Option Termination} {n : Node U O S} (h : Good D B x k z n)
    (e : Effect U O S) : Good D B x k z (n.effect e) :=
  h.frame rfl (applyRegs_doneObject _ _) (applyRegs_components _ _) (applyRegs_bootstraps _ _)
    (applyRegs_Logger _ _)

theorem initProfiler_good {D : List (namedDoneObject O)} {B : List (namedBootstrapFunc U)}
    {x : Bool} (env : Env U O S) (n : Node U O S) (h : Good D B x 0 none n) :
    Step.Good D B x 0 (initProfiler env n) := by
  unfold initProfiler
  split
  · exact h
  · refine must_good h _ _ _ (by simp [Call.phase]) rfl fun p m1 h1 => ?_
    exact Good.frame h1 rfl rfl (List.prefix_append _ _) rfl rfl

theorem initDB_good {D : List (namedDoneObject O)} {B : List (namedBootstrapFunc U)}
    {x : Bool} (env : Env U O S) (n : Node U O S) (h : Good D B x 0 none n) :
    Step.Good D B x 0 (initDB env n) :=
  Step.Good.andThen (k := 0) (mustNil_good h _ _ (by simp [Call.phase]) rfl)
    fun _ h1 => mustNil_good h1 _ _ (by simp [Call.phase]) rfl

theorem initMetrics_good {D : List (namedDoneObject O)} {B : List (namedBootstrapFunc U)}
    {x : Bool} (env : Env U O S) (n : Node U O S) (h : Good D B x 0 none n) :
    Step.Good D B x 0 (initMetrics env n) := by
  unfold initMetrics
  refine must_good h _ _ _ (by simp [Call.phase]) rfl fun p m1 h1 => ?_
  exact Good.frame h1 rfl rfl (List.prefix_append _ _) rfl rfl

theorem initStorage_good {D : List (namedDoneObject O)} {B : List (namedBootstrapFunc U)}
    {x : Bool} (env : Env U O S) (n : Node U O S) (h : Good D B x 0 none n) :
    Step.Good D B x 0 (initStorage env n) := by
  have h1 : Good D B x 0 none { n with store := (env.InitMax n.store).1 } :=
    Good.frame h rfl rfl (List.prefix_refl _) rfl rfl
  exact mustNil_good h1 .InitMax (env.InitMax n.store).2 (by simp [Call.phase]) rfl

theorem handlePostInit_good {D : List (namedDoneObject O)} {B : List (namedBootstrapFunc U)}
    {x : Bool} (env : Env U O S) (f : U) (n : Node U O S) (h : Good D B x 5 none n) :
    Step.Good D B x 5 (handlePostInit env f n) :=
  (h.effect _).emit_plain (e := .postInit f) rfl (by simp [Event.phase])
    (by simp [Event.term]) (by simp)

theorem handleModule_good {D : List (namedDoneObject O)} {B : List (namedBootstrapFunc U)}
    {x : Bool} (env : Env U O S) (v : namedModuleFunc U) (n : Node U O S)
    (h : Good D B x 6 none n) : Step.Good D B x 6 (handleModule env v n) := by
  unfold handleModule
  generalize env.moduleFn v.fn n.fnb n.store = r
  obtain ⟨eff, err⟩ := r
  cases err with
  | none =>
    exact ((h.effect eff).emit_plain (e := .moduleFn v none) (z := none) rfl
      (by simp [Event.phase]) (by simp [Event.term]) (by simp)).log _ _
  | some e =>
    exact (h.effect eff).emit_fatal (e := .moduleFn v (some e)) rfl (by simp [Event.phase]) _
      (by cases x <;> simp [Event.term])

end

section
variable {U O S : Type}

/-! ## initNodeInfo and initLogger -/

theorem early_phase {c : Call} (h : c.early = true) : c.phase = 0 := by
  cases c <;> simp [Call.early] at h <;> rfl

theorem Early.good {D : List (namedDoneObject O)} {B : List (namedBootstrapFunc U)}
    {n : Node U O S} (h : Early D B n) (x : Bool) (z : Option Termination)
    (hz : z ≠ some .exit0) (hl : z = none → n.exits = x) : Good D B x 0 z n := by
  obtain ⟨he, hd, hb⟩ := h
  have hterm : ∀ e ∈ n.trace, e.term x = none := by
    intro e hm
    obtain ⟨c, ok, rfl, hc⟩ := he e hm
    cases ok <;> simp [Event.term, hc]
  have hphase : ∀ e ∈ n.trace, e.phase = 0 := by
    intro e hm
    obtain ⟨c, ok, rfl, hc⟩ := he e hm
    exact early_phase hc
  have hfm : ∀ {β : Type} (f : Event U O → Option β),
      (∀ c ok, f (.call c ok) = none) → n.trace.filterMap f = [] := by
    intro β f hf
    rw [List.filterMap_eq_nil_iff]
    intro e hm
    obtain ⟨c, ok, rfl, -⟩ := he e hm
    exact hf c ok
  constructor
  · intro e hm t ht
    rw [hterm e hm] at ht
    exact absurd ht (by simp)
  · intro e hm
    rw [hphase e hm]
  · refine List.Pairwise.imp_of_mem ?_ (List.pairwise_of_forall (R := fun _ _ => True)
      (l := n.trace) fun _ _ => trivial)
    intro a b ha hb _
    exact ⟨hterm a ha, by rw [hphase a ha, hphase b hb]⟩
  · rw [hd, pushed, hfm _ (fun _ _ => rfl)]
    simp
  · rw [invoked, hfm _ (fun _ _ => rfl)]
    exact List.nil_prefix
  · exact hb
  · rw [bootstrapped, hfm _ (fun _ _ => rfl)]
    exact List.nil_prefix
  · intro b err hm
    obtain ⟨c, ok, heq, -⟩ := he _ hm
    simp at heq
  · rw [doneAwaited, hfm _ (fun _ _ => rfl)]
    exact List.nil_prefix
  · intro h10; omega
  · intro h0; exact absurd h0 hz
  · exact hl

theorem Step.Early.andThenEarly {D : List (namedDoneObject O)} {B : List (namedBootstrapFunc U)}
    {r : Step (Node U O S)} {f : Node U O S → Step (Node U O S)} (h : Step.Early D B r)
    (hf : ∀ n, cmd.Early D B n → Step.Early D B (f n)) : Step.Early D B (r.bind f) := by
  cases r with
  | next n => exact hf n h.1
  | halt z n => exact h

theorem Early.logEarly {D : List (namedDoneObject O)} {B : List (namedBootstrapFunc U)}
    {n : Node U O S} (h : Early D B n) (l : Level) (msg : String) : Early D B (n.log l msg) :=
  h

theorem Early.emit {D : List (namedDoneObject O)} {B : List (namedBootstrapFunc U)}
    {n : Node U O S} (h : Early D B n) (c : Call) (ok : Bool) (hc : c.early = true) :
    Early D B (n.emit (.call c ok)) := by
  refine ⟨?_, h.2.1, h.2.2⟩
  intro e he
  simp only [Node.emit, List.mem_append, List.mem_singleton] at he
  rcases he with he | rfl
  · exact h.1 e he
  · exact ⟨c, ok, rfl, hc⟩

theorem Fatal_early {D : List (namedDoneObject O)} {B : List (namedBootstrapFunc U)}
    {n : Node U O S} (h : Early D B n) (msg : String) : Step.Early D B (Fatal msg n) := by
  unfold Fatal
  split
  · exact ⟨h.logEarly _ _, by simp [Step.term]⟩
  · exact ⟨h.logEarly _ _, by simp [Step.term]⟩

theorem must_early {D : List (namedDoneObject O)} {B : List (namedBootstrapFunc U)}
    {n : Node U O S} {α : Type} (h : Early D B n) (c : Call) (r : α × Option String)
    (rest : α → Node U O S → Step (Node U O S)) (hc : c.early = true)
    (hrest : ∀ a m, Early D B m → Step.Early D B (rest a m)) :
    Step.Early D B (must c r n rest) := by
  unfold must mustNil
  refine Step.Early.andThenEarly ?_ (hrest r.1)
  split
  · exact Fatal_early (h.emit c false hc) _
  · exact ⟨h.emit c true hc, by simp [Step.term]⟩

theorem initNodeInfo_early {D : List (namedDoneObject O)} {B : List (namedBootstrapFunc U)}
    (env : Env U O S) (n : Node U O S) (h : Early D B n) :
    Step.Early D B (initNodeInfo env n) := by
  unfold initNodeInfo
  refine Step.Early.andThenEarly (?_ : Step.Early D B _) fun n0 h0 => ?_
  · split
    · exact Fatal_early h _
    · exact ⟨h, by simp [Step.term]⟩
  · refine must_early h0 _ _ _ rfl fun nodeID m1 h1 => ?_
    refine must_early h1 _ _ _ rfl fun info m2 h2 => ?_
    cases info with
    | none => exact ⟨h2, by simp [Step.term]⟩
    | some info => exact ⟨h2, by simp [Step.term]⟩

theorem initLogger_early {D : List (namedDoneObject O)} {B : List (namedBootstrapFunc U)}
    (env : Env U O S) (n : Node U O S) (h : Early D B n) :
    Step.Early D B (initLogger env n) := by
  unfold initLogger
  exact must_early (h.logEarly _ _) _ _ _ rfl fun lvl m h1 => ⟨h1, by simp [Step.term]⟩

/-- The invariant holds after initLogger, for the level that initLogger configured. -/
theorem early_good {D : List (namedDoneObject O)} {B : List (namedBootstrapFunc U)}
    (env : Env U O S) (n : Node U O S) (h : Early D B n) (x : Bool)
    (hx : ∀ m, (initNodeInfo env n).bind (initLogger env) = .next m → m.exits = x) :
    Step.Good D B x 0 ((initNodeInfo env n).bind (initLogger env)) := by
  have he : Step.Early D B ((initNodeInfo env n).bind (initLogger env)) :=
    (initNodeInfo_early env n h).andThenEarly (initLogger_early env)
  revert he hx
  cases (initNodeInfo env n).bind (initLogger env) with
  | next m => exact fun hx he => he.1.good x none (by simp) (fun _ => hx m rfl)
  | halt z m =>
    exact fun _ he => ⟨0, he.1.good x (some z) (by simpa [Step.term] using he.2) (by simp)⟩

/-! ## initState keeps the invariant -/

theorem bootstrapped_eq_nil {t : List (Event U O)} (h : ∀ e ∈ t, e.phase ≤ 2) :
    bootstrapped t = [] := by
  rw [bootstrapped, List.filterMap_eq_nil_iff]
  intro e he
  have := h e he
  cases e <;> simp [Event.phase] at this ⊢

theorem invoked_eq_nil {t : List (Event U O)} (h : ∀ e ∈ t, e.phase ≤ 6) : invoked t = [] := by
  rw [invoked, List.filterMap_eq_nil_iff]
  intro e he
  have := h e he
  cases e <;> simp [Event.phase] at this ⊢

theorem doneAwaited_eq_nil {t : List (Event U O)} (h : ∀ e ∈ t, e.phase ≤ 8) :
    doneAwaited t = [] := by
  rw [doneAwaited, List.filterMap_eq_nil_iff]
  intro e he
  have := h e he
  cases e <;> simp [Event.phase] at this ⊢

/-- A bootstrap function was applied. -/
theorem Good.emit_boot {D : List (namedDoneObject O)} {B : List (namedBootstrapFunc U)}
    {x : Bool} {n q : Node U O S} (b : namedBootstrapFunc U) (err : Option String)
    (z : Option Termination) (h : Good D B x 3 none n)
    (hg : ∃ r, .genesisCommit r ∈ n.trace) (hb : bootstrapped n.trace ++ [b] <+: B)
    (ht : q.trace = n.trace ++ [.bootstrapFn b err]) (hf : q.fnb = n.fnb)
    (htm : ∀ t, (Event.bootstrapFn b err : Event U O).term x = some t → z = some t)
    (hz : z ≠ some .exit0) : Good D B x 3 z q := by
  have hda := doneAwaited_eq_nil (fun e he => le_trans (h.ph e he) (by omega))
  have hin := invoked_eq_nil (fun e he => le_trans (h.ph e he) (by omega))
  exact Good.append [.bootstrapFn b err] h ht (by simp) (by simp [Event.phase]) (le_refl _)
    (by simpa using htm) (by simp [pushed, hf]) (by rw [hin, hf]; simp [invoked]) (by rw [hf])
    (by simpa [bootstrapped] using hb) (by rw [hda]; simp [doneAwaited]) (by omega)
    (fun h0 => absurd h0 hz) (fun _ => by rw [← h.lvl rfl]; simp [Node.exits, hf])
    (fun _ _ _ => hg)

theorem bootLoop_good {D : List (namedDoneObject O)} {B : List (namedBootstrapFunc U)}
    {x : Bool} (env : Env U O S) :
    ∀ (bs : List (namedBootstrapFunc U)) (n : Node U O S), Good D B x 3 none n →
      (∃ r, .genesisCommit r ∈ n.trace) → bootstrapped n.trace ++ bs <+: B →
      Step.Good D B x 3 (forEach (applyBootstrap env) bs n)
  | [], _, h, _, _ => h
  | b :: bs, n, h, hg, hpre => by
    obtain ⟨r0, hr0⟩ := hg
    have hb : bootstrapped n.trace ++ [b] <+: B :=
      List.IsPrefix.trans ⟨bs, by simp⟩ hpre
    simp only [forEach, applyBootstrap]
    generalize env.bootstrapFn b.fn n.store = r
    obtain ⟨s, err⟩ := r
    have hl : ({ n with store := s }.emit (.bootstrapFn b err)).fnb.Logger.enabled .fatal = x :=
      h.lvl rfl
    cases err with
    | none =>
      simp only [MustNot, Step.bind]
      exact bootLoop_good env bs _
        (Good.emit_boot (q := { n with store := s }.emit (.bootstrapFn b none)) b none none h
          ⟨r0, hr0⟩ hb rfl rfl (by simp [Event.term]) (by simp))
        ⟨r0, by simp [Node.emit, hr0]⟩
        (by simpa [Node.emit, bootstrapped] using hpre)
    | some e =>
      simp only [MustNot, Fatal]
      rw [hl]
      cases x with
      | true =>
        exact ⟨3, (Good.emit_boot (q := { n with store := s }.emit (.bootstrapFn b (some e))) b
          (some e) (some (.fatal "could not apply bootstrap function")) h ⟨r0, hr0⟩ hb rfl rfl
          (by simp [Event.term]) (by simp)).log _ _⟩
      | false =>
        simp only [Bool.false_eq_true, if_false, Step.bind]
        exact bootLoop_good env bs _
          ((Good.emit_boot (q := { n with store := s }.emit (.bootstrapFn b (some e))) b
            (some e) none h ⟨r0, hr0⟩ hb rfl rfl (by simp [Event.term]) (by simp)).log _ _)
          ⟨r0, by simp [Node.emit, Node.log, hr0]⟩
          (by simpa [Node.emit, Node.log, bootstrapped] using hpre)

theorem initStateCallbacks_good {D : List (namedDoneObject O)}
    {B : List (namedBootstrapFunc U)} {x : Bool} (env : Env U O S) (n : Node U O S)
    (h : Good D B x 2 none n) (hg : ∃ r, .genesisCommit r ∈ n.trace) :
    Step.Good D B x 4 (initStateCallbacks env n) := by
  unfold initStateCallbacks
  refine Step.Good.andThen (k := 3)
    (bootLoop_good env _ _ (h.mono (by omega) (by omega)) hg ?_) fun n9 h9 => ?_
  · rw [bootstrapped_eq_nil h.ph, h.boots]
    exact List.prefix_refl _
  · refine must_good h9 _ _ _ (by simp [Call.phase]) rfl fun dkg m h10 => ?_
    exact Good.frame h10 rfl rfl (List.prefix_refl _) rfl rfl

theorem initStateBootstrap_good {D : List (namedDoneObject O)}
    {B : List (namedBootstrapFunc U)} {x : Bool} (env : Env U O S) (n : Node U O S)
    (h : Good D B x 1 none n) : Step.Good D B x 4 (initStateBootstrap env n) := by
  unfold initStateBootstrap
  dsimp only
  refine Step.Good.andThen (k := 1)
      (mustNil_good (k := 1) ?_ (.loadRootBlock .bootstrap) _ (by simp [Call.phase]) rfl)
    fun n1 h1 => ?_
  · exact Good.frame (h.log _ _) rfl rfl (List.prefix_refl _) rfl rfl
  split
  · exact ⟨1, h1.halt .panic (by simp)⟩
  · refine Step.Good.andThen (k := 1)
      (mustNil_good (k := 1) ?_ (.loadRootQC .bootstrap) _ (by simp [Call.phase]) rfl)
      fun n4 h4 => ?_
    · exact Good.frame h1 rfl rfl (List.prefix_refl _) rfl rfl
    refine must_good h4 _ _ _ (by simp [Call.phase]) rfl fun rootResult n5 h5 => ?_
    refine must_good h5 _ _ _ (by simp [Call.phase]) rfl fun rootSeal n6 h6 => ?_
    simp only [Call.phase] at h6
    generalize env.Bootstrap n6.fnb.RootBlock rootResult rootSeal n6.store = r
    obtain ⟨s, err⟩ := r
    have h6s : Good D B x 1 none { n6 with store := s } :=
      Good.frame h6 rfl rfl (List.prefix_refl _) rfl rfl
    have hl : ({ n6 with store := s }.emit (.genesisCommit err)).fnb.Logger.enabled .fatal = x :=
      h6.lvl rfl
    cases err with
    | none =>
      simp only [MustNot, Step.bind]
      exact initStateCallbacks_good env _
        (h6s.emit_plain (e := .genesisCommit none) rfl (by simp [Event.phase])
          (by simp [Event.term]) (by simp))
        ⟨none, by simp [Node.emit]⟩
    | some e =>
      simp only [MustNot, Fatal]
      rw [hl]
      cases x with
      | true =>
        exact ⟨2, (h6s.emit_plain (e := .genesisCommit (some e))
          (z := some (.fatal "could not bootstrap protocol state")) rfl (by simp [Event.phase])
          (by simp [Event.term]) (by simp)).log _ _⟩
      | false =>
        simp only [Bool.false_eq_true, if_false, Step.bind]
        exact initStateCallbacks_good env _
          ((h6s.emit_plain (e := .genesisCommit (some e)) (z := none) rfl
            (by simp [Event.phase]) (by simp [Event.term]) (by simp)).log _ _)
          ⟨some e, by simp [Node.emit, Node.log]⟩

theorem initStateResume_good {D : List (namedDoneObject O)}
    {B : List (namedBootstrapFunc U)} {x : Bool} (env : Env U O S) (n : Node U O S)
    (h : Good D B x 1 none n) : Step.Good D B x 4 (initStateResume env n) := by
  unfold initStateResume
  dsimp only
  refine Step.Good.andThen (k := 1)
      (mustNil_good (k := 1) ?_ (.loadRootBlock .resume) _ (by simp [Call.phase]) rfl)
    fun n1 h1 => ?_
  · exact Good.frame h rfl rfl (List.prefix_refl _) rfl rfl
  split
  · exact ⟨1, h1.halt .panic (by simp)⟩
  · refine Step.Good.andThen (k := 1)
      (mustNil_good (k := 1) ?_ (.loadRootQC .resume) _ (by simp [Call.phase]) rfl)
      fun n4 h4 => ?_
    · exact Good.frame h1 rfl rfl (List.prefix_refl _) rfl rfl
    refine must_good h4 _ _ _ (by simp [Call.phase]) rfl fun dkg n5 h5 => ?_
    exact Good.frame h5 rfl rfl (List.prefix_refl _) rfl rfl

theorem initStateIdentity_good {D : List (namedDoneObject O)}
    {B : List (namedBootstrapFunc U)} {x : Bool} (env : Env U O S) (n : Node U O S)
    (h : Good D B x 4 none n) : Step.Good D B x 4 (initStateIdentity env n) := by
  unfold initStateIdentity
  refine must_good h _ _ _ (by simp [Call.phase]) rfl fun myID m1 h1 => ?_
  refine must_good h1 _ _ _ (by simp [Call.phase]) rfl fun self m2 h2 => ?_
  cases self with
  | none => exact ⟨4, h2.halt .panic (by simp)⟩
  | some self =>
    dsimp only
    refine Step.Good.andThen (k := 4) (check_good h2 .networkKeyEquals _ (by simp [Call.phase]) rfl)
      fun m3 h3 => ?_
    refine Step.Good.andThen (k := 4) (check_good h3 .stakingKeyEquals _ (by simp [Call.phase]) rfl)
      fun m4 h4 => ?_
    refine Step.Good.andThen (k := 4)
      (mustNil_good (k := 4) ?_ .localNew _ (by simp [Call.phase]) rfl)
      fun m5 h5 => ?_
    · exact Good.frame h4 rfl rfl (List.prefix_refl _) rfl rfl
    exact Good.frame h5 rfl rfl (List.prefix_refl _) rfl rfl

theorem initStateBranch_good {D : List (namedDoneObject O)}
    {B : List (namedBootstrapFunc U)} {x : Bool} (env : Env U O S) (n : Node U O S)
    (h : Good D B x 1 none n) : Step.Good D B x 4 (initStateBranch env n) := by
  unfold initStateBranch
  split
  · exact initStateBootstrap_good env _
      (h.emit_plain (e := .headQuery _) rfl (by simp [Event.phase]) (by simp [Event.term])
        (by simp))
  · exact Step.Good.raise (h.emit_fatal (e := .headQuery _) rfl (by simp [Event.phase]) _
      (by cases x <;> simp [Event.term])) (by simp [Event.phase]) (by omega)
  · exact initStateResume_good env _
      (h.emit_plain (e := .headQuery _) rfl (by simp [Event.phase]) (by simp [Event.term])
        (by simp))

theorem initState_good {D : List (namedDoneObject O)} {B : List (namedBootstrapFunc U)}
    {x : Bool} (env : Env U O S) (n : Node U O S) (h : Good D B x 0 none n) :
    Step.Good D B x 4 (initState env n) := by
  unfold initState
  refine Step.Good.andThen (k := 1) (mustNil_good h .NewState _ (by simp [Call.phase]) rfl) ?_
  intro n1 h1
  exact Step.Good.andThen (k := 4) (initStateBranch_good env n1 h1)
    fun n2 h2 => initStateIdentity_good env n2 h2

end

section
variable {U O S : Type}

/-! ## Startup of the components keeps the invariant -/

theorem callComponent_frame (env : Env U O S) (fn : ComponentFn U O) (n : Node U O S) :
    (callComponent env fn n).1.trace = n.trace ∧
    (callComponent env fn n).1.fnb.doneObject = n.fnb.doneObject ∧
    n.fnb.components <+: (callComponent env fn n).1.fnb.components ∧
    (callComponent env fn n).1.fnb.bootstraps = n.fnb.bootstraps ∧
    (callComponent env fn n).1.fnb.Logger = n.fnb.Logger := by
  cases fn with
  | network =>
    simp only [callComponent]
    split <;> exact ⟨rfl, rfl, List.prefix_refl _, rfl, rfl⟩
  | metricsServer => exact ⟨rfl, rfl, List.prefix_refl _, rfl, rfl⟩
  | tracer => exact ⟨rfl, rfl, List.prefix_refl _, rfl, rfl⟩
  | profiler p => exact ⟨rfl, rfl, List.prefix_refl _, rfl, rfl⟩
  | mempools m => exact ⟨rfl, rfl, List.prefix_refl _, rfl, rfl⟩
  | user u =>
    exact ⟨rfl, applyRegs_doneObject _ _, applyRegs_components _ _, applyRegs_bootstraps _ _,
      applyRegs_Logger _ _⟩

/-- An interaction of the loop over the components took place. -/
theorem Good.emit_comp {D : List (namedDoneObject O)} {B : List (namedBootstrapFunc U)}
    {x : Bool} {n q : Node U O S} (e : Event U O) (z : Option Termination)
    (h : Good D B x 7 none n) (he : e.phase = 7) (ht : q.trace = n.trace ++ [e])
    (hd : q.fnb.doneObject = n.fnb.doneObject ++ pushed x [e])
    (hinv : invoked n.trace ++ invoked [e] <+: q.fnb.components)
    (hb : q.fnb.bootstraps = n.fnb.bootstraps) (hl : q.fnb.Logger = n.fnb.Logger)
    (htm : ∀ t, e.term x = some t → z = some t) (hz : z ≠ some .exit0) :
    Good D B x 7 z q := by
  have hda := doneAwaited_eq_nil (fun a ha => le_trans (h.ph a ha) (by omega))
  have hde : doneAwaited [e] = [] := doneAwaited_eq_nil (by simp [he])
  have hbe : bootstrapped [e] = [] := by
    cases e <;> simp [Event.phase, bootstrapped] at he ⊢
  exact Good.append [e] h ht (by simp) (by simp [he]) (le_refl _) (by simpa using htm) hd hinv hb
    (by rw [hbe]; simpa using h.boot) (by rw [hda, hde]; simp) (by omega)
    (fun h0 => absurd h0 hz) (fun _ => by rw [← h.lvl rfl]; simp [Node.exits, hl])
    (fun b err hm => by
      simp only [List.mem_singleton] at hm
      subst hm
      simp [Event.phase] at he)

/-- The select of handleComponent and the append to the stack that follows it. -/
theorem awaitReady_good {D : List (namedDoneObject O)} {B : List (namedBootstrapFunc U)}
    {x : Bool} (env : Env U O S) (name : String) (o : O) (n : Node U O S)
    (h : Good D B x 7 none n) :
    Step.Good D B x 7 ((awaitReady env name o n).bind fun n3 =>
      .next { n3 with fnb := { n3.fnb with
        doneObject := n3.fnb.doneObject ++ [namedDoneObject.mk o name] } }) ∧
    ∀ q, ((awaitReady env name o n).bind fun n3 =>
      .next { n3 with fnb := { n3.fnb with
        doneObject := n3.fnb.doneObject ++ [namedDoneObject.mk o name] } }) = .next q →
      invoked q.trace = invoked n.trace ∧ q.fnb.components = n.fnb.components := by
  have hl : n.fnb.Logger.enabled .fatal = x := h.lvl rfl
  unfold awaitReady
  generalize selectWait n.sig (env.wait n.waits) = w
  obtain ⟨r, buf⟩ := w
  dsimp only
  cases r with
  | signal =>
    refine ⟨?_, ?_⟩
    · exact Good.emit_comp (.readyWait ⟨o, name⟩ .signal) none h rfl rfl
        (by simp [pushed, Node.emit, Node.log, Step.bind])
        (by simpa [invoked, Node.emit, Node.log, Step.bind] using h.inv) rfl rfl
        (by simp [Event.term]) (by simp)
    · intro q hq
      simp only [Step.bind, Step.next.injEq] at hq
      subst hq
      simp [invoked, Node.emit, Node.log]
  | timeout =>
    simp only [Fatal, Node.emit, hl]
    cases x with
    | true =>
      refine ⟨⟨7, ?_⟩, ?_⟩
      · exact Good.emit_comp (.readyWait ⟨o, name⟩ .timeout) _ h rfl rfl
          (by simp [pushed, Node.log]) (by simpa [invoked, Node.log] using h.inv) rfl rfl
          (by simp [Event.term]) (by simp)
      · intro q hq
        simp [Step.bind] at hq
    | false =>
      refine ⟨?_, ?_⟩
      · exact Good.emit_comp (.readyWait ⟨o, name⟩ .timeout) none h rfl rfl
          (by simp [pushed, Node.log, Step.bind])
          (by simpa [invoked, Node.log, Step.bind] using h.inv) rfl rfl
          (by simp [Event.term]) (by simp)
      · intro q hq
        simp only [Bool.false_eq_true, if_false, Step.bind, Step.next.injEq] at hq
        subst hq
        simp [invoked, Node.log]
  | sig =>
    refine ⟨⟨7, ?_⟩, ?_⟩
    · exact Good.emit_comp (.readyWait ⟨o, name⟩ .sig) _ h rfl rfl
        (by simp [pushed, Node.emit, Node.log])
        (by simpa [invoked, Node.emit, Node.log] using h.inv) rfl rfl
        (by simp [Event.term]) (by simp)
    · intro q hq
      simp [Step.bind] at hq

theorem handleComponent_good {D : List (namedDoneObject O)} {B : List (namedBootstrapFunc U)}
    {x : Bool} (env : Env U O S) (v : namedComponentFunc U O) (n : Node U O S)
    (h : Good D B x 7 none n) (hpre : invoked n.trace ++ [v] <+: n.fnb.components) :
    Step.Good D B x 7 (handleComponent env v n) ∧
    ∀ q, handleComponent env v n = .next q →
      invoked q.trace = invoked n.trace ++ [v] ∧ n.fnb.components <+: q.fnb.components := by
  obtain ⟨hct, hcd, hcc, hcb, hcl⟩ := callComponent_frame env v.fn n
  have hpre1 : invoked n.trace ++ [v] <+: (callComponent env v.fn n).1.fnb.components :=
    hpre.trans hcc
  have hl : (callComponent env v.fn n).1.fnb.Logger.enabled .fatal = x := by
    rw [hcl]; exact h.lvl rfl
  simp only [handleComponent]
  generalize callComponent env v.fn n = c at hct hcd hcc hcb hcl hpre1 hl
  obtain ⟨m, ob, err⟩ := c
  dsimp only at hct hcd hcc hcb hcl hpre1 hl ⊢
  have step : ∀ z : Option Termination,
      (∀ t, (Event.componentFn v ob err : Event U O).term x = some t → z = some t) →
      z ≠ some .exit0 → Good D B x 7 z (m.emit (.componentFn v ob err)) := fun z htm hz =>
    Good.emit_comp (.componentFn v ob err) z h rfl (by simp [Node.emit, hct])
      (by simp [pushed, Node.emit, hcd]) (by simpa [invoked, Node.emit] using hpre1) hcb hcl
      htm hz
  have cont : ∀ (p : Node U O S) (o : O), Good D B x 7 none p →
      invoked p.trace = invoked n.trace ++ [v] → n.fnb.components <+: p.fnb.components →
      Step.Good D B x 7 ((awaitReady env v.name o p).bind fun n3 =>
        .next { n3 with fnb := { n3.fnb with
          doneObject := n3.fnb.doneObject ++ [namedDoneObject.mk o v.name] } }) ∧
      ∀ q, ((awaitReady env v.name o p).bind fun n3 =>
        .next { n3 with fnb := { n3.fnb with
          doneObject := n3.fnb.doneObject ++ [namedDoneObject.mk o v.name] } }) = .next q →
        invoked q.trace = invoked n.trace ++ [v] ∧ n.fnb.components <+: q.fnb.components := by
    intro p o hp hi hc
    obtain ⟨hg, hn⟩ := awaitReady_good env v.name o p hp
    refine ⟨hg, fun q hq => ?_⟩
    obtain ⟨h1, h2⟩ := hn q hq
    exact ⟨h1.trans hi, by rw [h2]; exact hc⟩
  have hinv1 : invoked (m.emit (.componentFn v ob err)).trace = invoked n.trace ++ [v] := by
    simp [Node.emit, invoked, hct]
  cases err with
  | some e =>
    simp only [Fatal, Node.emit, hl]
    cases x with
    | true =>
      refine ⟨⟨7, (step (some (.fatal "component initialization failed")) ?_ (by simp)).log _ _⟩,
        fun q hq => by simp [Step.bind] at hq⟩
      cases ob <;> simp [Event.term]
    | false =>
      simp only [Bool.false_eq_true, if_false, Step.bind]
      cases ob with
      | none =>
        exact ⟨⟨7, (step (some .panic) (by simp [Event.term]) (by simp)).log _ _⟩,
          fun q hq => by simp at hq⟩
      | some o =>
        exact cont _ o ((step none (by simp [Event.term]) (by simp)).log _ _) hinv1 hcc
  | none =>
    simp only [Step.bind]
    cases ob with
    | none =>
      exact ⟨⟨7, (step (some .panic) (by simp [Event.term]) (by simp)).log _ _⟩,
        fun q hq => by simp at hq⟩
    | some o =>
      exact cont _ o ((step none (by simp [Event.term]) (by simp)).log _ _) hinv1 hcc

theorem compLoop_good {D : List (namedDoneObject O)} {B : List (namedBootstrapFunc U)}
    {x : Bool} (env : Env U O S) :
    ∀ (cs : List (namedComponentFunc U O)) (n : Node U O S), Good D B x 7 none n →
      invoked n.trace ++ cs <+: n.fnb.components →
      Step.Good D B x 7 (forEach (handleComponent env) cs n)
  | [], _, h, _ => h
  | v :: cs, n, h, hpre => by
    obtain ⟨hg, hn⟩ := handleComponent_good env v n h (List.IsPrefix.trans ⟨cs, by simp⟩ hpre)
    simp only [forEach]
    cases hc : handleComponent env v n with
    | halt z m =>
      rw [hc] at hg
      exact hg
    | next q =>
      rw [hc] at hg
      obtain ⟨hi, hcomp⟩ := hn q hc
      exact compLoop_good env cs q hg (by rw [hi]; simpa using hpre.trans hcomp)

/-! ## Main loop and shutdown keep the invariant -/

theorem mainWait_good {D : List (namedDoneObject O)} {B : List (namedBootstrapFunc U)}
    {x : Bool} (env : Env U O S) (n : Node U O S) (h : Good D B x 7 none n) :
    Step.Good D B x 8 (mainWait env n) := by
  unfold mainWait
  dsimp only
  split
  · exact ⟨8, h.emit_plain (e := .mainWait false) (z := some .blocked) rfl
      (by simp [Event.phase]) (by simp [Event.term]) (by simp)⟩
  · have h1 : Good D B x 7 none
        { n with sig := notify n.sig (env.wait n.waits).sigs - 1, waits := n.waits + 1 } :=
      Good.frame h rfl rfl (List.prefix_refl _) rfl rfl
    exact h1.emit_plain (e := .mainWait true) (z := none) rfl (by simp [Event.phase])
      (by simp [Event.term]) (by simp)

theorem Good.emit_done {D : List (namedDoneObject O)} {B : List (namedBootstrapFunc U)}
    {x : Bool} {n q : Node U O S} (d : namedDoneObject O) (r : Select)
    (z : Option Termination) (i : Nat) (h : Good D B x 9 none n)
    (hi : i < n.fnb.doneObject.length) (hd : n.fnb.doneObject[i]? = some d)
    (hpre : doneAwaited n.trace = (n.fnb.doneObject.drop (i + 1)).reverse)
    (ht : q.trace = n.trace ++ [.doneWait d r]) (hf : q.fnb = n.fnb)
    (htm : ∀ t, (Event.doneWait d r : Event U O).term x = some t → z = some t)
    (hx : z ≠ some .exit0) :
    Good D B x 9 z q ∧ doneAwaited q.trace = (q.fnb.doneObject.drop i).reverse := by
  have hdrop : n.fnb.doneObject.drop i = d :: n.fnb.doneObject.drop (i + 1) := by
    rw [List.getElem?_eq_getElem hi] at hd
    simp only [Option.some.injEq] at hd
    rw [← hd]
    exact List.drop_eq_getElem_cons hi
  have hnew : doneAwaited n.trace ++ doneAwaited [(.doneWait d r : Event U O)] =
      (n.fnb.doneObject.drop i).reverse := by
    rw [hpre, hdrop]; simp [doneAwaited]
  refine ⟨?_, ?_⟩
  · refine Good.append [.doneWait d r] h ht (by simp) (by simp [Event.phase])
      (by omega) (by simpa using htm) (by simp [pushed, hf])
      (by simpa [invoked, hf] using h.inv) (by rw [hf])
      (by simpa [bootstrapped] using h.boot) ?_ (by omega)
      (fun h0 => absurd h0 hx) (fun _ => by rw [← h.lvl rfl]; simp [Node.exits, hf])
      (fun b err hm => by simp at hm)
    rw [hnew, hf]
    conv => rhs; rw [← List.take_append_drop i n.fnb.doneObject]
    rw [List.reverse_append]
    exact List.prefix_append _ _
  · rw [ht, hf, ← hnew]; simp [doneAwaited]

theorem stopFrom_good {D : List (namedDoneObject O)} {B : List (namedBootstrapFunc U)}
    {x : Bool} (env : Env U O S) :
    ∀ (i : Nat) (n : Node U O S), Good D B x 9 none n → i ≤ n.fnb.doneObject.length →
      doneAwaited n.trace = (n.fnb.doneObject.drop i).reverse →
      Step.Good D B x 10 (stopFrom env i n)
  | 0, n, h, _, hpre => by
    simp only [List.drop_zero] at hpre
    have h1 : Good D B x 10 none n :=
      { h with
        ph := fun e he => le_trans (h.ph e he) (by omega)
        fin := fun _ => hpre
        exit := fun h0 => absurd h0 (by simp) }
    exact h1
  | i + 1, n, h, hi, hpre => by
    have hi1 : i < n.fnb.doneObject.length := by omega
    have hl : n.fnb.Logger.enabled .fatal = x := h.lvl rfl
    simp only [stopFrom]
    rw [List.getElem?_eq_getElem hi1]
    dsimp only
    simp only [handleDoneObject]
    generalize selectWait _ _ = w
    obtain ⟨r, buf⟩ := w
    dsimp only
    cases r with
    | signal =>
      dsimp only [Step.bind]
      obtain ⟨h1, h2⟩ := Good.emit_done
        (q := (Node.emit { n with sig := buf, waits := n.waits + 1 }
          (.doneWait n.fnb.doneObject[i] .signal)).log .info "component shutdown complete")
        n.fnb.doneObject[i] .signal none i h hi1 (List.getElem?_eq_getElem hi1) hpre rfl rfl
        (by simp [Event.term]) (by simp)
      exact stopFrom_good env i _ h1 (by simpa [Node.emit, Node.log] using hi1.le) h2
    | timeout =>
      simp only [Fatal, Node.emit, hl]
      cases x with
      | true =>
        exact ⟨9, (Good.emit_done
          (q := (Node.emit { n with sig := buf, waits := n.waits + 1 }
            (.doneWait n.fnb.doneObject[i] .timeout)))
          n.fnb.doneObject[i] .timeout (some (.fatal "component shutdown timed out")) i h hi1
          (List.getElem?_eq_getElem hi1) hpre rfl rfl (by simp [Event.term])
          (by simp)).1.log _ _⟩
      | false =>
        simp only [Bool.false_eq_true, if_false, Step.bind]
        obtain ⟨h1, h2⟩ := Good.emit_done
          (q := (Node.emit { n with sig := buf, waits := n.waits + 1 }
            (.doneWait n.fnb.doneObject[i] .timeout)).log .fatal "component shutdown timed out")
          n.fnb.doneObject[i] .timeout none i h hi1 (List.getElem?_eq_getElem hi1) hpre rfl rfl
          (by simp [Event.term]) (by simp)
        exact stopFrom_good env i _ h1 (by simpa [Node.emit, Node.log] using hi1.le) h2
    | sig =>
      exact ⟨9, (Good.emit_done
        (q := (Node.emit { n with sig := buf, waits := n.waits + 1 }
          (.doneWait n.fnb.doneObject[i] .sig)))
        n.fnb.doneObject[i] .sig (some .abort) i h hi1
        (List.getElem?_eq_getElem hi1) hpre rfl rfl (by simp [Event.term]) (by simp)).1.log _ _⟩

theorem closeDatabase_good {D : List (namedDoneObject O)} {B : List (namedBootstrapFunc U)}
    {x : Bool} (env : Env U O S) (n : Node U O S) (h : Good D B x 10 none n) :
    Step.Good D B x 10 (closeDatabase env n) := by
  have h1 : Good D B x 10 none (n.emit (.closeDB (env.Close n.store))) := by
    refine Good.append [.closeDB (env.Close n.store)] h rfl (by simp) (by simp [Event.phase])
      (by omega) (by simp [Event.term]) (by simp [pushed, Node.emit])
      (by simpa [invoked, Node.emit] using h.inv) rfl
      (by simpa [bootstrapped] using h.boot)
      (by simpa [doneAwaited, Node.emit] using h.stop)
      (fun h10 => by simpa [doneAwaited, Node.emit] using h.fin h10) (by simp)
      (fun _ => h.lvl rfl) (fun b err hm => by simp at hm)
  unfold closeDatabase
  dsimp only
  split
  · exact h1.log _ _
  · exact h1

theorem Step.bind_assoc (r : Step (Node U O S)) (f g : Node U O S → Step (Node U O S)) :
    (r.bind f).bind g = r.bind fun n => (f n).bind g := by
  cases r <;> rfl

/-- Run is the startup followed by the main loop and the shutdown. -/
theorem Run_eq (env : Env U O S) (fnb : FlowNodeBuilder U O) (store : S) :
    Run env fnb store = (runStartup env (startNode env fnb store)).bind (runShutdown env) := by
  simp only [Run, runStartup, runInits, Step.bind_assoc]
  rfl

/-- The invariant holds of Run for every `x` that agrees with the level that initLogger
configured, when initLogger was reached and returned. -/
theorem Run_good_of (env : Env U O S) (fnb : FlowNodeBuilder U O) (store : S) (x : Bool)
    (hx : ∀ m, (initNodeInfo env (startNode env fnb store)).bind (initLogger env) = .next m →
      m.exits = x) :
    Step.Good fnb.doneObject fnb.bootstraps x 10 (Run env fnb store) := by
  have hassoc : Run env fnb store =
      ((initNodeInfo env (startNode env fnb store)).bind (initLogger env)).bind fun n =>
      (initProfiler env n).bind fun n =>
      (initDB env n).bind fun n =>
      (initMetrics env n).bind fun n =>
      (initStorage env n).bind fun n =>
      (initState env n).bind fun n =>
      (forEach (handlePostInit env) n.fnb.postInitFns n).bind fun n =>
      (forEach (handleModule env) n.fnb.modules n).bind fun n =>
      (forEach (handleComponent env) n.fnb.components n).bind fun n =>
      (mainWait env (n.log .info (n.fnb.BaseConfig.nodeRole ++ " node startup complete"))).bind
        fun n =>
      (stopFrom env n.fnb.doneObject.length
        (n.log .info (n.fnb.BaseConfig.nodeRole ++ " node shutting down"))).bind fun n =>
      (closeDatabase env n).bind fun n =>
      .halt .exit0 (n.log .info (n.fnb.BaseConfig.nodeRole ++ " node shutdown complete")) := by
    simp only [Run, Step.bind_assoc]
    rfl
  have hearly : Early fnb.doneObject fnb.bootstraps (startNode env fnb store) :=
    ⟨by simp [startNode], rfl, rfl⟩
  rw [hassoc]
  refine Step.Good.andThen (k := 0) (early_good env _ hearly _ hx) ?_
  intro n h
  refine Step.Good.andThen (k := 0) (initProfiler_good env _ h) ?_
  intro n h
  refine Step.Good.andThen (k := 0) (initDB_good env _ h) ?_
  intro n h
  refine Step.Good.andThen (k := 0) (initMetrics_good env _ h) ?_
  intro n h
  refine Step.Good.andThen (k := 0) (initStorage_good env _ h) ?_
  intro n h
  refine Step.Good.andThen (k := 4) (initState_good env _ h) ?_
  intro n h
  refine Step.Good.andThen (k := 5) (forEach_good _ (handlePostInit_good env) _ _
    (h.mono (by omega) (by omega))) ?_
  intro n h
  refine Step.Good.andThen (k := 6) (forEach_good _ (handleModule_good env) _ _
    (h.mono (by omega) (by omega))) ?_
  intro n h
  refine Step.Good.andThen (k := 7) (compLoop_good env _ _
    (h.mono (by omega) (by omega)) ?_) ?_
  · rw [invoked_eq_nil h.ph]; exact List.prefix_refl _
  intro n h
  refine Step.Good.andThen (k := 8) (mainWait_good env _ (h.log _ _)) ?_
  intro n h
  have hda := doneAwaited_eq_nil h.ph
  refine Step.Good.andThen (k := 10) (stopFrom_good env _ _
    ((h.log _ _).mono (by omega) (by omega)) (le_refl _) ?_) ?_
  · simp [Node.log, hda]
  intro n h
  refine Step.Good.andThen (k := 10) (closeDatabase_good env _ h) ?_
  intro n h
  exact ⟨10, (h.log _ _).halt .exit0 (by omega)⟩

theorem Step.Good.ended {D : List (namedDoneObject O)} {B : List (namedBootstrapFunc U)}
    {x : Bool} {k : Nat} {r : Step (Node U O S)} (h : Step.Good D B x k r) :
    ∃ j, cmd.Good D B x j r.term r.node := by
  cases r with
  | next n => exact ⟨k, h⟩
  | halt z n => exact h

/-- The invariant holds when Run has ended, for the level that initLogger configured. -/
theorem Run_good (env : Env U O S) (fnb : FlowNodeBuilder U O) (store : S) :
    ∃ x j, Good fnb.doneObject fnb.bootstraps x j (Run env fnb store).term
      (Run env fnb store).node :=
  ⟨_, (Run_good_of env fnb store
    (match (initNodeInfo env (startNode env fnb store)).bind (initLogger env) with
      | .next m => m.exits
      | .halt _ _ => true) (fun m hm => by rw [hm])).ended⟩

/-! ## Consequences of the invariant -/

theorem Good.split {D : List (namedDoneObject O)} {B : List (namedBootstrapFunc U)} {x : Bool}
    {k : Nat} {z : Option Termination} {n : Node U O S} (h : Good D B x k z n)
    {pre post : List (Event U O)} {e : Event U O} (ht : n.trace = pre ++ e :: post) :
    (∀ a ∈ pre, a.term x = none ∧ a.phase ≤ e.phase) ∧
    (∀ b ∈ post, e.term x = none ∧ e.phase ≤ b.phase) := by
  have hpw := h.pw
  rw [ht, List.pairwise_append, List.pairwise_cons] at hpw
  exact ⟨fun a ha => hpw.2.2 a ha e (List.mem_cons_self _ _), fun b hb => hpw.2.1.1 b hb⟩

/-- Nothing follows an interaction that ends the process, and the process ends the way the
interaction says. -/
theorem Good.last {D : List (namedDoneObject O)} {B : List (namedBootstrapFunc U)} {x : Bool}
    {k : Nat} {z : Option Termination} {n : Node U O S} (h : Good D B x k z n)
    {pre post : List (Event U O)} {e : Event U O} {t : Termination}
    (ht : n.trace = pre ++ e :: post) (hx : e.term x = some t) : post = [] ∧ z = some t := by
  refine ⟨?_, h.dead e (by rw [ht]; simp) t hx⟩
  cases post with
  | nil => rfl
  | cons b post =>
    have := ((h.split ht).2 b (List.mem_cons_self _ _)).1
    rw [hx] at this
    exact absurd this (by simp)

end

section
variable {U O S : Type}

/-! ## The claims on the abort signal -/

theorem pushed_eq_readyAwaited {x : Bool} :
    ∀ {t : List (Event U O)}, (∀ a ∈ t, a.term x = none) → pushed x t = readyAwaited t
  | [], _ => rfl
  | e :: t, h => by
    have ih := pushed_eq_readyAwaited (t := t) fun a ha => h a (List.mem_cons_of_mem _ ha)
    have he := h e (List.mem_cons_self _ _)
    simp only [pushed, readyAwaited, List.filterMap_cons] at ih ⊢
    rw [ih]
    cases e with
    | readyWait d r => cases r <;> cases x <;> simp [Event.term] at he ⊢
    | _ => rfl

/-- C8. If the readiness wait of a component is resolved by the abort signal, nothing follows
it, the process exits with status 1, the component is not pushed onto the started-components
stack, which holds the objects whose readiness was awaited before, and no done signal is
awaited. -/
theorem Run_ready_abort (env : Env U O S) (fnb : FlowNodeBuilder U O) (store : S)
    (pre post : List (Event U O)) (d : namedDoneObject O)
    (ht : (Run env fnb store).node.trace = pre ++ .readyWait d .sig :: post) :
    post = [] ∧
    (Run env fnb store).term = some .abort ∧
    (Run env fnb store).term.bind Termination.code = some 1 ∧
    (Run env fnb store).node.fnb.doneObject = fnb.doneObject ++ readyAwaited pre ∧
    doneAwaited (Run env fnb store).node.trace = [] := by
  obtain ⟨x, j, h⟩ := Run_good env fnb store
  obtain ⟨hpost, htm⟩ := h.last ht rfl
  refine ⟨hpost, htm, by rw [htm]; rfl, ?_, ?_⟩
  · rw [h.done, ht, hpost, ← pushed_eq_readyAwaited fun a ha => ((h.split ht).1 a ha).1]
    simp [pushed]
  · rw [ht, hpost]
    have hpre := doneAwaited_eq_nil (t := pre) fun e he =>
      le_trans ((h.split ht).1 e he).2 (by simp [Event.phase])
    simp only [doneAwaited] at hpre
    simp [doneAwaited, hpre]

/-- C10. If a wait for a done signal during shutdown is resolved by the abort signal, nothing
follows it and the process exits with status 1: the done signals awaited are those awaited
before and this one, an initial part of the stack read from its top, and the objects below in
the stack are never awaited. -/
theorem Run_done_abort (env : Env U O S) (fnb : FlowNodeBuilder U O) (store : S)
    (pre post : List (Event U O)) (d : namedDoneObject O)
    (ht : (Run env fnb store).node.trace = pre ++ .doneWait d .sig :: post) :
    post = [] ∧
    (Run env fnb store).term = some .abort ∧
    (Run env fnb store).term.bind Termination.code = some 1 ∧
    doneAwaited (Run env fnb store).node.trace = doneAwaited pre ++ [d] ∧
    ∃ below, (Run env fnb store).node.fnb.doneObject.reverse =
      doneAwaited pre ++ d :: below := by
  obtain ⟨x, j, h⟩ := Run_good env fnb store
  obtain ⟨hpost, htm⟩ := h.last ht rfl
  have hda : doneAwaited (Run env fnb store).node.trace = doneAwaited pre ++ [d] := by
    rw [ht, hpost]; simp [doneAwaited]
  refine ⟨hpost, htm, by rw [htm]; rfl, hda, ?_⟩
  obtain ⟨below, hb⟩ := h.stop
  rw [hda] at hb
  exact ⟨below, by rw [← hb]; simp⟩


/-- C8 at the example: `a` starts, and a signal arrives while `b` is awaited. -/
theorem Run_ready_abort_witness :
    (Run (exampleEnv fun k => if k = 1 then wSignal else wFires) twoFnb 1).node.trace =
      (resumeInits ++ [.componentFn { fn := .user 1, name := "a" } (some 1) none,
        .readyWait { ob := 1, name := "a" } .signal,
        .componentFn { fn := .user 2, name := "b" } (some 2) none]) ++
        .readyWait { ob := 2, name := "b" } .sig :: [] ∧
    (Run (exampleEnv fun k => if k = 1 then wSignal else wFires) twoFnb 1).term =
      some .abort ∧
    (Run (exampleEnv fun k => if k = 1 then wSignal else wFires) twoFnb 1).node.fnb.doneObject =
      [{ ob := 1, name := "a" }] :=
  ⟨by rfl,
    (Run_ready_abort (exampleEnv fun k => if k = 1 then wSignal else wFires) twoFnb 1
      (resumeInits ++ [.componentFn { fn := .user 1, name := "a" } (some 1) none,
        .readyWait { ob := 1, name := "a" } .signal,
        .componentFn { fn := .user 2, name := "b" } (some 2) none]) []
      { ob := 2, name := "b" } (by rfl)).2.1,
    by rfl⟩

/-- C10 at the example: three components are started, the done signal of the last one fires
and a second signal arrives while the done signal of `b` is awaited; `a` is never awaited. -/
theorem Run_done_abort_witness :
    (Run (exampleEnv fun k => if k = 3 ∨ k = 5 then wSignal else wFires) twoFnb 1).node.trace =
      (resumeInits ++ twoStarted ++
        [.doneWait { ob := 102, name := "mempools metrics" } .signal]) ++
        .doneWait { ob := 2, name := "b" } .sig :: [] ∧
    (Run (exampleEnv fun k => if k = 3 ∨ k = 5 then wSignal else wFires) twoFnb 1).term =
      some .abort ∧
    (Run (exampleEnv fun k => if k = 3 ∨ k = 5 then wSignal else wFires)
      twoFnb 1).node.fnb.doneObject.reverse =
      [{ ob := 102, name := "mempools metrics" }, { ob := 2, name := "b" }] ++
        [{ ob := 1, name := "a" }] :=
  ⟨by rfl,
    (Run_done_abort (exampleEnv fun k => if k = 3 ∨ k = 5 then wSignal else wFires) twoFnb 1
      (resumeInits ++ twoStarted ++
        [.doneWait { ob := 102, name := "mempools metrics" } .signal]) []
      { ob := 2, name := "b" } (by rfl)).2.1,
    by rfl⟩

/-! ## The claims on the registry -/

/-- C16. A registration call appends one record, with the name and the function given, as the
last record of its own sequence and leaves the other sequences as they are; so a sequence of
registration calls adds its records to the three sequences in the order of the calls, whatever
names they carry: nothing is dropped, merged or reordered. -/
theorem registration_appends (fnb : FlowNodeBuilder U O) (name : String) (f : U)
    (g : ComponentFn U O) (rs : List (Registration U O)) :
    ((fnb.Module name f).modules = fnb.modules ++ [{ fn := f, name := name }] ∧
      (fnb.Module name f).components = fnb.components ∧
      (fnb.Module name f).postInitFns = fnb.postInitFns ∧
      (fnb.Module name f).bootstraps = fnb.bootstraps ∧
      (fnb.Module name f).doneObject = fnb.doneObject) ∧
    ((fnb.Component name g).components = fnb.components ++ [{ fn := g, name := name }] ∧
      (fnb.Component name g).modules = fnb.modules ∧
      (fnb.Component name g).postInitFns = fnb.postInitFns ∧
      (fnb.Component name g).bootstraps = fnb.bootstraps ∧
      (fnb.Component name g).doneObject = fnb.doneObject) ∧
    ((fnb.PostInit f).postInitFns = fnb.postInitFns ++ [f] ∧
      (fnb.PostInit f).modules = fnb.modules ∧
      (fnb.PostInit f).components = fnb.components ∧
      (fnb.PostInit f).bootstraps = fnb.bootstraps ∧
      (fnb.PostInit f).doneObject = fnb.doneObject) ∧
    ((applyRegs fnb rs).modules = fnb.modules ++ rs.filterMap (fun r => match r with
        | .Module name f => some { fn := f, name := name }
        | _ => none) ∧
      (applyRegs fnb rs).components = fnb.components ++ rs.filterMap (fun r => match r with
        | .Component name g => some { fn := g, name := name }
        | _ => none) ∧
      (applyRegs fnb rs).postInitFns = fnb.postInitFns ++ rs.filterMap (fun r => match r with
        | .PostInit f => some f
        | _ => none)) := by
  refine ⟨⟨rfl, rfl, rfl, rfl, rfl⟩, ⟨rfl, rfl, rfl, rfl, rfl⟩,
    ⟨rfl, rfl, rfl, rfl, rfl⟩, ?_⟩
  induction rs generalizing fnb with
  | nil => simp [applyRegs]
  | cons r rs ih =>
    simp only [applyRegs, List.foldl_cons] at ih ⊢
    obtain ⟨h1, h2, h3⟩ := ih (Registration.apply fnb r)
    rw [h1, h2, h3]
    cases r <;>
      simp [Registration.apply, FlowNodeBuilder.Module, FlowNodeBuilder.Component,
        FlowNodeBuilder.PostInit]

/-- C16 at an example: registering the name `a` twice gives two records, in the order of the
calls, after the record that was there. -/
theorem registration_appends_witness :
    ((twoFnb.Component "a" (.user 7)).Component "a" (.user 1)).components =
      [{ fn := .user 1, name := "a" }, { fn := .user 2, name := "b" },
        { fn := .user 7, name := "a" }, { fn := .user 1, name := "a" }] ∧
    (twoFnb.Component "a" (.user 7)).components =
      twoFnb.components ++ [{ fn := .user 7, name := "a" }] :=
  ⟨by rfl, (registration_appends twoFnb "a" 0 (.user 7) []).2.1.1⟩

/-- C17, amended. The registration calls are Module, Component and PostInit, and none of them
reaches the bootstrap functions: a sequence of registration calls leaves the list of bootstrap
functions as it is. On a builder made by FlowNode that list is empty after any sequence of
registration calls, and Run on that builder applies no bootstrap function, on either branch of
initState. -/
theorem registrations_keep_bootstraps (env : Env U O S) (role datadir : String)
    (rs : List (Registration U O)) (store : S) :
    (∀ fnb : FlowNodeBuilder U O, (applyRegs fnb rs).bootstraps = fnb.bootstraps) ∧
    (applyRegs (FlowNode role datadir) rs).bootstraps = [] ∧
    ∀ b err, Event.bootstrapFn b err ∉
      (Run env (applyRegs (FlowNode role datadir) rs) store).node.trace := by
  have hnil : (applyRegs (FlowNode role datadir : FlowNodeBuilder U O) rs).bootstraps = [] := by
    rw [applyRegs_bootstraps]
    rfl
  refine ⟨applyRegs_bootstraps rs, hnil, fun b err hm => ?_⟩
  obtain ⟨x, j, hg⟩ := Run_good env (applyRegs (FlowNode role datadir) rs) store
  have hb := hg.boot
  rw [hnil, List.prefix_nil] at hb
  have : b ∈ bootstrapped (Run env (applyRegs (FlowNode role datadir) rs) store).node.trace := by
    rw [bootstrapped, List.mem_filterMap]
    exact ⟨_, hm, rfl⟩
  rw [hb] at this
  simp at this

/-- C17 as stated fails: no registration call appends a record to the bootstrap functions of
the builder that FlowNode makes, and Run on that builder, on the empty store, commits the
genesis state and goes on to the main loop with no bootstrap function applied. -/
theorem no_bootstrap_registration :
    (∀ r : Registration Nat Nat,
      (Registration.apply (FlowNode "consensus" "data") r).bootstraps = []) ∧
    Event.genesisCommit none ∈
      (Run (exampleEnv fun _ => wFires) (FlowNode "consensus" "data") 0).node.trace ∧
    Event.mainWait false ∈
      (Run (exampleEnv fun _ => wFires) (FlowNode "consensus" "data") 0).node.trace ∧
    bootstrapped (Run (exampleEnv fun _ => wFires) (FlowNode "consensus" "data") 0).node.trace =
      [] :=
  ⟨fun r => by cases r <;> rfl, by decide, by decide, by rfl⟩

/-- C17, amended, at an example: a builder made by FlowNode with a module, a component and a
hook registered runs on the empty store; the genesis commit goes through and no bootstrap
function is applied. -/
theorem registrations_keep_bootstraps_witness :
    Event.genesisCommit none ∈
      (Run (exampleEnv fun _ => wFires)
        (applyRegs (FlowNode "consensus" "data")
          [.Module "m1" 1, .Component "a" (.user 1), .PostInit 9]) 0).node.trace ∧
    (applyRegs (FlowNode "consensus" "data" : FlowNodeBuilder Nat Nat)
      [.Module "m1" 1, .Component "a" (.user 1), .PostInit 9]).bootstraps = [] ∧
    ∀ b err, Event.bootstrapFn b err ∉
      (Run (exampleEnv fun _ => wFires)
        (applyRegs (FlowNode "consensus" "data")
          [.Module "m1" 1, .Component "a" (.user 1), .PostInit 9]) 0).node.trace :=
  ⟨by decide,
    (registrations_keep_bootstraps (exampleEnv fun _ => wFires) "consensus" "data"
      [.Module "m1" 1, .Component "a" (.user 1), .PostInit 9] 0).2.1,
    (registrations_keep_bootstraps (exampleEnv fun _ => wFires) "consensus" "data"
      [.Module "m1" 1, .Component "a" (.user 1), .PostInit 9] 0).2.2⟩

end

section
variable {U O S : Type}

/-! ## The branches of initState -/

theorem Emits.nothing (P : Event U O → Prop) (K : Prop) (n : Node U O S) :
    Emits P K n (.next n) :=
  ⟨fun _ => rfl, [], by simp [Step.node], by simp⟩

theorem Emits.followedBy {P : Event U O → Prop} {K : Prop} {n m : Node U O S}
    {r : Step (Node U O S)} (h1 : Emits P K n (.next m)) (h2 : Emits P K m r) :
    Emits P K n r := by
  obtain ⟨hs1, d1, ht1, hp1⟩ := h1
  obtain ⟨hs2, d2, ht2, hp2⟩ := h2
  refine ⟨fun hk => (hs2 hk).trans (hs1 hk), d1 ++ d2, ?_, ?_⟩
  · rw [ht2]
    simp only [Step.node] at ht1
    rw [ht1, List.append_assoc]
  · intro e he
    rw [List.mem_append] at he
    exact he.elim (hp1 e) (hp2 e)

theorem Emits.andThenEmits {P : Event U O → Prop} {K : Prop} {n : Node U O S}
    {r : Step (Node U O S)} {f : Node U O S → Step (Node U O S)} (h : Emits P K n r)
    (hf : ∀ m, Emits P K m (f m)) : Emits P K n (r.bind f) := by
  cases r with
  | next m => exact h.followedBy (hf m)
  | halt z m => exact h

theorem Emits.weaken {P Q : Event U O → Prop} {K : Prop} {n : Node U O S}
    {r : Step (Node U O S)} (h : Emits P K n r) (hpq : ∀ e, P e → Q e) :
    Emits Q K n r := by
  obtain ⟨hs, d, ht, hp⟩ := h
  exact ⟨hs, d, ht, fun e he => hpq e (hp e he)⟩

/-- A step that ends in a node with the trace extended by `d` and the same store. -/
theorem Emits.of_eq {P : Event U O → Prop} {K : Prop} {n : Node U O S}
    {r : Step (Node U O S)} (d : List (Event U O)) (hs : r.node.store = n.store)
    (ht : r.node.trace = n.trace ++ d) (hp : ∀ e ∈ d, P e) : Emits P K n r :=
  ⟨fun _ => hs, d, ht, hp⟩

theorem Emits.reframe {P : Event U O → Prop} {K : Prop} {n m : Node U O S}
    {r : Step (Node U O S)} (h : Emits P K m r) (ht : m.trace = n.trace)
    (hs : m.store = n.store) : Emits P K n r := by
  obtain ⟨hs1, d, ht1, hp⟩ := h
  exact ⟨fun hk => (hs1 hk).trans hs, d, by rw [ht1, ht], hp⟩

theorem Fatal_node (msg : String) (n : Node U O S) :
    (Fatal msg n).node = n.log .fatal msg := by
  unfold Fatal
  split <;> rfl

theorem Fatal_emits (P : Event U O → Prop) (K : Prop) (msg : String) (n : Node U O S) :
    Emits P K n (Fatal msg n) :=
  Emits.of_eq [] (by rw [Fatal_node]; rfl) (by rw [Fatal_node]; simp [Node.log]) (by simp)

theorem mustNil_emits {P : Event U O → Prop} {K : Prop} (c : Call) (err : Option String)
    (n : Node U O S) (hc : ∀ ok, P (.call c ok)) : Emits P K n (mustNil c err n) := by
  cases err with
  | some e =>
    exact Emits.of_eq [.call c false] (by simp only [mustNil]; rw [Fatal_node]; rfl)
      (by simp only [mustNil]; rw [Fatal_node]; rfl) (by simpa using hc false)
  | none =>
    exact Emits.of_eq [.call c true] rfl (by simp [mustNil, Step.node, Node.emit])
      (by simpa using hc true)

theorem must_emits {P : Event U O → Prop} {K : Prop} {α : Type} (c : Call)
    (r : α × Option String) (n : Node U O S) (rest : α → Node U O S → Step (Node U O S))
    (hc : ∀ ok, P (.call c ok)) (hrest : ∀ a m, Emits P K m (rest a m)) :
    Emits P K n (must c r n rest) :=
  (mustNil_emits c r.2 n hc).andThenEmits (hrest r.1)

theorem check_emits {P : Event U O → Prop} {K : Prop} (c : Call) (ok : Bool)
    (n : Node U O S) (hc : ∀ ok, P (.call c ok)) : Emits P K n (check c ok n) := by
  cases ok with
  | false =>
    exact Emits.of_eq [.call c false] (by simp only [check]; rw [if_neg (by simp), Fatal_node]; rfl)
      (by simp only [check]; rw [if_neg (by simp), Fatal_node]; rfl) (by simpa using hc false)
  | true =>
    exact Emits.of_eq [.call c true] rfl (by simp [check, Step.node, Node.emit])
      (by simpa using hc true)

theorem forEach_emits {P : Event U O → Prop} {K : Prop} {α : Type}
    (body : α → Node U O S → Step (Node U O S)) (hbody : ∀ x m, Emits P K m (body x m)) :
    ∀ (xs : List α) (n : Node U O S), Emits P K n (forEach body xs n)
  | [], n => Emits.nothing P K n
  | x :: xs, n => (hbody x n).andThenEmits (forEach_emits body hbody xs)

theorem Emits.andThenOn {P : Event U O → Prop} {K : Prop} {n : Node U O S}
    {r : Step (Node U O S)} {f : Node U O S → Step (Node U O S)} (h : Emits P K n r)
    (hf : ∀ m, r = .next m → Emits P K m (f m)) : Emits P K n (r.bind f) := by
  cases r with
  | next m => exact h.followedBy (hf m rfl)
  | halt z m => exact h

theorem Fatal_next {msg : String} {n m : Node U O S} (h : Fatal msg n = .next m) :
    m = n.log .fatal msg ∧ n.exits = false := by
  unfold Fatal at h
  split at h
  · simp at h
  · rename_i hx
    simp only [Step.next.injEq] at h
    exact ⟨h.symm, by simpa [Node.exits] using hx⟩

theorem mustNil_next {c : Call} {err : Option String} {n m : Node U O S}
    (h : mustNil c err n = .next m) :
    m.fnb = n.fnb ∧ m.store = n.store ∧ m.sig = n.sig ∧ m.waits = n.waits ∧
      m.trace = n.trace ++ [.call c err.isNone] := by
  cases err with
  | none =>
    simp only [mustNil, Step.next.injEq] at h
    subst h
    exact ⟨rfl, rfl, rfl, rfl, rfl⟩
  | some e =>
    obtain ⟨rfl, -⟩ := Fatal_next h
    exact ⟨rfl, rfl, rfl, rfl, rfl⟩

/-- The end of initState reads the store and calls out, nothing else. -/
theorem initStateIdentity_emits (env : Env U O S) (n : Node U O S) :
    Emits (fun e => e.path = none) True n (initStateIdentity env n) := by
  unfold initStateIdentity
  refine must_emits _ _ _ _ (by simp [Event.path]) fun myID m1 => ?_
  refine must_emits _ _ _ _ (by simp [Event.path]) fun self m2 => ?_
  cases self with
  | none => exact Emits.of_eq [] rfl (by simp [Step.node]) (by simp)
  | some self =>
    refine Emits.andThenEmits (check_emits _ _ _ (by simp [Event.path])) fun m3 => ?_
    refine Emits.andThenEmits (check_emits _ _ _ (by simp [Event.path])) fun m4 => ?_
    refine Emits.andThenEmits (Emits.reframe (mustNil_emits _ _ _ (by simp [Event.path]))
      rfl rfl) fun m5 => ?_
    exact Emits.of_eq [] rfl (by simp [Step.node]) (by simp)

/-- The rest of a branch of initState after its first call, the load of the root block. -/
theorem branch_first {P : Event U O → Prop} {K : Prop} (c : Call) (err : Option String)
    (n : Node U O S) (rest : Node U O S → Step (Node U O S))
    (hrest : ∀ m, Emits P K m (rest m)) :
    ∃ ok d, ((mustNil c err n).bind rest).node.trace = n.trace ++ .call c ok :: d ∧
      ∀ e ∈ d, P e := by
  cases err with
  | none =>
    obtain ⟨-, d, ht, hp⟩ := hrest (n.emit (.call c true))
    exact ⟨true, d, by simp only [mustNil, Step.bind]; rw [ht]; simp [Node.emit], hp⟩
  | some e =>
    simp only [mustNil, Fatal]
    split
    · exact ⟨false, [], by simp [Step.bind, Step.node, Node.emit, Node.log], by simp⟩
    · obtain ⟨-, d, ht, hp⟩ := hrest ((n.emit (.call c false)).log .fatal c.msg)
      exact ⟨false, d, by simp only [Step.bind]; rw [ht]; simp [Node.emit, Node.log], hp⟩

/-- The resume branch after the load of the root block: it reads the bootstrap directory,
nothing else. -/
theorem resume_rest_emits (env : Env U O S) (n1 : Node U O S) :
    Emits (fun e => e.path = some .resume) True n1
      (match n1.fnb.RootBlock with
        | none => .halt .panic n1
        | some rootBlock =>
          (mustNil (.loadRootQC .resume) (loadRootQC env n1.fnb.BaseConfig.BootstrapDir).2
            { n1 with fnb := { n1.fnb with
                RootChainID := rootBlock.Header.ChainID
                RootQC := (loadRootQC env n1.fnb.BaseConfig.BootstrapDir).1 } }).bind fun n4 =>
          must (.loadDKGPublicData .resume)
            (loadDKGPublicData env n4.fnb.BaseConfig.BootstrapDir) n4 fun dkgPubData n5 =>
          .next { n5 with fnb := { n5.fnb with DKGState := dkgPubData } }) := by
  split
  · exact Emits.of_eq [] rfl (by simp [Step.node]) (by simp)
  · refine Emits.andThenEmits (Emits.reframe (mustNil_emits _ _ _ (by simp [Event.path]))
      rfl rfl) fun m4 => ?_
    refine must_emits _ _ _ _ (by simp [Event.path]) fun dkg m5 => ?_
    exact Emits.of_eq [] rfl (by simp [Step.node]) (by simp)

theorem initStateResume_first (env : Env U O S) (n : Node U O S) :
    ∃ ok d, (initStateResume env n).node.trace =
        n.trace ++ .call (.loadRootBlock .resume) ok :: d ∧
      ∀ e ∈ d, e.path = some .resume :=
  branch_first (K := True) (n := { n with fnb := { n.fnb with
    RootBlock := (loadRootBlock env n.fnb.BaseConfig.BootstrapDir).1 } }) _ _ _
    (resume_rest_emits env)

/-- The resume branch leaves the persisted store as it is. -/
theorem initStateResume_emits (env : Env U O S) (n : Node U O S) :
    Emits (fun e => e.path = some .resume) True n (initStateResume env n) :=
  Emits.andThenEmits (Emits.reframe (n := n) (mustNil_emits _ _ _ (by simp [Event.path]))
    rfl rfl) (resume_rest_emits env)

theorem applyBootstrap_emits (env : Env U O S) (b : namedBootstrapFunc U) (n : Node U O S) :
    Emits (fun e => e.path = some .bootstrap) False n (applyBootstrap env b n) := by
  refine ⟨fun hf => hf.elim, [.bootstrapFn b (env.bootstrapFn b.fn n.store).2], ?_, ?_⟩
  · unfold applyBootstrap
    dsimp only
    cases (env.bootstrapFn b.fn n.store).2 with
    | none => simp [MustNot, Step.node, Node.emit]
    | some e => simp only [MustNot]; rw [Fatal_node]; rfl
  · simp [Event.path]

theorem initStateCallbacks_emits (env : Env U O S) (n : Node U O S) :
    Emits (fun e => e.path = some .bootstrap) False n (initStateCallbacks env n) := by
  unfold initStateCallbacks
  refine Emits.andThenEmits (forEach_emits _ (applyBootstrap_emits env) _ _) fun m9 => ?_
  refine must_emits _ _ _ _ (by simp [Event.path]) fun dkg m10 => ?_
  exact ⟨fun hf => hf.elim, [], by simp [Step.node], by simp⟩

/-- The bootstrap branch after the load of the root block. -/
theorem bootstrap_rest_emits (env : Env U O S) (n1 : Node U O S) :
    Emits (fun e => e.path = some .bootstrap) False n1
      (match n1.fnb.RootBlock with
        | none => .halt .panic n1
        | some rootBlock =>
          (mustNil (.loadRootQC .bootstrap) (loadRootQC env n1.fnb.BaseConfig.BootstrapDir).2
            { n1 with fnb := { n1.fnb with
                RootChainID := rootBlock.Header.ChainID
                RootQC := (loadRootQC env n1.fnb.BaseConfig.BootstrapDir).1 } }).bind fun n4 =>
          must .loadRootResult (loadRootResult env n4.fnb.BaseConfig.BootstrapDir) n4
            fun rootResult n5 =>
          must .loadRootSeal (loadRootSeal env n5.fnb.BaseConfig.BootstrapDir) n5
            fun rootSeal n6 =>
          (MustNot (env.Bootstrap n6.fnb.RootBlock rootResult rootSeal n6.store).2
            "could not bootstrap protocol state"
            ({ n6 with store :=
                (env.Bootstrap n6.fnb.RootBlock rootResult rootSeal n6.store).1 }.emit
              (.genesisCommit
                (env.Bootstrap n6.fnb.RootBlock rootResult rootSeal n6.store).2))).bind
            (initStateCallbacks env)) := by
  split
  · exact ⟨fun hf => hf.elim, [], by simp [Step.node], by simp⟩
  · refine Emits.andThenEmits (Emits.reframe (mustNil_emits _ _ _ (by simp [Event.path]))
      rfl rfl) fun m4 => ?_
    refine must_emits _ _ _ _ (by simp [Event.path]) fun rootResult m5 => ?_
    refine must_emits _ _ _ _ (by simp [Event.path]) fun rootSeal m6 => ?_
    refine Emits.andThenEmits (r := MustNot _ _ _) ?_ (initStateCallbacks_emits env)
    refine ⟨fun hf => hf.elim,
      [.genesisCommit (env.Bootstrap m6.fnb.RootBlock rootResult rootSeal m6.store).2], ?_, ?_⟩
    · cases (env.Bootstrap m6.fnb.RootBlock rootResult rootSeal m6.store).2 with
      | none => simp [MustNot, Step.node, Node.emit]
      | some e => simp only [MustNot]; rw [Fatal_node]; rfl
    · simp [Event.path]

theorem initStateBootstrap_first (env : Env U O S) (n : Node U O S) :
    ∃ ok d, (initStateBootstrap env n).node.trace =
        n.trace ++ .call (.loadRootBlock .bootstrap) ok :: d ∧
      ∀ e ∈ d, e.path = some .bootstrap :=
  branch_first (K := False) (n := { n.log .info "bootstrapping empty protocol state" with
    fnb := { n.fnb with RootBlock := (loadRootBlock env n.fnb.BaseConfig.BootstrapDir).1 } })
    _ _ _ (bootstrap_rest_emits env)

/-- What follows the branch of initState adds interactions of no branch. -/
theorem bind_identity_trace (env : Env U O S) (r : Step (Node U O S)) :
    ∃ d, (r.bind (initStateIdentity env)).node.trace = r.node.trace ++ d ∧
      ∀ e ∈ d, e.path = none := by
  cases r with
  | halt z m => exact ⟨[], by simp [Step.bind, Step.node], by simp⟩
  | next m =>
    obtain ⟨_, d, ht, hp⟩ := initStateIdentity_emits env m
    exact ⟨d, ht, hp⟩

/-- C3, amended. When the protocol state object could be made, initState takes the bootstrap
branch exactly when the head query answers ErrNotFound and the resume branch exactly when it
answers without error; when the query answers with any other error neither branch is
taken. -/
theorem initState_paths (env : Env U O S) (n : Node U O S)
    (hs : env.NewState n.fnb.BaseConfig.nClusters = none) :
    ∃ d, (initState env n).node.trace = n.trace ++ d ∧
      ((∃ e ∈ d, e.path = some .bootstrap) ↔ env.Head n.store = .error .ErrNotFound) ∧
      ((∃ e ∈ d, e.path = some .resume) ↔ ∃ hd, env.Head n.store = .ok hd) ∧
      (∀ msg, env.Head n.store = .error (.other msg) → ∀ e ∈ d, e.path = none) := by
  unfold initState
  rw [hs]
  simp only [mustNil, Step.bind]
  have hstore : (n.emit (.call .NewState true)).store = n.store := rfl
  unfold initStateBranch
  rw [hstore]
  cases hh : env.Head n.store with
  | error err =>
    cases err with
    | ErrNotFound =>
      dsimp only
      obtain ⟨ok, d1, ht1, hp1⟩ := initStateBootstrap_first env
        ((n.emit (.call .NewState true)).emit (.headQuery (some .ErrNotFound)))
      obtain ⟨d2, ht2, hp2⟩ := bind_identity_trace env (initStateBootstrap env
        ((n.emit (.call .NewState true)).emit (.headQuery (some .ErrNotFound))))
      refine ⟨[.call .NewState true, .headQuery (some .ErrNotFound)] ++
        (.call (.loadRootBlock .bootstrap) ok :: d1) ++ d2, ?_, ?_, ?_, ?_⟩
      · refine ht2.trans ?_
        rw [ht1]; simp [Node.emit]
      · simp only [iff_true]
        exact ⟨.call (.loadRootBlock .bootstrap) ok, by simp, rfl⟩
      · simp only [reduceCtorEq, exists_false, iff_false, not_exists, not_and]
        intro e he
        simp only [List.mem_append, List.mem_cons, List.mem_singleton, List.not_mem_nil,
          or_false] at he
        rcases he with ((rfl | rfl) | (rfl | he)) | he
        · simp [Event.path]
        · simp [Event.path]
        · simp [Event.path]
        · rw [hp1 e he]; simp
        · rw [hp2 e he]; simp
      · intro msg hmsg
        simp at hmsg
    | other m =>
      dsimp only
      obtain ⟨d2, ht2, hp2⟩ := bind_identity_trace env (Fatal "could not check existing database"
        ((n.emit (.call .NewState true)).emit (.headQuery (some (.other m)))))
      rw [Fatal_node] at ht2
      have hno : ∀ e ∈ [.call .NewState true, .headQuery (some (.other m))] ++ d2,
          e.path = none := by
        intro e he
        simp only [List.mem_append, List.mem_cons, List.mem_singleton, List.not_mem_nil,
          or_false] at he
        rcases he with (rfl | rfl) | he
        · simp [Event.path]
        · simp [Event.path]
        · exact hp2 e he
      refine ⟨[.call .NewState true, .headQuery (some (.other m))] ++ d2, ?_,
        ⟨fun ⟨e, he, hp⟩ => ?_, fun h => by simp at h⟩,
        ⟨fun ⟨e, he, hp⟩ => ?_, fun ⟨hd, h⟩ => by simp at h⟩, fun msg _ => hno⟩
      · refine ht2.trans ?_
        simp [Node.emit, Node.log]
      · rw [hno e he] at hp; simp at hp
      · rw [hno e he] at hp; simp at hp
  | ok hd =>
    dsimp only
    obtain ⟨ok, d1, ht1, hp1⟩ := initStateResume_first env
      ((n.emit (.call .NewState true)).emit (.headQuery none))
    obtain ⟨d2, ht2, hp2⟩ := bind_identity_trace env (initStateResume env
      ((n.emit (.call .NewState true)).emit (.headQuery none)))
    refine ⟨[.call .NewState true, .headQuery none] ++
      (.call (.loadRootBlock .resume) ok :: d1) ++ d2, ?_, ?_, ?_, ?_⟩
    · refine ht2.trans ?_
      rw [ht1]; simp [Node.emit]
    · simp only [reduceCtorEq, iff_false, not_exists, not_and]
      intro e he
      simp only [List.mem_append, List.mem_cons, List.mem_singleton, List.not_mem_nil,
        or_false] at he
      rcases he with ((rfl | rfl) | (rfl | he)) | he
      · simp [Event.path]
      · simp [Event.path]
      · simp [Event.path]
      · rw [hp1 e he]; simp
      · rw [hp2 e he]; simp
    · refine ⟨fun _ => ⟨hd, rfl⟩, fun _ => ?_⟩
      exact ⟨.call (.loadRootBlock .resume) ok, by simp, rfl⟩
    · intro msg hmsg
      simp at hmsg

/-- C5. On the resume path, whatever bootstrap functions are registered, initState leaves the
persisted store as it found it, applies no bootstrap function and performs no genesis
commit. -/
theorem initState_resume_frame (env : Env U O S) (n : Node U O S) (hd : Header)
    (hh : env.Head n.store = .ok hd) :
    (initState env n).node.store = n.store ∧
    ∃ d, (initState env n).node.trace = n.trace ++ d ∧ bootstrapped d = [] ∧
      ∀ err, .genesisCommit err ∉ d := by
  have key : Emits (fun e => e.path ≠ some .bootstrap) True n (initState env n) := by
    unfold initState
    refine Emits.andThenOn (mustNil_emits _ _ _ (by simp [Event.path])) fun n1 h1 => ?_
    refine Emits.andThenEmits ?_
      fun m => (initStateIdentity_emits env m).weaken fun e he => by rw [he]; simp
    unfold initStateBranch
    rw [(mustNil_next h1).2.1, hh]
    dsimp only
    refine Emits.followedBy (m := n1.emit (.headQuery none))
      (Emits.of_eq [.headQuery none] rfl (by simp [Step.node, Node.emit])
        (by simp [Event.path])) ?_
    exact (initStateResume_emits env _).weaken fun e he => by rw [he]; simp
  obtain ⟨hs, d, ht, hp⟩ := key
  refine ⟨hs trivial, d, ht, ?_, ?_⟩
  · rw [bootstrapped, List.filterMap_eq_nil_iff]
    intro e he
    have := hp e he
    cases e <;> simp [Event.path] at this ⊢
  · intro err he
    have := hp _ he
    simp [Event.path] at this

end

section
variable {U O S : Type}

/-! ## What a completed initState stored in the builder -/

theorem bind_next {r : Step (Node U O S)} {f : Node U O S → Step (Node U O S)}
    {m : Node U O S} (h : r.bind f = .next m) : ∃ k, r = .next k ∧ f k = .next m := by
  cases r with
  | next k => exact ⟨k, rfl, h⟩
  | halt z k => simp [Step.bind] at h

theorem must_next {α : Type} {c : Call} {r : α × Option String} {n m : Node U O S}
    {rest : α → Node U O S → Step (Node U O S)} (h : must c r n rest = .next m) :
    ∃ k, k.fnb = n.fnb ∧ k.store = n.store ∧ k.trace = n.trace ++ [.call c r.2.isNone] ∧
      rest r.1 k = .next m := by
  obtain ⟨k, hk, hr⟩ := bind_next h
  obtain ⟨hf, hs, -, -, ht⟩ := mustNil_next hk
  exact ⟨k, hf, hs, ht, hr⟩

theorem check_next {c : Call} {ok : Bool} {n m : Node U O S}
    (h : check c ok n = .next m) :
    m.fnb = n.fnb ∧ m.store = n.store ∧ m.trace = n.trace ++ [.call c ok] := by
  cases ok with
  | false =>
    simp only [check, Bool.false_eq_true, if_false] at h
    obtain ⟨rfl, -⟩ := Fatal_next h
    exact ⟨rfl, rfl, rfl⟩
  | true =>
    simp only [check, if_true, Step.next.injEq] at h
    subst h
    exact ⟨rfl, rfl, rfl⟩

theorem MustNot_next {err : Option String} {msg : String} {n m : Node U O S}
    (h : MustNot err msg n = .next m) :
    m.fnb = n.fnb ∧ m.store = n.store ∧ m.trace = n.trace := by
  cases err with
  | some e =>
    obtain ⟨rfl, -⟩ := Fatal_next h
    exact ⟨rfl, rfl, rfl⟩
  | none =>
    simp only [MustNot, Step.next.injEq] at h
    subst h
    exact ⟨rfl, rfl, rfl⟩

/-- The bootstrap functions act on the protocol state: the builder is as it was. -/
theorem forEach_applyBootstrap_next (env : Env U O S) :
    ∀ (bs : List (namedBootstrapFunc U)) (n m : Node U O S),
      forEach (applyBootstrap env) bs n = .next m → m.fnb = n.fnb
  | [], n, m, h => by
    simp only [forEach, Step.next.injEq] at h
    rw [h]
  | b :: bs, n, m, h => by
    simp only [forEach] at h
    obtain ⟨k, hk, hr⟩ := bind_next h
    unfold applyBootstrap at hk
    obtain ⟨hf, -, -⟩ := MustNot_next hk
    rw [forEach_applyBootstrap_next env bs k m hr, hf]
    rfl

theorem initStateCallbacks_next (env : Env U O S) (n m : Node U O S)
    (h : initStateCallbacks env n = .next m) :
    m.fnb = { n.fnb with DKGState := (loadDKGPublicData env n.fnb.BaseConfig.BootstrapDir).1 } := by
  unfold initStateCallbacks at h
  obtain ⟨n9, h9, g9⟩ := bind_next h
  have hf := forEach_applyBootstrap_next env _ _ _ h9
  obtain ⟨n10, hf10, -, -, g10⟩ := must_next g9
  simp only [Step.next.injEq] at g10
  rw [← g10]
  show ({ n10.fnb with DKGState := _ } : FlowNodeBuilder U O) = _
  rw [hf10, hf]

/-- What a completed resume branch read and stored. -/
theorem initStateResume_next (env : Env U O S) (n m : Node U O S)
    (h : initStateResume env n = .next m) :
    ∃ rb, (loadRootBlock env n.fnb.BaseConfig.BootstrapDir).1 = some rb ∧
      m.store = n.store ∧
      m.fnb = { n.fnb with
        RootBlock := some rb, RootChainID := rb.Header.ChainID,
        RootQC := (loadRootQC env n.fnb.BaseConfig.BootstrapDir).1,
        DKGState := (loadDKGPublicData env n.fnb.BaseConfig.BootstrapDir).1 } := by
  unfold initStateResume at h
  dsimp only at h
  obtain ⟨n1, h1, g1⟩ := bind_next h
  obtain ⟨hf1, hs1, -, -, -⟩ := mustNil_next h1
  have hrb : n1.fnb.RootBlock = (loadRootBlock env n.fnb.BaseConfig.BootstrapDir).1 := by
    rw [hf1]
  cases hb : n1.fnb.RootBlock with
  | none => rw [hb] at g1; simp at g1
  | some rb =>
    rw [hb] at g1
    dsimp only at g1
    obtain ⟨n4, h4, g4⟩ := bind_next g1
    obtain ⟨hf4, hs4, -, -, -⟩ := mustNil_next h4
    obtain ⟨n5, hf5, hs5, -, g5⟩ := must_next g4
    simp only [Step.next.injEq] at g5
    refine ⟨rb, by rw [← hrb, hb], ?_, ?_⟩
    · rw [← g5]
      exact hs5.trans (hs4.trans hs1)
    · rw [← g5]
      show ({ n5.fnb with DKGState := _ } : FlowNodeBuilder U O) = _
      rw [hf5, hf4, hf1]

/-- What a completed bootstrap branch read and stored. -/
theorem initStateBootstrap_next (env : Env U O S) (n m : Node U O S)
    (h : initStateBootstrap env n = .next m) :
    ∃ rb, (loadRootBlock env n.fnb.BaseConfig.BootstrapDir).1 = some rb ∧
      m.fnb = { n.fnb with
        RootBlock := some rb, RootChainID := rb.Header.ChainID,
        RootQC := (loadRootQC env n.fnb.BaseConfig.BootstrapDir).1,
        DKGState := (loadDKGPublicData env n.fnb.BaseConfig.BootstrapDir).1 } := by
  unfold initStateBootstrap at h
  dsimp only at h
  obtain ⟨n1, h1, g1⟩ := bind_next h
  obtain ⟨hf1, -, -, -, -⟩ := mustNil_next h1
  have hrb : n1.fnb.RootBlock = (loadRootBlock env n.fnb.BaseConfig.BootstrapDir).1 := by
    rw [hf1]; rfl
  cases hb : n1.fnb.RootBlock with
  | none => rw [hb] at g1; simp at g1
  | some rb =>
    rw [hb] at g1
    dsimp only at g1
    obtain ⟨n4, h4, g4⟩ := bind_next g1
    obtain ⟨hf4, -, -, -, -⟩ := mustNil_next h4
    obtain ⟨n5, hf5, -, -, g5⟩ := must_next g4
    obtain ⟨n6, hf6, -, -, g6⟩ := must_next g5
    obtain ⟨n7, h7, g7⟩ := bind_next g6
    obtain ⟨hf7, -, -⟩ := MustNot_next h7
    have hf8 := initStateCallbacks_next env n7 m g7
    refine ⟨rb, by rw [← hrb, hb], ?_⟩
    rw [hf8, hf7]
    show ({ n6.fnb with DKGState := _ } : FlowNodeBuilder U O) = _
    rw [hf6, hf5, hf4, hf1]
    rfl

theorem initStateIdentity_next (env : Env U O S) (n m : Node U O S)
    (h : initStateIdentity env n = .next m) :
    ∃ me, m.fnb = { n.fnb with Me := me, State := true } ∧ m.store = n.store := by
  unfold initStateIdentity at h
  obtain ⟨n1, hf1, hs1, -, g1⟩ := must_next h
  obtain ⟨n2, hf2, hs2, -, g2⟩ := must_next g1
  cases hself : (env.Identity n1.store
    (env.HexStringToIdentifier n.fnb.BaseConfig.nodeIDHex).1).1 with
  | none => rw [hself] at g2; simp at g2
  | some self =>
    rw [hself] at g2
    dsimp only at g2
    obtain ⟨n3, h3, g3⟩ := bind_next g2
    obtain ⟨hf3, hs3, -⟩ := check_next h3
    obtain ⟨n4, h4, g4⟩ := bind_next g3
    obtain ⟨hf4, hs4, -⟩ := check_next h4
    obtain ⟨n5, h5, g5⟩ := bind_next g4
    obtain ⟨hf5, hs5, -, -, -⟩ := mustNil_next h5
    simp only [Step.next.injEq] at g5
    refine ⟨(env.localNew self n4.fnb.stakingKey).1, ?_, ?_⟩
    · rw [← g5]
      show ({ n5.fnb with State := true } : FlowNodeBuilder U O) = _
      rw [hf5]
      show ({ ({ n4.fnb with Me := _ } : FlowNodeBuilder U O) with State := true } :
        FlowNodeBuilder U O) = _
      rw [hf4, hf3, hf2, hf1]
    · rw [← g5]
      exact hs5.trans (hs4.trans (hs3.trans (hs2.trans hs1)))

/-- What a completed initState read from the bootstrap directory and stored in the builder,
on the bootstrap branch and on the resume branch. -/
theorem initState_next (env : Env U O S) (n m : Node U O S) (h : initState env n = .next m)
    (hp : env.Head n.store = .error .ErrNotFound ∨ ∃ hd, env.Head n.store = .ok hd) :
    ∃ rb me, (loadRootBlock env n.fnb.BaseConfig.BootstrapDir).1 = some rb ∧
      m.fnb = { n.fnb with
        RootBlock := some rb, RootChainID := rb.Header.ChainID,
        RootQC := (loadRootQC env n.fnb.BaseConfig.BootstrapDir).1,
        DKGState := (loadDKGPublicData env n.fnb.BaseConfig.BootstrapDir).1,
        Me := me, State := true } := by
  unfold initState at h
  obtain ⟨n1, h1, g1⟩ := bind_next h
  obtain ⟨hf1, hs1, -, -, -⟩ := mustNil_next h1
  obtain ⟨n2, h2, g2⟩ := bind_next g1
  obtain ⟨me, hme, -⟩ := initStateIdentity_next env n2 m g2
  unfold initStateBranch at h2
  rw [hs1] at h2
  rcases hp with hp | ⟨hd, hp⟩
  · rw [hp] at h2
    obtain ⟨rb, l1, hf⟩ := initStateBootstrap_next env _ _ h2
    refine ⟨rb, me, ?_, ?_⟩
    · rw [← l1]; simp [Node.emit, hf1]
    · rw [hme, hf]
      simp only [Node.emit, hf1]
  · rw [hp] at h2
    obtain ⟨rb, l1, -, hf⟩ := initStateResume_next env _ _ h2
    refine ⟨rb, me, ?_, ?_⟩
    · rw [← l1]; simp [Node.emit, hf1]
    · rw [hme, hf]
      simp only [Node.emit, hf1]

theorem Step.eq_next_of_term {r : Step (Node U O S)} (h : r.term = none) : r = .next r.node := by
  cases r with
  | next m => rfl
  | halt z m => simp [Step.term] at h

/-- C13. Whenever initState completes on the bootstrap path or on the resume path, the builder
holds the root block and the root QC that were loaded from the bootstrap directory, and
RootChainID is the chain identifier in the header of that root block; so two completed runs of
initState over the same bootstrap directory, whichever of the two paths each of them took, end
with the same RootBlock, RootQC and RootChainID. -/
theorem initState_root_chain (env : Env U O S) (n m : Node U O S)
    (h : initState env n = .next m)
    (hp : env.Head n.store = .error .ErrNotFound ∨ ∃ hd, env.Head n.store = .ok hd) :
    (∃ rb, (loadRootBlock env n.fnb.BaseConfig.BootstrapDir).1 = some rb ∧
      m.fnb.RootBlock = some rb ∧
      m.fnb.RootQC = (loadRootQC env n.fnb.BaseConfig.BootstrapDir).1 ∧
      m.fnb.RootChainID = rb.Header.ChainID) ∧
    ∀ n2 m2 : Node U O S,
      n2.fnb.BaseConfig.BootstrapDir = n.fnb.BaseConfig.BootstrapDir →
      initState env n2 = .next m2 →
      (env.Head n2.store = .error .ErrNotFound ∨ ∃ hd, env.Head n2.store = .ok hd) →
      m2.fnb.RootBlock = m.fnb.RootBlock ∧ m2.fnb.RootQC = m.fnb.RootQC ∧
        m2.fnb.RootChainID = m.fnb.RootChainID := by
  obtain ⟨rb, me, l1, hf⟩ := initState_next env n m h hp
  refine ⟨⟨rb, l1, by rw [hf], by rw [hf], by rw [hf]⟩, ?_⟩
  intro n2 m2 hdir h2 hp2
  obtain ⟨rb2, me2, k1, hf2⟩ := initState_next env n2 m2 h2 hp2
  rw [hdir, l1] at k1
  cases k1
  rw [hf, hf2, hdir]
  exact ⟨rfl, rfl, rfl⟩

/-- C13 at the example: initState on the empty store (bootstrap branch) and on a store with a
finalized head (resume branch) end with the same root block, root QC and chain identifier. -/
theorem initState_root_chain_witness :
    (∃ m, initState (exampleEnv fun _ => wFires) { fnb := keyedFnb, store := 0 } = .next m ∧
      m.fnb.RootChainID = "flow") ∧
    (exampleEnv fun _ => wFires).Head 0 = .error .ErrNotFound ∧
    (exampleEnv fun _ => wFires).Head 1 = .ok { ChainID := "flow", Height := 0 } ∧
    ∀ m2 : Node Nat Nat Nat,
      initState (exampleEnv fun _ => wFires) { fnb := keyedFnb, store := 1 } = .next m2 →
      m2.fnb.RootBlock = some { Header := { ChainID := "flow", Height := 0 }, Payload := 0 } ∧
        m2.fnb.RootQC = some { id := 1 } ∧ m2.fnb.RootChainID = "flow" :=
  ⟨⟨_, Step.eq_next_of_term (by rfl), by rfl⟩, rfl, rfl, fun m2 h2 =>
    (initState_root_chain (exampleEnv fun _ => wFires) { fnb := keyedFnb, store := 0 } _
      (Step.eq_next_of_term (by rfl)) (Or.inl rfl)).2 { fnb := keyedFnb, store := 1 } m2 rfl h2
      (Or.inr ⟨_, rfl⟩)⟩

/-- The builder fields RootResult and RootSeal are written nowhere in initState. -/
theorem initState_keeps_result (env : Env U O S) (n m : Node U O S)
    (h : initState env n = .next m) :
    m.fnb.RootResult = n.fnb.RootResult ∧ m.fnb.RootSeal = n.fnb.RootSeal := by
  cases hh : env.Head n.store with
  | ok hd =>
    obtain ⟨rb, me, -, hf⟩ := initState_next env n m h (Or.inr ⟨hd, hh⟩)
    rw [hf]
    exact ⟨rfl, rfl⟩
  | error err =>
    cases err with
    | ErrNotFound =>
      obtain ⟨rb, me, -, hf⟩ := initState_next env n m h (Or.inl hh)
      rw [hf]
      exact ⟨rfl, rfl⟩
    | other msg =>
      unfold initState at h
      obtain ⟨n1, h1, g1⟩ := bind_next h
      obtain ⟨hf1, hs1, -, -, -⟩ := mustNil_next h1
      obtain ⟨n2, h2, g2⟩ := bind_next g1
      obtain ⟨me, hme, -⟩ := initStateIdentity_next env n2 m g2
      unfold initStateBranch at h2
      rw [hs1, hh] at h2
      obtain ⟨rfl, -⟩ := Fatal_next h2
      rw [hme]
      simp only [Node.log, Node.emit, hf1]
      exact ⟨trivial, trivial⟩

/-- C14 fails in the code: on the empty store, with a bootstrap directory that holds a root
execution result and a root seal, initState completes on the bootstrap branch, stores the root
block and the root QC in the builder and leaves RootResult and RootSeal unset. -/
theorem initState_root_result_unset :
    (initState (exampleEnv fun _ => wFires) { fnb := keyedFnb, store := 0 }).term = none ∧
    (exampleEnv fun _ => wFires).Head 0 = .error .ErrNotFound ∧
    loadRootResult (exampleEnv fun _ => wFires) keyedFnb.BaseConfig.BootstrapDir =
      (some { id := 2 }, none) ∧
    loadRootSeal (exampleEnv fun _ => wFires) keyedFnb.BaseConfig.BootstrapDir =
      (some { id := 3 }, none) ∧
    (initState (exampleEnv fun _ => wFires) { fnb := keyedFnb, store := 0 }).node.fnb.RootBlock =
      some { Header := { ChainID := "flow", Height := 0 }, Payload := 0 } ∧
    (initState (exampleEnv fun _ => wFires) { fnb := keyedFnb, store := 0 }).node.fnb.RootQC =
      some { id := 1 } ∧
    (initState (exampleEnv fun _ => wFires) { fnb := keyedFnb, store := 0 }).node.fnb.RootResult =
      none ∧
    (initState (exampleEnv fun _ => wFires) { fnb := keyedFnb, store := 0 }).node.fnb.RootSeal =
      none ∧
    Event.genesisCommit none ∈
      (initState (exampleEnv fun _ => wFires) { fnb := keyedFnb, store := 0 }).node.trace :=
  ⟨by rfl, by rfl, by rfl, by rfl, by rfl, by rfl, by rfl, by rfl, by decide⟩

/-- C3 as stated fails: when the head query answers with an error other than ErrNotFound, the
query was made and neither the bootstrap nor the resume branch is taken. -/
theorem initState_neither_path :
    Event.headQuery (some (.other "disk error")) ∈
      (initState brokenHeadEnv { fnb := bareFnb, store := 0 }).node.trace ∧
    ¬ ((∃ e ∈ (initState brokenHeadEnv { fnb := bareFnb, store := 0 }).node.trace,
          e.path = some .bootstrap) ∨
        (∃ e ∈ (initState brokenHeadEnv { fnb := bareFnb, store := 0 }).node.trace,
          e.path = some .resume)) := by
  have ht : (initState brokenHeadEnv { fnb := bareFnb, store := 0 }).node.trace =
      [.call .NewState true, .headQuery (some (.other "disk error"))] := by rfl
  rw [ht]
  simp [Event.path]

/-- C3, amended, at the example: on the empty store the bootstrap branch is taken. -/
theorem initState_paths_witness :
    (exampleEnv fun _ => wFires).NewState bareFnb.BaseConfig.nClusters = none ∧
    ∃ d, (initState (exampleEnv fun _ => wFires) { fnb := bareFnb, store := 0 }).node.trace =
        [] ++ d ∧
      ((∃ e ∈ d, e.path = some .bootstrap) ↔
        (exampleEnv fun _ => wFires).Head 0 = .error .ErrNotFound) ∧
      ((∃ e ∈ d, e.path = some .resume) ↔
        ∃ hd, (exampleEnv fun _ => wFires).Head 0 = .ok hd) ∧
      (∀ msg, (exampleEnv fun _ => wFires).Head 0 = .error (.other msg) →
        ∀ e ∈ d, e.path = none) :=
  ⟨rfl, initState_paths (exampleEnv fun _ => wFires) { fnb := bareFnb, store := 0 } rfl⟩

/-- C5 at the example: on a store with a finalized head, initState of a builder with three
bootstrap functions leaves the store as it is. -/
theorem initState_resume_frame_witness :
    (exampleEnv fun _ => wFires).Head 1 = .ok { ChainID := "flow", Height := 0 } ∧
    (initState (exampleEnv fun _ => wFires) { fnb := bootFnb, store := 1 }).node.store = 1 :=
  ⟨rfl, (initState_resume_frame (exampleEnv fun _ => wFires) { fnb := bootFnb, store := 1 }
    { ChainID := "flow", Height := 0 } rfl).1⟩

end

section
variable {U O S : Type}

/-! ## The startup stays before the main loop -/

theorem Within.idle (hi : Nat) (n : Node U O S) : Within hi n (.next n) :=
  ⟨⟨[], by simp [Step.node], by simp⟩, by simp [Step.term], by simp [Step.term]⟩

theorem Within.thenWithin {hi : Nat} {n m : Node U O S} {r : Step (Node U O S)}
    (h1 : Within hi n (.next m)) (h2 : Within hi m r) : Within hi n r := by
  obtain ⟨⟨d1, ht1, hp1⟩, -, -⟩ := h1
  obtain ⟨⟨d2, ht2, hp2⟩, hz⟩ := h2
  refine ⟨⟨d1 ++ d2, ?_, ?_⟩, hz⟩
  · rw [ht2]
    simp only [Step.node] at ht1
    rw [ht1, List.append_assoc]
  · intro e he
    rw [List.mem_append] at he
    exact he.elim (hp1 e) (hp2 e)

theorem Within.andThenWithin {hi : Nat} {n : Node U O S} {r : Step (Node U O S)}
    {f : Node U O S → Step (Node U O S)} (h : Within hi n r) (hf : ∀ m, Within hi m (f m)) :
    Within hi n (r.bind f) := by
  cases r with
  | next m => exact h.thenWithin (hf m)
  | halt z m => exact h

theorem Within.widen {lo hi : Nat} {n : Node U O S} {r : Step (Node U O S)}
    (h : Within lo n r) (hle : lo ≤ hi) : Within hi n r := by
  obtain ⟨⟨d, ht, hp⟩, hz⟩ := h
  exact ⟨⟨d, ht, fun e he => le_trans (hp e he) hle⟩, hz⟩

/-- A step that adds the interactions `d` and ends, if it does, in the way `z`. -/
theorem Within.of_eq_within {hi : Nat} {n : Node U O S} {r : Step (Node U O S)} (d : List (Event U O))
    (ht : r.node.trace = n.trace ++ d) (hp : ∀ e ∈ d, e.phase ≤ hi)
    (hz : r.term ≠ some .exit0 ∧ r.term ≠ some .blocked) : Within hi n r :=
  ⟨⟨d, ht, hp⟩, hz⟩

theorem Within.reframeWithin {hi : Nat} {n m : Node U O S} {r : Step (Node U O S)}
    (h : Within hi m r) (ht : m.trace = n.trace) : Within hi n r := by
  obtain ⟨⟨d, ht1, hp⟩, hz⟩ := h
  exact ⟨⟨d, by rw [ht1, ht], hp⟩, hz⟩

theorem Fatal_term (msg : String) (n : Node U O S) :
    (Fatal msg n).term = none ∨ (Fatal msg n).term = some (.fatal msg) := by
  unfold Fatal
  split
  · exact Or.inr rfl
  · exact Or.inl rfl

theorem Fatal_within (hi : Nat) (msg : String) (n : Node U O S) : Within hi n (Fatal msg n) := by
  refine Within.of_eq_within [] (by rw [Fatal_node]; simp [Node.log]) (by simp) ?_
  rcases Fatal_term msg n with h | h <;> rw [h] <;> simp

/-- A fatal log event right after the interaction `e`. -/
theorem Fatal_after_within {hi : Nat} (msg : String) (n : Node U O S) (e : Event U O)
    (he : e.phase ≤ hi) : Within hi n (Fatal msg (n.emit e)) := by
  refine Within.of_eq_within [e] (by rw [Fatal_node]; simp [Node.log, Node.emit]) (by simpa using he) ?_
  rcases Fatal_term msg (n.emit e) with h | h <;> rw [h] <;> simp

theorem emit_within {hi : Nat} (n : Node U O S) (e : Event U O) (he : e.phase ≤ hi) :
    Within hi n (.next (n.emit e)) :=
  Within.of_eq_within [e] rfl (by simpa using he) (by simp [Step.term])

theorem mustNil_within {hi : Nat} (c : Call) (err : Option String) (n : Node U O S)
    (hc : c.phase ≤ hi) : Within hi n (mustNil c err n) := by
  cases err with
  | some e => exact Fatal_after_within _ n _ hc
  | none => exact emit_within n _ hc

theorem must_within {hi : Nat} {α : Type} (c : Call) (r : α × Option String) (n : Node U O S)
    (rest : α → Node U O S → Step (Node U O S)) (hc : c.phase ≤ hi)
    (hrest : ∀ a m, Within hi m (rest a m)) : Within hi n (must c r n rest) :=
  (mustNil_within c r.2 n hc).andThenWithin (hrest r.1)

theorem check_within {hi : Nat} (c : Call) (ok : Bool) (n : Node U O S) (hc : c.phase ≤ hi) :
    Within hi n (check c ok n) := by
  cases ok with
  | false =>
    simp only [check, Bool.false_eq_true, if_false]
    exact Fatal_after_within _ n _ hc
  | true => exact emit_within n _ hc

theorem forEach_within {hi : Nat} {α : Type} (body : α → Node U O S → Step (Node U O S))
    (hbody : ∀ x m, Within hi m (body x m)) :
    ∀ (xs : List α) (n : Node U O S), Within hi n (forEach body xs n)
  | [], n => Within.idle hi n
  | x :: xs, n => (hbody x n).andThenWithin (forEach_within body hbody xs)

theorem halt_within (hi : Nat) (n : Node U O S) (z : Termination) (h0 : z ≠ .exit0)
    (hb : z ≠ .blocked) : Within hi n (.halt z n) :=
  Within.of_eq_within [] (by simp [Step.node]) (by simp) ⟨by simpa [Step.term] using h0,
    by simpa [Step.term] using hb⟩

theorem same_within (hi : Nat) (n m : Node U O S) (ht : m.trace = n.trace) :
    Within hi n (.next m) :=
  Within.of_eq_within [] (by simp [Step.node, ht]) (by simp) (by simp [Step.term])

theorem initNodeInfo_within (env : Env U O S) (n : Node U O S) :
    Within 0 n (initNodeInfo env n) := by
  unfold initNodeInfo
  refine Within.andThenWithin (?_ : Within 0 n _) fun n0 => ?_
  · split
    · exact Fatal_within _ _ _
    · exact Within.idle _ _
  · refine must_within _ _ _ _ (by simp [Call.phase]) fun nodeID m1 => ?_
    refine must_within _ _ _ _ (by simp [Call.phase]) fun info m2 => ?_
    cases info with
    | none => exact Within.reframeWithin (halt_within _ _ _ (by simp) (by simp)) rfl
    | some info => exact same_within _ _ _ rfl

theorem initLogger_within (env : Env U O S) (n : Node U O S) :
    Within 0 n (initLogger env n) := by
  unfold initLogger
  refine Within.reframeWithin (must_within _ _ _ _ (by simp [Call.phase]) fun lvl m =>
    same_within _ _ _ rfl) rfl

theorem initProfiler_within (env : Env U O S) (n : Node U O S) :
    Within 0 n (initProfiler env n) := by
  unfold initProfiler
  split
  · exact Within.idle _ _
  · exact must_within _ _ _ _ (by simp [Call.phase]) fun p m => same_within _ _ _ rfl

theorem initDB_within (env : Env U O S) (n : Node U O S) : Within 0 n (initDB env n) := by
  unfold initDB
  exact (mustNil_within _ _ _ (by simp [Call.phase])).andThenWithin
    fun m => mustNil_within _ _ _ (by simp [Call.phase])

theorem initMetrics_within (env : Env U O S) (n : Node U O S) :
    Within 0 n (initMetrics env n) := by
  unfold initMetrics
  exact must_within _ _ _ _ (by simp [Call.phase]) fun p m => same_within _ _ _ rfl

theorem initStorage_within (env : Env U O S) (n : Node U O S) :
    Within 0 n (initStorage env n) := by
  unfold initStorage
  exact Within.reframeWithin (mustNil_within _ _ _ (by simp [Call.phase])) rfl

theorem applyBootstrap_within (env : Env U O S) (b : namedBootstrapFunc U) (n : Node U O S) :
    Within 4 n (applyBootstrap env b n) := by
  unfold applyBootstrap
  dsimp only
  cases (env.bootstrapFn b.fn n.store).2 with
  | none => exact Within.reframeWithin (n := n) (emit_within _ _ (by simp [Event.phase])) rfl
  | some e =>
    exact Within.reframeWithin (n := n) (Fatal_after_within _ _ _ (by simp [Event.phase])) rfl

theorem initStateCallbacks_within (env : Env U O S) (n : Node U O S) :
    Within 4 n (initStateCallbacks env n) := by
  unfold initStateCallbacks
  refine Within.andThenWithin (forEach_within _ (applyBootstrap_within env) _ _) fun m9 => ?_
  exact must_within _ _ _ _ (by simp [Call.phase]) fun dkg m => same_within _ _ _ rfl

theorem initStateBootstrap_within (env : Env U O S) (n : Node U O S) :
    Within 4 n (initStateBootstrap env n) := by
  unfold initStateBootstrap
  dsimp only
  refine Within.andThenWithin
    (Within.reframeWithin (n := n) (mustNil_within _ _ _ (by simp [Call.phase])) rfl) fun n1 => ?_
  split
  · exact halt_within _ _ _ (by simp) (by simp)
  · refine Within.andThenWithin
      (Within.reframeWithin (n := n1) (mustNil_within _ _ _ (by simp [Call.phase])) rfl) fun n4 => ?_
    refine must_within _ _ _ _ (by simp [Call.phase]) fun rootResult n5 => ?_
    refine must_within _ _ _ _ (by simp [Call.phase]) fun rootSeal n6 => ?_
    refine Within.andThenWithin ?_ (initStateCallbacks_within env)
    cases (env.Bootstrap n6.fnb.RootBlock rootResult rootSeal n6.store).2 with
    | none => exact Within.reframeWithin (n := n6) (emit_within _ _ (by simp [Event.phase])) rfl
    | some e =>
      exact Within.reframeWithin (n := n6) (Fatal_after_within _ _ _ (by simp [Event.phase])) rfl

theorem initStateResume_within (env : Env U O S) (n : Node U O S) :
    Within 4 n (initStateResume env n) := by
  unfold initStateResume
  dsimp only
  refine Within.andThenWithin
    (Within.reframeWithin (n := n) (mustNil_within _ _ _ (by simp [Call.phase])) rfl) fun n1 => ?_
  split
  · exact halt_within _ _ _ (by simp) (by simp)
  · refine Within.andThenWithin
      (Within.reframeWithin (n := n1) (mustNil_within _ _ _ (by simp [Call.phase])) rfl) fun n4 => ?_
    exact must_within _ _ _ _ (by simp [Call.phase]) fun dkg m => same_within _ _ _ rfl

theorem initStateIdentity_within (env : Env U O S) (n : Node U O S) :
    Within 4 n (initStateIdentity env n) := by
  unfold initStateIdentity
  refine must_within _ _ _ _ (by simp [Call.phase]) fun myID m1 => ?_
  refine must_within _ _ _ _ (by simp [Call.phase]) fun self m2 => ?_
  cases self with
  | none => exact halt_within _ _ _ (by simp) (by simp)
  | some self =>
    refine Within.andThenWithin (check_within _ _ _ (by simp [Call.phase])) fun m3 => ?_
    refine Within.andThenWithin (check_within _ _ _ (by simp [Call.phase])) fun m4 => ?_
    refine Within.andThenWithin
      (Within.reframeWithin (n := m4) (mustNil_within _ _ _ (by simp [Call.phase])) rfl) fun m5 => ?_
    exact same_within _ _ _ rfl

theorem initState_within (env : Env U O S) (n : Node U O S) : Within 4 n (initState env n) := by
  unfold initState
  refine Within.andThenWithin (mustNil_within _ _ _ (by simp [Call.phase])) fun n1 => ?_
  refine Within.andThenWithin ?_ (initStateIdentity_within env)
  unfold initStateBranch
  split
  · exact Within.thenWithin (emit_within _ _ (by simp [Event.phase]))
      (initStateBootstrap_within env _)
  · exact Fatal_after_within _ _ _ (by simp [Event.phase])
  · exact Within.thenWithin (emit_within _ _ (by simp [Event.phase]))
      (initStateResume_within env _)

theorem runInits_within (env : Env U O S) (n : Node U O S) : Within 4 n (runInits env n) := by
  unfold runInits
  refine ((initNodeInfo_within env n).widen (by omega)).andThenWithin fun n1 => ?_
  refine ((initLogger_within env n1).widen (by omega)).andThenWithin fun n2 => ?_
  refine ((initProfiler_within env n2).widen (by omega)).andThenWithin fun n3 => ?_
  refine ((initDB_within env n3).widen (by omega)).andThenWithin fun n4 => ?_
  refine ((initMetrics_within env n4).widen (by omega)).andThenWithin fun n5 => ?_
  refine ((initStorage_within env n5).widen (by omega)).andThenWithin fun n6 => ?_
  exact initState_within env n6

theorem handlePostInit_within (env : Env U O S) (f : U) (n : Node U O S) :
    Within 5 n (handlePostInit env f n) :=
  Within.reframeWithin (n := n) (emit_within _ _ (by simp [Event.phase])) rfl

theorem handleModule_within (env : Env U O S) (v : namedModuleFunc U) (n : Node U O S) :
    Within 6 n (handleModule env v n) := by
  unfold handleModule
  dsimp only
  cases (env.moduleFn v.fn n.fnb n.store).2 with
  | none =>
    exact Within.of_eq_within [.moduleFn v none] (by simp [Step.node, Node.emit, Node.log, Node.effect])
      (by simp [Event.phase]) (by simp [Step.term])
  | some e =>
    exact Within.reframeWithin (n := n) (Fatal_after_within _ _ _ (by simp [Event.phase])) rfl

theorem awaitReady_within (env : Env U O S) (name : String) (o : O) (n : Node U O S) :
    Within 7 n (awaitReady env name o n) := by
  unfold awaitReady
  dsimp only
  cases (selectWait n.sig (env.wait n.waits)).1 with
  | signal =>
    exact Within.of_eq_within [.readyWait ⟨o, name⟩ .signal] (by simp [Step.node, Node.emit, Node.log])
      (by simp [Event.phase]) (by simp [Step.term])
  | timeout =>
    exact Within.reframeWithin (n := n) (Fatal_after_within _ _ _ (by simp [Event.phase])) rfl
  | sig =>
    exact Within.of_eq_within [.readyWait ⟨o, name⟩ .sig] (by simp [Step.node, Node.emit, Node.log])
      (by simp [Event.phase]) (by simp [Step.term])

theorem handleComponent_within (env : Env U O S) (v : namedComponentFunc U O) (n : Node U O S) :
    Within 7 n (handleComponent env v n) := by
  have hct := (callComponent_frame env v.fn n).1
  unfold handleComponent
  generalize callComponent env v.fn n = c at hct
  obtain ⟨m, ob, err⟩ := c
  dsimp only at hct ⊢
  refine Within.andThenWithin (?_ : Within 7 n _) fun n2 => ?_
  · cases err with
    | some e =>
      exact Within.reframeWithin (n := n) (m := m)
        (Fatal_after_within _ m (.componentFn v ob (some e)) (by simp [Event.phase])) hct
    | none =>
      exact Within.of_eq_within [.componentFn v ob none] (by simp [Step.node, Node.emit, Node.log, hct])
        (by simp [Event.phase]) (by simp [Step.term])
  · cases ob with
    | none => exact halt_within _ _ _ (by simp) (by simp)
    | some o =>
      exact (awaitReady_within env v.name o n2).andThenWithin fun n3 => same_within _ _ _ rfl

/-- The startup of Run stays before the main loop and never ends the process by the exit
with status 0. -/
theorem runStartup_within (env : Env U O S) (n : Node U O S) :
    Within 7 n (runStartup env n) := by
  unfold runStartup
  refine ((runInits_within env n).widen (by omega)).andThenWithin fun n1 => ?_
  refine ((forEach_within _ (handlePostInit_within env) _ n1).widen (by omega)).andThenWithin
    fun n2 => ?_
  refine ((forEach_within _ (handleModule_within env) _ n2).widen (by omega)).andThenWithin
    fun n3 => ?_
  exact forEach_within _ (handleComponent_within env) _ n3

end

section
variable {U O S : Type}

/-! ## The main loop and the shutdown -/

theorem Waited.nil : Waited ([] : List (Event U O)) := by
  intro e he
  simp at he

theorem Waited.cons {ws : List (Event U O)} (h : Waited ws) (d : namedDoneObject O)
    {r : Select} (hr : r ≠ .sig) : Waited (.doneWait d r :: ws) := by
  intro e he
  simp only [List.mem_cons] at he
  rcases he with rfl | he
  · exact ⟨d, r, rfl, hr⟩
  · exact h e he

theorem Waited.phase {ws : List (Event U O)} (h : Waited ws) : ∀ e ∈ ws, e.phase = 9 := by
  intro e he
  obtain ⟨d, r, rfl, -⟩ := h e he
  rfl

/-- The loop over the started objects from the top of the stack: either every wait returns,
or the loop ends the process at a wait that the done signal does not win. -/
theorem stopFrom_shape (env : Env U O S) :
    ∀ (i : Nat) (n : Node U O S), i ≤ n.fnb.doneObject.length →
      (∃ m ws, stopFrom env i n = .next m ∧ m.trace = n.trace ++ ws ∧ Waited ws ∧
        doneAwaited ws = (n.fnb.doneObject.take i).reverse ∧
        m.fnb = n.fnb ∧ m.store = n.store) ∨
      (∃ z m ws x w, stopFrom env i n = .halt z m ∧
        m.trace = n.trace ++ ws ++ [.doneWait x w] ∧ Waited ws ∧
        w ≠ .signal ∧ z ≠ .exit0 ∧ m.fnb = n.fnb ∧ m.store = n.store)
  | 0, n, _ => Or.inl ⟨n, [], rfl, by simp, Waited.nil, by simp [doneAwaited], rfl, rfl⟩
  | i + 1, n, hi => by
    have hlt : i < n.fnb.doneObject.length := by omega
    have htake : (n.fnb.doneObject.take (i + 1)).reverse =
        n.fnb.doneObject[i] :: (n.fnb.doneObject.take i).reverse := by
      rw [List.take_succ, List.getElem?_eq_getElem hlt]
      simp
    have cont : ∀ (r : Select) (p : Node U O S), r ≠ .sig →
        p.trace = n.trace ++ [.doneWait n.fnb.doneObject[i] r] → p.fnb = n.fnb →
        p.store = n.store →
        (∃ m ws, stopFrom env i p = .next m ∧ m.trace = n.trace ++ ws ∧ Waited ws ∧
          doneAwaited ws = (n.fnb.doneObject.take (i + 1)).reverse ∧
          m.fnb = n.fnb ∧ m.store = n.store) ∨
        (∃ z m ws x w, stopFrom env i p = .halt z m ∧
          m.trace = n.trace ++ ws ++ [.doneWait x w] ∧ Waited ws ∧
          w ≠ .signal ∧ z ≠ .exit0 ∧ m.fnb = n.fnb ∧ m.store = n.store) := by
      intro r p hr hpt hpf hps
      rcases stopFrom_shape env i p (by rw [hpf]; omega) with
        ⟨m, ws, hm, ht, hw, hda, hf, hs⟩ | ⟨z, m, ws, x, w, hm, ht, hw, hws, hz, hf, hs⟩
      · refine Or.inl ⟨m, .doneWait n.fnb.doneObject[i] r :: ws, hm, ?_, hw.cons _ hr, ?_,
          hf.trans hpf, hs.trans hps⟩
        · rw [ht, hpt]; simp
        · rw [htake]
          simp only [doneAwaited, List.filterMap_cons] at hda ⊢
          rw [hda, hpf]
      · refine Or.inr ⟨z, m, .doneWait n.fnb.doneObject[i] r :: ws, x, w, hm, ?_, hw.cons _ hr,
          hws, hz, hf.trans hpf, hs.trans hps⟩
        rw [ht, hpt]; simp
    simp only [stopFrom, List.getElem?_eq_getElem hlt, handleDoneObject]
    generalize selectWait _ _ = w
    obtain ⟨r, buf⟩ := w
    cases r with
    | signal =>
      dsimp only
      simp only [Step.bind]
      exact cont .signal _ (by simp) rfl rfl rfl
    | timeout =>
      dsimp only
      simp only [Fatal]
      split
      · exact Or.inr ⟨_, _, [], n.fnb.doneObject[i], .timeout, rfl,
          by simp [Node.emit, Node.log], Waited.nil, by simp, by simp, rfl, rfl⟩
      · simp only [Step.bind]
        exact cont .timeout _ (by simp) rfl rfl rfl
    | sig =>
      exact Or.inr ⟨_, _, [], n.fnb.doneObject[i], .sig, rfl,
        by simp [Node.emit, Node.log], Waited.nil, by simp, by simp, rfl, rfl⟩

theorem doneAwaited_append (a b : List (Event U O)) :
    doneAwaited (a ++ b) = doneAwaited a ++ doneAwaited b := by
  simp [doneAwaited]

/-- The shutdown either awaits every started object and closes the database, or ends at a
wait that the done signal does not win. -/
theorem runStop_shape (env : Env U O S) (n : Node U O S) :
    (runStop env n).node.fnb = n.fnb ∧
    ∃ d, (runStop env n).node.trace = n.trace ++ d ∧
      ((∃ ws x w, d = ws ++ [.doneWait x w] ∧ Waited ws ∧ w ≠ .signal ∧
          (runStop env n).term ≠ some .exit0) ∨
        (∃ ws err, d = ws ++ [.closeDB err] ∧ Waited ws ∧
          doneAwaited ws = n.fnb.doneObject.reverse ∧
          (runStop env n).term = some .exit0 ∧ err = env.Close (runStop env n).node.store ∧
          (∀ e, err = some e →
            (Level.error, "could not close database") ∈ (runStop env n).node.logs))) := by
  unfold runStop
  rcases stopFrom_shape env n.fnb.doneObject.length n (le_refl _) with
    ⟨m, ws, hm, ht, hw, hda, hf, hs⟩ | ⟨z, m, ws, x, w, hm, ht, hw, hws, hz, hf, hs⟩
  · rw [hm]
    simp only [Step.bind, closeDatabase]
    rw [List.take_length] at hda
    refine ⟨?_, ws ++ [.closeDB (env.Close m.store)], ?_,
      Or.inr ⟨ws, env.Close m.store, rfl, hw, hda, ?_, ?_, ?_⟩⟩
    · cases env.Close m.store <;> simpa [Step.bind, Step.node, Node.emit, Node.log] using hf
    · cases env.Close m.store <;> simp [Step.bind, Step.node, Node.emit, Node.log, ht]
    · cases env.Close m.store <;> simp [Step.bind, Step.term]
    · cases hc : env.Close m.store <;> simp [Step.bind, Step.node, Node.emit, Node.log, hc]
    · intro e he
      rw [he]
      simp [Step.bind, Step.node, Node.emit, Node.log]
  · rw [hm]
    exact ⟨hf, ws ++ [.doneWait x w], ht.trans (by simp),
      Or.inl ⟨ws, x, w, rfl, hw, hws, by simpa [Step.bind, Step.term] using hz⟩⟩

/-- The receive of the main loop either never returns or takes the signal out of the
channel. -/
theorem mainWait_cases (env : Env U O S) (n : Node U O S) :
    mainWait env n = .halt .blocked (n.emit (.mainWait false)) ∨
    ∃ m, mainWait env n = .next m ∧ m.sig = 0 ∧ m.waits = n.waits + 1 ∧
      m.trace = n.trace ++ [.mainWait true] ∧ m.fnb = n.fnb ∧ m.store = n.store ∧
      0 < n.sig + (env.wait n.waits).sigs := by
  unfold mainWait notify
  dsimp only
  split
  · exact Or.inl rfl
  · rename_i hav
    refine Or.inr ⟨_, rfl, ?_, rfl, rfl, rfl, rfl, by omega⟩
    show min 1 (n.sig + (env.wait n.waits).sigs) - 1 = 0
    omega

/-- The main loop and the shutdown leave the builder as it is and go one of three ways: no
signal ever comes; or the shutdown ends the process at a wait that the done signal does not
win; or every wait returns, the database is closed and the process exits with status 0. -/
theorem runShutdown_shape (env : Env U O S) (n : Node U O S) :
    (runShutdown env n).node.fnb = n.fnb ∧
    ∃ shut, (runShutdown env n).node.trace = n.trace ++ shut ∧
      ((shut = [.mainWait false] ∧ (runShutdown env n).term = some .blocked) ∨
        (∃ ws x w, shut = .mainWait true :: ws ++ [.doneWait x w] ∧ Waited ws ∧ w ≠ .signal ∧
          (runShutdown env n).term ≠ some .exit0) ∨
        (∃ ws err, shut = .mainWait true :: ws ++ [.closeDB err] ∧ Waited ws ∧
          doneAwaited ws = n.fnb.doneObject.reverse ∧
          (runShutdown env n).term = some .exit0 ∧
          err = env.Close (runShutdown env n).node.store ∧
          (∀ e, err = some e →
            (Level.error, "could not close database") ∈ (runShutdown env n).node.logs))) := by
  unfold runShutdown
  rcases mainWait_cases env
    (n.log .info (n.fnb.BaseConfig.nodeRole ++ " node startup complete")) with
    h | ⟨m, h, -, -, ht, hmf, -, -⟩
  · dsimp only
    rw [h]
    exact ⟨rfl, [.mainWait false], by simp [Step.bind, Step.node, Node.emit, Node.log],
      Or.inl ⟨rfl, rfl⟩⟩
  · dsimp only
    rw [h]
    simp only [Step.bind]
    have hmf2 : m.fnb = n.fnb := hmf
    have ht2 : m.trace = n.trace ++ [.mainWait true] := ht
    obtain ⟨hf, d, htd, hd⟩ := runStop_shape env
      (m.log .info (m.fnb.BaseConfig.nodeRole ++ " node shutting down"))
    refine ⟨hf.trans hmf2, .mainWait true :: d, ?_, ?_⟩
    · rw [htd]
      simp [Node.log, ht2]
    · rcases hd with ⟨ws, x, w, rfl, hw, hws, hz⟩ | ⟨ws, err, rfl, hw, hda, hz, he, hl⟩
      · exact Or.inr (Or.inl ⟨ws, x, w, rfl, hw, hws, hz⟩)
      · refine Or.inr (Or.inr ⟨ws, err, rfl, hw, ?_, hz, he, hl⟩)
        rw [hda]
        simp [Node.log, hmf2]

/-- Every run of Run is its startup, whose interactions belong to the stages up to 7, and,
when the startup returns, the main loop and the shutdown. -/
theorem Run_shape (env : Env U O S) (fnb : FlowNodeBuilder U O) (store : S) :
    ∃ pre, (∀ e ∈ pre, e.phase ≤ 7) ∧
      (((Run env fnb store).node.trace = pre ∧ (Run env fnb store).term ≠ some .exit0 ∧
          (Run env fnb store).term ≠ some .blocked) ∨
        ∃ shut, (Run env fnb store).node.trace = pre ++ shut ∧
          ((shut = [.mainWait false] ∧ (Run env fnb store).term = some .blocked) ∨
            (∃ ws x w, shut = .mainWait true :: ws ++ [.doneWait x w] ∧ Waited ws ∧
              w ≠ .signal ∧ (Run env fnb store).term ≠ some .exit0) ∨
            (∃ ws err, shut = .mainWait true :: ws ++ [.closeDB err] ∧ Waited ws ∧
              doneAwaited ws = (Run env fnb store).node.fnb.doneObject.reverse ∧
              (Run env fnb store).term = some .exit0 ∧
              err = env.Close (Run env fnb store).node.store ∧
              (∀ e, err = some e →
                (Level.error, "could not close database") ∈
                  (Run env fnb store).node.logs)))) := by
  rw [Run_eq]
  obtain ⟨⟨pre, ht, hp⟩, h0, hb⟩ := runStartup_within env (startNode env fnb store)
  have hnil : (startNode env fnb store).trace = [] := rfl
  rw [hnil, List.nil_append] at ht
  cases hr : runStartup env (startNode env fnb store) with
  | halt z m =>
    rw [hr] at ht h0 hb
    exact ⟨pre, hp, Or.inl ⟨ht, h0, hb⟩⟩
  | next m =>
    rw [hr] at ht
    simp only [Step.node] at ht
    simp only [Step.bind]
    obtain ⟨hf, shut, hts, hs⟩ := runShutdown_shape env m
    refine ⟨pre, hp, Or.inr ⟨shut, by rw [hts, ht], ?_⟩⟩
    rw [hf]
    exact hs

end

section
variable {U O S : Type}

/-! ## The claims on the shutdown -/

theorem append_singleton_split {α : Type} {A pre post : List α} {x y : α}
    (h : pre ++ x :: post = A ++ [y]) (hA : x ∉ A) : pre = A ∧ x = y ∧ post = [] := by
  rw [List.append_eq_append_iff] at h
  rcases h with ⟨a, h1, h2⟩ | ⟨c, h1, h2⟩
  · cases a with
    | nil =>
      simp only [List.nil_append, List.cons.injEq] at h2
      exact ⟨by simpa using h1.symm, h2.1, h2.2⟩
    | cons b a =>
      simp only [List.cons_append, List.cons.injEq] at h2
      exact absurd (by rw [h1, h2.1]; simp) hA
  · cases c with
    | nil =>
      simp only [List.nil_append, List.cons.injEq] at h2
      exact ⟨by simpa using h1, h2.1.symm, h2.2.symm⟩
    | cons b c =>
      simp at h2

/-- A run that closes the database: the close is the last interaction, the process exits with
status 0, and before the close the done signal of every started object was awaited and no
wait was resolved by an abort signal. -/
theorem Run_closed (env : Env U O S) (fnb : FlowNodeBuilder U O) (store : S)
    (h : (∃ err, Event.closeDB err ∈ (Run env fnb store).node.trace) ∨
      (Run env fnb store).term = some .exit0) :
    ∃ pre, (Run env fnb store).node.trace =
        pre ++ [.closeDB (env.Close (Run env fnb store).node.store)] ∧
      (∀ e ∈ pre, e.phase ≤ 9) ∧
      (∀ x w, Event.doneWait x w ∈ pre → w ≠ .sig) ∧
      doneAwaited pre = (Run env fnb store).node.fnb.doneObject.reverse ∧
      (Run env fnb store).term = some .exit0 ∧
      (∀ e, env.Close (Run env fnb store).node.store = some e →
        (Level.error, "could not close database") ∈ (Run env fnb store).node.logs) := by
  obtain ⟨pre, hp, hs⟩ := Run_shape env fnb store
  have hpre : ∀ err, Event.closeDB err ∉ pre := fun err hm => by
    have := hp _ hm
    simp [Event.phase] at this
  rcases hs with ⟨ht, h0, -⟩ | ⟨shut, ht, hs⟩
  · rcases h with ⟨err, hm⟩ | hz
    · rw [ht] at hm
      exact absurd hm (hpre err)
    · exact absurd hz h0
  rcases hs with ⟨rfl, hz⟩ | ⟨ws, x, w, rfl, hw, -, hz⟩ | ⟨ws, err, rfl, hw, hda, hz, he, hl⟩
  · rcases h with ⟨err, hm⟩ | hz2
    · rw [ht] at hm
      simp only [List.mem_append, List.mem_singleton, reduceCtorEq, or_false] at hm
      exact absurd hm (hpre err)
    · rw [hz] at hz2
      simp at hz2
  · rcases h with ⟨err, hm⟩ | hz2
    · rw [ht] at hm
      simp only [List.cons_append, List.mem_append, List.mem_cons, List.mem_singleton,
        List.not_mem_nil, reduceCtorEq, or_false, false_or] at hm
      rcases hm with hm | hm
      · exact absurd hm (hpre err)
      · have := hw.phase _ hm
        simp [Event.phase] at this
    · exact absurd hz2 hz
  · subst he
    refine ⟨pre ++ .mainWait true :: ws, by rw [ht]; simp, ?_, ?_, ?_, hz, hl⟩
    · intro e hm
      simp only [List.mem_append, List.mem_cons] at hm
      rcases hm with hm | rfl | hm
      · exact le_trans (hp e hm) (by omega)
      · simp [Event.phase]
      · rw [hw.phase e hm]
    · intro x w hm
      simp only [List.mem_append, List.mem_cons, reduceCtorEq, false_or] at hm
      rcases hm with hm | hm
      · have := hp _ hm
        simp [Event.phase] at this
      · obtain ⟨d, r, heq, hr⟩ := hw _ hm
        simp only [Event.doneWait.injEq] at heq
        rw [heq.2]
        exact hr
    · rw [doneAwaited_append, doneAwaited_eq_nil (fun e he => le_trans (hp e he) (by omega))]
      simpa [doneAwaited] using hda

/-- After a signal in the main loop, when every wait on a done signal is resolved by it, the
close of the database is the last interaction and the only close. -/
theorem Run_signal_close (env : Env U O S) (fnb : FlowNodeBuilder U O) (store : S)
    (hsig : .mainWait true ∈ (Run env fnb store).node.trace)
    (hdone : ∀ x w, .doneWait x w ∈ (Run env fnb store).node.trace → w = .signal) :
    ∃ pre err, (Run env fnb store).node.trace = pre ++ [.closeDB err] ∧
      ∀ e, .closeDB e ∉ pre := by
  obtain ⟨pre, hp, hs⟩ := Run_shape env fnb store
  have hnot : Event.mainWait true ∉ pre := fun hm => by
    have := hp _ hm
    simp [Event.phase] at this
  rcases hs with ⟨ht, -, -⟩ | ⟨shut, ht, hs⟩
  · rw [ht] at hsig
    exact absurd hsig hnot
  rcases hs with ⟨rfl, -⟩ | ⟨ws, x, w, rfl, -, hws, -⟩ | ⟨ws, err, rfl, hw, -, -, -, -⟩
  · rw [ht] at hsig
    simp only [List.mem_append, List.mem_singleton, Event.mainWait.injEq,
      Bool.true_eq_false, or_false] at hsig
    exact absurd hsig hnot
  · exact absurd (hdone x w (by rw [ht]; simp)) hws
  · refine ⟨pre ++ .mainWait true :: ws, err, by rw [ht]; simp, fun e hm => ?_⟩
    simp only [List.mem_append, List.mem_cons, reduceCtorEq, false_or] at hm
    rcases hm with hm | hm
    · have := hp _ hm
      simp [Event.phase] at this
    · have := hw.phase _ hm
      simp [Event.phase] at this

/-- C11, amended. The database is closed at most once and only by a shutdown that was not
abandoned: a close of the database is the last interaction of the process and the only close;
before it the done signal of every started object was awaited, in reverse order of start, and
no wait was resolved by an abort signal; the process then exits with status 0. When a wait on
a done signal is resolved by an abort signal, the database is never closed and the process
exits with status 1. A process that exits with status 0 has closed the database as its last
interaction, and so has a process whose main loop received a signal and whose waits on the
done signals were all resolved by them. -/
theorem Run_closes_database (env : Env U O S) (fnb : FlowNodeBuilder U O) (store : S) :
    (∀ pre err post, (Run env fnb store).node.trace = pre ++ .closeDB err :: post →
      post = [] ∧ (∀ e, .closeDB e ∉ pre) ∧ (Run env fnb store).term = some .exit0 ∧
      doneAwaited pre = (Run env fnb store).node.fnb.doneObject.reverse ∧
      (∀ x w, .doneWait x w ∈ pre → w ≠ .sig) ∧
      err = env.Close (Run env fnb store).node.store) ∧
    (∀ x, .doneWait x .sig ∈ (Run env fnb store).node.trace →
      (∀ err, .closeDB err ∉ (Run env fnb store).node.trace) ∧
      (Run env fnb store).term = some .abort ∧
      (Run env fnb store).term.bind Termination.code = some 1) ∧
    ((Run env fnb store).term = some .exit0 →
      ∃ pre err, (Run env fnb store).node.trace = pre ++ [.closeDB err]) ∧
    (.mainWait true ∈ (Run env fnb store).node.trace →
      (∀ x w, .doneWait x w ∈ (Run env fnb store).node.trace → w = .signal) →
      ∃ pre err, (Run env fnb store).node.trace = pre ++ [.closeDB err] ∧
        ∀ e, .closeDB e ∉ pre) := by
  have hno : ∀ {pre : List (Event U O)}, (∀ e ∈ pre, e.phase ≤ 9) →
      ∀ e, Event.closeDB e ∉ pre := fun hp e hm => by
    have := hp _ hm
    simp [Event.phase] at this
  refine ⟨?_, ?_, ?_, ?_⟩
  · intro pre err post ht
    obtain ⟨p, hp, hph, hw, hda, hz, -⟩ :=
      Run_closed env fnb store (Or.inl ⟨err, by rw [ht]; simp⟩)
    have heq : pre ++ .closeDB err :: post =
        p ++ [.closeDB (env.Close (Run env fnb store).node.store)] := by rw [← ht, hp]
    obtain ⟨h1, h2, h3⟩ := append_singleton_split heq (hno hph err)
    subst h1
    simp only [Event.closeDB.injEq] at h2
    exact ⟨h3, hno hph, hz, hda, hw, h2⟩
  · intro x hm
    obtain ⟨pre, post, ht⟩ := List.append_of_mem hm
    obtain ⟨lv, j, hg⟩ := Run_good env fnb store
    obtain ⟨hpost, htm⟩ := hg.last ht rfl
    refine ⟨fun err hc => ?_, htm, by rw [htm]; rfl⟩
    rw [ht, hpost] at hc
    simp only [List.mem_append, List.mem_singleton, reduceCtorEq, or_false] at hc
    have := ((hg.split ht).1 _ hc).2
    simp [Event.phase] at this
  · intro hz
    obtain ⟨p, hp, -⟩ := Run_closed env fnb store (Or.inr hz)
    exact ⟨p, _, hp⟩
  · exact fun hsig hdone => Run_signal_close env fnb store hsig hdone

/-- C12. When the main loop has received a signal and every wait on a done signal is resolved
by that signal, Run closes the database as its last interaction, after the done signal of
every started object was awaited, and exits with status 0; an error of the close is logged at
level error and the exit status is 0 all the same. -/
theorem Run_graceful_exit (env : Env U O S) (fnb : FlowNodeBuilder U O) (store : S)
    (hsig : .mainWait true ∈ (Run env fnb store).node.trace)
    (hdone : ∀ x w, .doneWait x w ∈ (Run env fnb store).node.trace → w = .signal) :
    (Run env fnb store).term = some .exit0 ∧
    (Run env fnb store).term.bind Termination.code = some 0 ∧
    (∃ pre, (Run env fnb store).node.trace =
        pre ++ [.closeDB (env.Close (Run env fnb store).node.store)] ∧
      (∀ err, .closeDB err ∉ pre) ∧
      doneAwaited pre = (Run env fnb store).node.fnb.doneObject.reverse) ∧
    (∀ e, env.Close (Run env fnb store).node.store = some e →
      (Level.error, "could not close database") ∈ (Run env fnb store).node.logs) := by
  obtain ⟨p, err, hp, -⟩ := Run_signal_close env fnb store hsig hdone
  obtain ⟨pre, ht, hph, -, hda, hz, hl⟩ :=
    Run_closed env fnb store (Or.inl ⟨err, by rw [hp]; simp⟩)
  refine ⟨hz, by rw [hz]; rfl, ⟨pre, ht, fun e hm => ?_, hda⟩, hl⟩
  have := hph _ hm
  simp [Event.phase] at this

/-- In the example run with a failing close every wait on a done signal is resolved by it. -/
theorem closeFail_doneWaits (x : namedDoneObject Nat) (w : Select)
    (hm : .doneWait x w ∈ (Run closeFailEnv twoFnb 1).node.trace) : w = .signal := by
  have ht : (Run closeFailEnv twoFnb 1).node.trace =
      resumeInits ++ twoStarted ++
        [.doneWait { ob := 102, name := "mempools metrics" } .signal,
          .doneWait { ob := 2, name := "b" } .signal, .doneWait { ob := 1, name := "a" } .signal,
          .closeDB (some "disk full")] := by rfl
  rw [ht] at hm
  simp [resumeInits, twoStarted] at hm
  rcases hm with ⟨-, rfl⟩ | ⟨-, rfl⟩ | ⟨-, rfl⟩ <;> rfl

/-- C12 at the example: a signal arrives in the main loop, the three done signals fire, the
close of the database fails; the process exits with status 0 and the failure is logged. -/
theorem Run_graceful_exit_witness :
    Event.mainWait true ∈ (Run closeFailEnv twoFnb 1).node.trace ∧
    (Run closeFailEnv twoFnb 1).node.trace =
      resumeInits ++ twoStarted ++
        [.doneWait { ob := 102, name := "mempools metrics" } .signal,
          .doneWait { ob := 2, name := "b" } .signal, .doneWait { ob := 1, name := "a" } .signal,
          .closeDB (some "disk full")] ∧
    closeFailEnv.Close (Run closeFailEnv twoFnb 1).node.store = some "disk full" ∧
    (Run closeFailEnv twoFnb 1).term = some .exit0 ∧
    (Run closeFailEnv twoFnb 1).term.bind Termination.code = some 0 ∧
    (Level.error, "could not close database") ∈ (Run closeFailEnv twoFnb 1).node.logs :=
  ⟨by decide, by rfl, by rfl,
    (Run_graceful_exit closeFailEnv twoFnb 1 (by decide) closeFail_doneWaits).1,
    (Run_graceful_exit closeFailEnv twoFnb 1 (by decide) closeFail_doneWaits).2.1,
    (Run_graceful_exit closeFailEnv twoFnb 1 (by decide) closeFail_doneWaits).2.2.2
      "disk full" (by rfl)⟩

/-- C11 as stated fails: a second signal arrives while the done signal of `b` is awaited; the
shutdown is abandoned, the process exits with status 1 and the database is never closed. -/
theorem Run_abort_skips_close :
    Event.doneWait { ob := 2, name := "b" } .sig ∈
      (Run (exampleEnv twoSignals) twoFnb 1).node.trace ∧
    (Run (exampleEnv twoSignals) twoFnb 1).term = some .abort ∧
    ∀ err, Event.closeDB err ∉ (Run (exampleEnv twoSignals) twoFnb 1).node.trace := by
  have ht : (Run (exampleEnv twoSignals) twoFnb 1).node.trace =
      resumeInits ++ twoStarted ++
        [.doneWait { ob := 102, name := "mempools metrics" } .signal,
          .doneWait { ob := 2, name := "b" } .sig] := by rfl
  refine ⟨by rw [ht]; simp, by rfl, fun err => ?_⟩
  rw [ht]
  simp [resumeInits, twoStarted]

/-- C11, amended, at the example: after a signal in the main loop the three done signals fire;
the close of the database is the last interaction and the process exits with status 0. -/
theorem Run_closes_database_witness :
    (Run (exampleEnv oneSignal) twoFnb 1).node.trace =
      (resumeInits ++ twoStarted ++
        [.doneWait { ob := 102, name := "mempools metrics" } .signal,
          .doneWait { ob := 2, name := "b" } .signal,
          .doneWait { ob := 1, name := "a" } .signal]) ++ .closeDB none :: [] ∧
    (Run (exampleEnv oneSignal) twoFnb 1).term = some .exit0 ∧
    doneAwaited (resumeInits ++ twoStarted ++
        [.doneWait { ob := 102, name := "mempools metrics" } .signal,
          .doneWait { ob := 2, name := "b" } .signal,
          .doneWait { ob := 1, name := "a" } .signal] : List (Event Nat Nat)) =
      (Run (exampleEnv oneSignal) twoFnb 1).node.fnb.doneObject.reverse :=
  ⟨by rfl,
    ((Run_closes_database (exampleEnv oneSignal) twoFnb 1).1 _ none [] (by rfl)).2.2.1,
    ((Run_closes_database (exampleEnv oneSignal) twoFnb 1).1 _ none [] (by rfl)).2.2.2.1⟩

end

section
variable {U O S : Type}

/-! ## The level of the logger -/

theorem initNodeInfo_next (env : Env U O S) (n m : Node U O S)
    (h : initNodeInfo env n = .next m) :
    m.fnb.components = n.fnb.components ∧ m.fnb.doneObject = n.fnb.doneObject ∧
      m.fnb.BaseConfig = n.fnb.BaseConfig ∧ m.fnb.Logger = n.fnb.Logger ∧
      m.fnb.bootstraps = n.fnb.bootstraps ∧ m.fnb.postInitFns = n.fnb.postInitFns ∧
      m.fnb.modules = n.fnb.modules := by
  unfold initNodeInfo at h
  obtain ⟨n0, h0, g0⟩ := bind_next h
  have hf0 : n0.fnb = n.fnb := by
    split at h0
    · rw [(Fatal_next h0).1]; rfl
    · simp only [Step.next.injEq] at h0
      rw [← h0]
  obtain ⟨n1, hf1, -, -, g1⟩ := must_next g0
  obtain ⟨n2, hf2, -, -, g2⟩ := must_next g1
  have hf : n2.fnb = n.fnb := hf2.trans (hf1.trans hf0)
  split at g2
  · simp at g2
  · simp only [Step.next.injEq] at g2
    rw [← g2, ← hf]
    exact ⟨rfl, rfl, rfl, rfl, rfl, rfl, rfl⟩

theorem initLogger_next (env : Env U O S) (n m : Node U O S) (h : initLogger env n = .next m) :
    m.fnb = { n.fnb with Logger := (env.ParseLevel (ToLower n.fnb.BaseConfig.level)).1 } := by
  unfold initLogger at h
  obtain ⟨n2, hf2, -, -, g2⟩ := must_next h
  simp only [Step.next.injEq] at g2
  rw [← g2]
  show ({ n2.fnb with Logger := _ } : FlowNodeBuilder U O) = _
  rw [hf2]
  rfl

/-- The logger that initLogger configures has the level parsed from the flag. -/
theorem early_level (env : Env U O S) (n m : Node U O S)
    (h : (initNodeInfo env n).bind (initLogger env) = .next m) :
    m.fnb.Logger = (env.ParseLevel (ToLower n.fnb.BaseConfig.level)).1 := by
  obtain ⟨k, hk, hm⟩ := bind_next h
  rw [initLogger_next env k m hm, (initNodeInfo_next env n k hk).2.2.1]

/-- The invariant holds when Run has ended, with the level parsed from the flag
`--loglevel`. -/
theorem Run_good_at (env : Env U O S) (fnb : FlowNodeBuilder U O) (store : S) :
    ∃ j, Good fnb.doneObject fnb.bootstraps (fatalExits env fnb) j (Run env fnb store).term
      (Run env fnb store).node :=
  (Run_good_of env fnb store (fatalExits env fnb) (fun m hm => by
    simp only [Node.exits, early_level env _ m hm, fatalExits]
    rfl)).ended

/-! ## The signal channel -/

/-- On an empty channel to which no signal is delivered any more, no wait of the shutdown loop
is resolved by a signal. -/
theorem stopFrom_no_abort (env : Env U O S) :
    ∀ (i : Nat) (n : Node U O S), n.sig = 0 → (∀ k, n.waits ≤ k → (env.wait k).sigs = 0) →
      (stopFrom env i n).term ≠ some .abort ∧
      ∀ x, Event.doneWait x .sig ∈ (stopFrom env i n).node.trace →
        Event.doneWait x .sig ∈ n.trace
  | 0, n, _, _ => ⟨by simp [stopFrom, Step.term], fun x hx => hx⟩
  | i + 1, n, hs, hq => by
    simp only [stopFrom]
    cases n.fnb.doneObject[i]? with
    | none => exact ⟨by simp [Step.term], fun x hx => hx⟩
    | some d =>
      dsimp only
      have hw : (env.wait n.waits).sigs = 0 := hq _ (le_refl _)
      have hsel : selectWait n.sig (env.wait n.waits) =
          if (env.wait n.waits).fires then (.signal, 0) else (.timeout, 0) := by
        unfold selectWait notify
        rw [hs, hw]
        simp
      unfold handleDoneObject
      rw [hsel]
      cases (env.wait n.waits).fires with
      | false =>
        simp only [Bool.false_eq_true, if_false, Fatal]
        split
        · refine ⟨by simp [Step.bind, Step.term], fun x hx => ?_⟩
          simpa [Step.bind, Step.node, Node.emit, Node.log] using hx
        · simp only [Step.bind]
          obtain ⟨h1, h2⟩ := stopFrom_no_abort env i
            (({ n with sig := 0, waits := n.waits + 1 }.emit (.doneWait d .timeout)).log .fatal
              "component shutdown timed out") rfl (fun k hk => hq k (by
                have : n.waits + 1 ≤ k := hk
                omega))
          refine ⟨h1, fun x hx => ?_⟩
          simpa [Node.emit, Node.log] using h2 x hx
      | true =>
        simp only [if_true, Step.bind]
        obtain ⟨h1, h2⟩ := stopFrom_no_abort env i
          (({ n with sig := 0, waits := n.waits + 1 }.emit (.doneWait d .signal)).log .info
            "component shutdown complete") rfl (fun k hk => hq k (by
              have : n.waits + 1 ≤ k := hk
              omega))
        refine ⟨h1, fun x hx => ?_⟩
        simpa [Node.emit, Node.log] using h2 x hx

theorem runStop_no_abort (env : Env U O S) (n : Node U O S) (hs : n.sig = 0)
    (hq : ∀ k, n.waits ≤ k → (env.wait k).sigs = 0) :
    (runStop env n).term ≠ some .abort ∧
    ∀ x, Event.doneWait x .sig ∈ (runStop env n).node.trace →
      Event.doneWait x .sig ∈ n.trace := by
  obtain ⟨h1, h2⟩ := stopFrom_no_abort env n.fnb.doneObject.length n hs hq
  unfold runStop
  cases hr : stopFrom env n.fnb.doneObject.length n with
  | halt z m =>
    rw [hr] at h1 h2
    exact ⟨h1, h2⟩
  | next m =>
    rw [hr] at h2
    simp only [Step.node] at h2
    refine ⟨?_, fun x hx => h2 x ?_⟩
    · cases hc : env.Close m.store <;> simp [Step.bind, closeDatabase, hc, Step.term]
    · cases hc : env.Close m.store <;>
        simpa [Step.bind, closeDatabase, hc, Step.node, Node.emit, Node.log] using hx

/-- When no signal is delivered after the receive of the main loop, the shutdown is not
abandoned by a signal. -/
theorem runShutdown_no_abort (env : Env U O S) (n : Node U O S)
    (hq : ∀ k, n.waits < k → (env.wait k).sigs = 0) :
    (runShutdown env n).term ≠ some .abort ∧
    ∀ x, Event.doneWait x .sig ∈ (runShutdown env n).node.trace →
      Event.doneWait x .sig ∈ n.trace := by
  unfold runShutdown
  rcases mainWait_cases env
    (n.log .info (n.fnb.BaseConfig.nodeRole ++ " node startup complete")) with
    h | ⟨m, h, hs, hw, ht, -, -, -⟩
  · dsimp only
    rw [h]
    exact ⟨by simp [Step.bind, Step.term], fun x hx => by
      simpa [Step.bind, Step.node, Node.emit, Node.log] using hx⟩
  · dsimp only
    rw [h]
    simp only [Step.bind]
    obtain ⟨h1, h2⟩ := runStop_no_abort env
      (m.log .info (m.fnb.BaseConfig.nodeRole ++ " node shutting down")) hs
      (fun k hk => hq k (by
        have h3 : m.waits ≤ k := hk
        have h4 : m.waits = n.waits + 1 := hw
        omega))
    refine ⟨h1, fun x hx => ?_⟩
    have := h2 x hx
    have ht2 : m.trace = n.trace ++ [.mainWait true] := ht
    simpa [Node.log, ht2] using this

/-- C19 as stated fails: the main loop receives the one signal that was delivered; in the wait
on the done signal that follows no further signal is delivered and the done signal does not
fire, and that wait is resolved by the timer, not by the signal. -/
theorem signal_not_level_triggered :
    (Run (exampleEnv signalThenQuiet) twoFnb 1).node.trace =
      resumeInits ++ twoStarted ++
        [.doneWait { ob := 102, name := "mempools metrics" } .timeout] ∧
    Event.mainWait true ∈ (Run (exampleEnv signalThenQuiet) twoFnb 1).node.trace ∧
    (Run (exampleEnv signalThenQuiet) twoFnb 1).term =
      some (.fatal "component shutdown timed out") ∧
    ∀ x, Event.doneWait x .sig ∉ (Run (exampleEnv signalThenQuiet) twoFnb 1).node.trace := by
  have ht : (Run (exampleEnv signalThenQuiet) twoFnb 1).node.trace =
      resumeInits ++ twoStarted ++
        [.doneWait { ob := 102, name := "mempools metrics" } .timeout] := by rfl
  refine ⟨ht, by decide, by rfl, fun x => ?_⟩
  rw [ht]
  simp [resumeInits, twoStarted]

/-- C19, amended. The channel fnb.sig is a queue of one slot. A select takes the case of the
signal only when a signal is in the channel or is delivered during the wait, and takes it out
of the channel; a select resolved by the component or by the timer leaves a delivered signal in
the channel for the next wait, and a signal that is in the channel when the component does not
fire is taken. The receive of the main loop returns only when a signal is there and leaves the
channel empty; so a wait on a done signal that starts on an empty channel with no delivery
during the wait is not resolved by the signal, and is resolved by the timer when the done
signal does not fire, which ends the process when the logger lets the fatal log event
through. In the main loop and the shutdown of Run, when no signal is delivered after the
receive of the main loop, no wait on a done signal is resolved by a signal and the process does
not end by the exit of an abandoned shutdown. -/
theorem signal_is_consumed (env : Env U O S) :
    (∀ buf w, (selectWait buf w).1 = .sig → 0 < buf + w.sigs ∧ (selectWait buf w).2 = 0) ∧
    (∀ buf w, (selectWait buf w).1 ≠ .sig → (selectWait buf w).2 = min 1 (buf + w.sigs)) ∧
    (∀ buf w, 0 < buf + w.sigs → w.fires = false → (selectWait buf w).1 = .sig) ∧
    (∀ n m : Node U O S, mainWait env n = .next m →
      0 < n.sig + (env.wait n.waits).sigs ∧ m.sig = 0 ∧ m.waits = n.waits + 1) ∧
    (∀ (v : namedDoneObject O) (n : Node U O S),
      (handleDoneObject env v n).node.trace =
        n.trace ++ [.doneWait v (selectWait n.sig (env.wait n.waits)).1] ∧
      (handleDoneObject env v n).node.sig = (selectWait n.sig (env.wait n.waits)).2 ∧
      (handleDoneObject env v n).node.waits = n.waits + 1) ∧
    (∀ (v : namedDoneObject O) (n : Node U O S), n.sig = 0 → (env.wait n.waits).sigs = 0 →
      (handleDoneObject env v n).term ≠ some .abort ∧
      ((env.wait n.waits).fires = false →
        (selectWait n.sig (env.wait n.waits)).1 = .timeout ∧
        (n.exits = true →
          (handleDoneObject env v n).term = some (.fatal "component shutdown timed out")))) ∧
    (∀ n : Node U O S, (∀ k, n.waits < k → (env.wait k).sigs = 0) →
      (runShutdown env n).term ≠ some .abort ∧
      ∀ x, Event.doneWait x .sig ∈ (runShutdown env n).node.trace →
        Event.doneWait x .sig ∈ n.trace) := by
  have hsel : ∀ buf w, (selectWait buf w).1 = .sig →
      0 < buf + w.sigs ∧ (selectWait buf w).2 = 0 := by
    intro buf w h
    unfold selectWait notify at h ⊢
    dsimp only at h ⊢
    split at h
    · rename_i hc
      rw [if_pos hc]
      refine ⟨by omega, ?_⟩
      show min 1 (buf + w.sigs) - 1 = 0
      omega
    · split at h <;> cases h
  refine ⟨hsel, ?_, ?_, ?_, ?_, ?_, fun n hq => runShutdown_no_abort env n hq⟩
  · intro buf w h
    unfold selectWait notify at h ⊢
    dsimp only at h ⊢
    split
    · rename_i hc
      rw [if_pos hc] at h
      exact absurd rfl h
    · split <;> rfl
  · intro buf w hb hf
    unfold selectWait notify
    dsimp only
    rw [if_pos ⟨by omega, Or.inl hf⟩]
  · intro n m h
    unfold mainWait notify at h
    dsimp only at h
    split at h
    · cases h
    · rename_i hc
      simp only [Step.next.injEq] at h
      rw [← h]
      refine ⟨by omega, ?_, rfl⟩
      show min 1 (n.sig + (env.wait n.waits).sigs) - 1 = 0
      omega
  · intro v n
    unfold handleDoneObject
    dsimp only
    cases (selectWait n.sig (env.wait n.waits)).1
    · exact ⟨by simp [Step.node, Node.emit, Node.log], rfl, rfl⟩
    · rw [Fatal_node]
      exact ⟨by simp [Node.emit, Node.log], rfl, rfl⟩
    · exact ⟨by simp [Step.node, Node.emit, Node.log], rfl, rfl⟩
  · intro v n hs hw
    have hne : (selectWait n.sig (env.wait n.waits)).1 ≠ .sig := by
      intro h
      have := (hsel _ _ h).1
      omega
    unfold handleDoneObject
    dsimp only
    cases hsw : (selectWait n.sig (env.wait n.waits)).1 with
    | signal =>
      refine ⟨by simp [Step.term], fun hf => ?_⟩
      unfold selectWait at hsw
      dsimp only at hsw
      rw [hf] at hsw
      split at hsw
      · cases hsw
      · simp at hsw
    | timeout =>
      dsimp only
      refine ⟨?_, fun _ => ⟨rfl, fun hx => ?_⟩⟩
      · unfold Fatal
        split <;> simp [Step.term]
      · have hx2 : n.fnb.Logger.enabled .fatal = true := hx
        simp [Fatal, Node.emit, hx2, Step.term]
    | sig => exact absurd hsw hne

/-- C19, amended, at the example: the receive of the main loop on the node that holds the one
delivered signal leaves the channel empty, and the wait that follows ends by the timer. -/
theorem signal_is_consumed_witness :
    (selectWait 1 wQuiet).1 = .sig ∧ (selectWait 1 wQuiet).2 = 0 ∧
    (selectWait 0 wQuiet).1 = .timeout ∧
    (0 < 1 + wQuiet.sigs ∧ (selectWait 1 wQuiet).2 = 0) ∧
    (handleDoneObject (exampleEnv signalThenQuiet) { ob := 102, name := "mempools metrics" }
      { fnb := twoFnb, store := 1, sig := 0, waits := 4 }).term =
      some (.fatal "component shutdown timed out") :=
  ⟨by rfl, by rfl, by rfl,
    (signal_is_consumed (exampleEnv signalThenQuiet)).1 1 wQuiet (by rfl),
    (((signal_is_consumed (exampleEnv signalThenQuiet)).2.2.2.2.2.1
      { ob := 102, name := "mempools metrics" }
      { fnb := twoFnb, store := 1, sig := 0, waits := 4 } rfl (by rfl)).2 (by rfl)).2 (by rfl)⟩

/-! ## The order of the phases -/

end

section
variable {U O S : Type}

/-! ## The walks of Run over the registered sequences -/

theorem hooksRun_eq_nil {t : List (Event U O)} (h : ∀ e ∈ t, e.phase ≠ 5) :
    hooksRun t = [] := by
  rw [hooksRun, List.filterMap_eq_nil_iff]
  intro e he
  have := h e he
  cases e <;> simp [Event.phase] at this ⊢

theorem modulesRun_eq_nil {t : List (Event U O)} (h : ∀ e ∈ t, e.phase ≠ 6) :
    modulesRun t = [] := by
  rw [modulesRun, List.filterMap_eq_nil_iff]
  intro e he
  have := h e he
  cases e <;> simp [Event.phase] at this ⊢

theorem hooksRun_map (fs : List U) : hooksRun (fs.map .postInit : List (Event U O)) = fs := by
  induction fs with
  | nil => rfl
  | cons f fs ih =>
    simp only [List.map_cons, hooksRun, List.filterMap_cons] at ih ⊢
    rw [ih]

theorem hooksRun_append (a b : List (Event U O)) :
    hooksRun (a ++ b) = hooksRun a ++ hooksRun b := by
  simp [hooksRun]

theorem modulesRun_append (a b : List (Event U O)) :
    modulesRun (a ++ b) = modulesRun a ++ modulesRun b := by
  simp [modulesRun]

theorem invoked_append (a b : List (Event U O)) : invoked (a ++ b) = invoked a ++ invoked b := by
  simp [invoked]

theorem invoked_eq_nil_of_ne {t : List (Event U O)} (h : ∀ e ∈ t, e.phase ≠ 7) :
    invoked t = [] := by
  rw [invoked, List.filterMap_eq_nil_iff]
  intro e he
  have := h e he
  cases e <;> simp [Event.phase] at this ⊢

theorem applyRegs_components_eq (rs : List (Registration U O)) :
    ∀ fnb : FlowNodeBuilder U O,
      (applyRegs fnb rs).components = fnb.components ++ componentsOf rs := by
  induction rs with
  | nil => intro fnb; simp [applyRegs, componentsOf]
  | cons r rs ih =>
    intro fnb
    simp only [applyRegs, List.foldl_cons] at ih ⊢
    rw [ih]
    cases r <;>
      simp [Registration.apply, FlowNodeBuilder.Module, FlowNodeBuilder.Component,
        FlowNodeBuilder.PostInit, componentsOf]

theorem applyRegs_BaseConfig (rs : List (Registration U O)) :
    ∀ fnb : FlowNodeBuilder U O, (applyRegs fnb rs).BaseConfig = fnb.BaseConfig := by
  induction rs with
  | nil => intro fnb; rfl
  | cons r rs ih =>
    intro fnb
    simp only [applyRegs, List.foldl_cons] at ih ⊢
    rw [ih]
    cases r <;> rfl

theorem initProfiler_next (env : Env U O S) (n m : Node U O S)
    (h : initProfiler env n = .next m) :
    ∃ prof, m.fnb.components = n.fnb.components ++ prof ∧
      m.fnb.doneObject = n.fnb.doneObject ∧ m.fnb.BaseConfig = n.fnb.BaseConfig ∧
      m.fnb.bootstraps = n.fnb.bootstraps ∧
      ((n.fnb.BaseConfig.profilerEnabled = false ∧ prof = []) ∨
        (n.fnb.BaseConfig.profilerEnabled = true ∧
          prof = [⟨.profiler (env.NewAutoProfiler n.fnb.BaseConfig).1, "profiler"⟩])) := by
  unfold initProfiler at h
  split at h
  · rename_i hp
    simp only [Step.next.injEq] at h
    subst h
    exact ⟨[], by simp, rfl, rfl, rfl, Or.inl ⟨hp, rfl⟩⟩
  · rename_i hp
    obtain ⟨k, hf, -, -, g⟩ := must_next h
    simp only [Step.next.injEq] at g
    subst g
    refine ⟨[{ fn := .profiler (env.NewAutoProfiler n.fnb.BaseConfig).1, name := "profiler" }],
      ?_, ?_, ?_, ?_, Or.inr ⟨by simpa using hp, rfl⟩⟩
    · show (k.fnb.Component "profiler" _).components = _
      rw [hf]; rfl
    · show (k.fnb.Component "profiler" _).doneObject = _
      rw [hf]; rfl
    · show (k.fnb.Component "profiler" _).BaseConfig = _
      rw [hf]; rfl
    · show (k.fnb.Component "profiler" _).bootstraps = _
      rw [hf]; rfl

theorem initDB_next (env : Env U O S) (n m : Node U O S) (h : initDB env n = .next m) :
    m.fnb = n.fnb := by
  unfold initDB at h
  obtain ⟨n1, h1, g1⟩ := bind_next h
  obtain ⟨hf1, -⟩ := mustNil_next h1
  obtain ⟨hf2, -⟩ := mustNil_next g1
  exact hf2.trans hf1

theorem initMetrics_next (env : Env U O S) (n m : Node U O S)
    (h : initMetrics env n = .next m) :
    m.fnb.components =
      n.fnb.components ++ [{ fn := .mempools env.NewMempoolCollector, name := "mempools metrics" }] ∧
    m.fnb.doneObject = n.fnb.doneObject ∧ m.fnb.BaseConfig = n.fnb.BaseConfig ∧
    m.fnb.bootstraps = n.fnb.bootstraps := by
  unfold initMetrics at h
  obtain ⟨k, hf, -, -, g⟩ := must_next h
  simp only [Step.next.injEq] at g
  subst g
  refine ⟨?_, ?_, ?_, ?_⟩
  · show (({ k.fnb with Tracer := _ } : FlowNodeBuilder U O).Component _ _).components = _
    rw [hf]; rfl
  · show (({ k.fnb with Tracer := _ } : FlowNodeBuilder U O).Component _ _).doneObject = _
    rw [hf]; rfl
  · show (({ k.fnb with Tracer := _ } : FlowNodeBuilder U O).Component _ _).BaseConfig = _
    rw [hf]; rfl
  · show (({ k.fnb with Tracer := _ } : FlowNodeBuilder U O).Component _ _).bootstraps = _
    rw [hf]; rfl

theorem initStorage_next (env : Env U O S) (n m : Node U O S)
    (h : initStorage env n = .next m) : m.fnb = n.fnb := by
  unfold initStorage at h
  obtain ⟨hf, -⟩ := mustNil_next h
  exact hf

/-- A completed initState leaves the registered sequences and the stack of started objects as
they were. -/
theorem initState_frame (env : Env U O S) (n m : Node U O S) (h : initState env n = .next m) :
    m.fnb.components = n.fnb.components ∧ m.fnb.doneObject = n.fnb.doneObject ∧
      m.fnb.bootstraps = n.fnb.bootstraps := by
  unfold initState at h
  obtain ⟨n1, h1, g1⟩ := bind_next h
  obtain ⟨hf1, -⟩ := mustNil_next h1
  obtain ⟨n2, h2, g2⟩ := bind_next g1
  obtain ⟨me, hme, -⟩ := initStateIdentity_next env n2 m g2
  have hb : n2.fnb.components = n1.fnb.components ∧ n2.fnb.doneObject = n1.fnb.doneObject ∧
      n2.fnb.bootstraps = n1.fnb.bootstraps := by
    unfold initStateBranch at h2
    split at h2
    · obtain ⟨rb, -, hf⟩ := initStateBootstrap_next env _ _ h2
      rw [hf]
      exact ⟨rfl, rfl, rfl⟩
    · rw [(Fatal_next h2).1]
      exact ⟨rfl, rfl, rfl⟩
    · obtain ⟨rb, -, -, hf⟩ := initStateResume_next env _ _ h2
      rw [hf]
      exact ⟨rfl, rfl, rfl⟩
  rw [hme, ← hf1]
  exact hb

/-- What the base inits and initState, once completed, did to the registered components: the
profiler was added if it is enabled, then the mempools metrics. -/
theorem runInits_next (env : Env U O S) (n m : Node U O S) (h : runInits env n = .next m) :
    ∃ prof, m.fnb.components = n.fnb.components ++ prof ++
        [{ fn := .mempools env.NewMempoolCollector, name := "mempools metrics" }] ∧
      m.fnb.doneObject = n.fnb.doneObject ∧ m.fnb.bootstraps = n.fnb.bootstraps ∧
      ((n.fnb.BaseConfig.profilerEnabled = false ∧ prof = []) ∨
        (n.fnb.BaseConfig.profilerEnabled = true ∧
          prof = [⟨.profiler (env.NewAutoProfiler n.fnb.BaseConfig).1, "profiler"⟩])) := by
  unfold runInits at h
  obtain ⟨n1, h1, g1⟩ := bind_next h
  obtain ⟨n2, h2, g2⟩ := bind_next g1
  obtain ⟨n3, h3, g3⟩ := bind_next g2
  obtain ⟨n4, h4, g4⟩ := bind_next g3
  obtain ⟨n5, h5, g5⟩ := bind_next g4
  obtain ⟨n6, h6, g6⟩ := bind_next g5
  obtain ⟨a1, a2, a3, -, a5, -, -⟩ := initNodeInfo_next env _ _ h1
  have b1 := initLogger_next env _ _ h2
  obtain ⟨prof, c1, c2, c3, c5, c4⟩ := initProfiler_next env _ _ h3
  have d1 := initDB_next env _ _ h4
  obtain ⟨e1, e2, e3, e5⟩ := initMetrics_next env _ _ h5
  have f1 := initStorage_next env _ _ h6
  obtain ⟨s1, s2, s3⟩ := initState_frame env _ _ g6
  have hcfg : n2.fnb.BaseConfig = n.fnb.BaseConfig := by rw [b1]; exact a3
  rw [hcfg] at c4
  refine ⟨prof, ?_, ?_, ?_, c4⟩
  · rw [s1, f1, e1, d1, c1, b1]
    show n1.fnb.components ++ prof ++ _ = _
    rw [a1]
  · rw [s2, f1, e2, d1, c2, b1]
    exact a2
  · rw [s3, f1, e5, d1, c5, b1]
    exact a5

theorem handlePostInit_components (env : Env U O S) (f : U) (n : Node U O S) :
    (handlePostInit env f n).node.fnb.components =
      n.fnb.components ++ componentsOf (env.postInitFn f n.fnb n.store).regs ∧
    (handlePostInit env f n).node.fnb.doneObject = n.fnb.doneObject :=
  ⟨applyRegs_components_eq _ _, applyRegs_doneObject _ _⟩

theorem handleModule_components (env : Env U O S) (v : namedModuleFunc U) (n : Node U O S) :
    (handleModule env v n).node.fnb.components =
      n.fnb.components ++ componentsOf (env.moduleFn v.fn n.fnb n.store).1.regs ∧
    (handleModule env v n).node.fnb.doneObject = n.fnb.doneObject ∧
    (handleModule env v n).node.trace =
      n.trace ++ [.moduleFn v (env.moduleFn v.fn n.fnb n.store).2] := by
  unfold handleModule
  generalize hr : env.moduleFn v.fn n.fnb n.store = r
  obtain ⟨eff, err⟩ := r
  cases err with
  | none => exact ⟨applyRegs_components_eq _ _, applyRegs_doneObject _ _, rfl⟩
  | some e =>
    dsimp only
    rw [Fatal_node]
    exact ⟨applyRegs_components_eq _ _, applyRegs_doneObject _ _, rfl⟩

theorem callComponent_components (env : Env U O S) (u : U) (n : Node U O S) :
    (callComponent env (.user u) n).1.fnb.components =
      n.fnb.components ++ componentsOf (env.componentFn u n.fnb n.store).1.regs :=
  applyRegs_components_eq _ _

/-- The loop over the post-init hooks runs every hook of the list it was entered with, in
order, and always returns. -/
theorem postLoop_next (env : Env U O S) :
    ∀ (fs : List U) (n : Node U O S), ∃ m, forEach (handlePostInit env) fs n = .next m ∧
      m.trace = n.trace ++ fs.map .postInit
  | [], n => ⟨n, rfl, by simp⟩
  | f :: fs, n => by
    obtain ⟨m, hm, ht⟩ := postLoop_next env fs
      ((n.effect (env.postInitFn f n.fnb n.store)).emit (.postInit f))
    refine ⟨m, ?_, ?_⟩
    · simp only [forEach, handlePostInit, Step.bind]
      exact hm
    · rw [ht]
      simp [Node.emit, Node.effect]

/-- The loop over the post-init hooks appends what the hooks register to the components and
starts nothing. -/
theorem postLoop_components (env : Env U O S) :
    ∀ (fs : List U) (n m : Node U O S), forEach (handlePostInit env) fs n = .next m →
      n.fnb.components <+: m.fnb.components ∧ m.fnb.doneObject = n.fnb.doneObject ∧
      ((∀ u b s, componentsOf (env.postInitFn u b s).regs = []) →
        m.fnb.components = n.fnb.components)
  | [], n, m, h => by
    simp only [forEach, Step.next.injEq] at h
    subst h
    exact ⟨List.prefix_refl _, rfl, fun _ => rfl⟩
  | f :: fs, n, m, h => by
    simp only [forEach] at h
    obtain ⟨k, hk, g⟩ := bind_next h
    obtain ⟨a1, a2, a3⟩ := postLoop_components env fs k m g
    have hc := handlePostInit_components env f n
    rw [hk] at hc
    simp only [Step.node] at hc
    refine ⟨?_, a2.trans hc.2, fun hq => ?_⟩
    · exact List.IsPrefix.trans (by rw [hc.1]; exact List.prefix_append _ _) a1
    · rw [a3 hq, hc.1, hq, List.append_nil]

/-- The loop over the modules appends what the modules register to the components and starts
nothing. -/
theorem modLoop_components (env : Env U O S) :
    ∀ (ms : List (namedModuleFunc U)) (n m : Node U O S),
      forEach (handleModule env) ms n = .next m →
      n.fnb.components <+: m.fnb.components ∧ m.fnb.doneObject = n.fnb.doneObject ∧
      ((∀ u b s, componentsOf (env.moduleFn u b s).1.regs = []) →
        m.fnb.components = n.fnb.components)
  | [], n, m, h => by
    simp only [forEach, Step.next.injEq] at h
    subst h
    exact ⟨List.prefix_refl _, rfl, fun _ => rfl⟩
  | v :: ms, n, m, h => by
    simp only [forEach] at h
    obtain ⟨k, hk, g⟩ := bind_next h
    obtain ⟨a1, a2, a3⟩ := modLoop_components env ms k m g
    have hc := handleModule_components env v n
    rw [hk] at hc
    simp only [Step.node] at hc
    refine ⟨?_, a2.trans hc.2.1, fun hq => ?_⟩
    · exact List.IsPrefix.trans (by rw [hc.1]; exact List.prefix_append _ _) a1
    · rw [a3 hq, hc.1, hq, List.append_nil]

/-- The loop over the modules runs the init functions of the list it was entered with, in
order: an initial part of the list, all of it when the loop returns. -/
theorem modLoop_shape (env : Env U O S) :
    ∀ (ms : List (namedModuleFunc U)) (n : Node U O S),
      ∃ d, (forEach (handleModule env) ms n).node.trace = n.trace ++ d ∧
        (∀ e ∈ d, e.phase = 6) ∧ modulesRun d <+: ms ∧
        ((forEach (handleModule env) ms n).term = none → modulesRun d = ms)
  | [], n => ⟨[], by simp [forEach, Step.node], by simp, by simp [modulesRun],
      fun _ => by simp [modulesRun]⟩
  | v :: ms, n => by
    obtain ⟨-, -, ht1⟩ := handleModule_components env v n
    simp only [forEach]
    cases hk : handleModule env v n with
    | halt z m =>
      rw [hk] at ht1
      exact ⟨[.moduleFn v (env.moduleFn v.fn n.fnb n.store).2], ht1, by simp [Event.phase],
        by simp [modulesRun], fun h => by simp [Step.bind, Step.term] at h⟩
    | next m =>
      rw [hk] at ht1
      simp only [Step.node] at ht1
      obtain ⟨d, ht, hp, hm, hn⟩ := modLoop_shape env ms m
      refine ⟨.moduleFn v (env.moduleFn v.fn n.fnb n.store).2 :: d, ?_, ?_, ?_, ?_⟩
      · simp only [Step.bind]
        rw [ht, ht1]
        simp
      · intro e he
        rcases List.mem_cons.1 he with rfl | he
        · rfl
        · exact hp e he
      · simpa [modulesRun] using hm
      · intro hnone
        simpa [modulesRun] using hn hnone

theorem Fatal_cases (msg : String) (n : Node U O S) :
    Fatal msg n = .next (n.log .fatal msg) ∨
      Fatal msg n = .halt (.fatal msg) (n.log .fatal msg) := by
  unfold Fatal
  split
  · exact Or.inr rfl
  · exact Or.inl rfl

/-- The select of handleComponent emits the wait and leaves the builder as it is. -/
theorem awaitReady_cases (env : Env U O S) (name : String) (o : O) (n : Node U O S) :
    ∃ sel q, q.trace = n.trace ++ [.readyWait { ob := o, name := name } sel] ∧ q.fnb = n.fnb ∧
      (awaitReady env name o n = .next q ∨ ∃ z, awaitReady env name o n = .halt z q) := by
  unfold awaitReady
  generalize selectWait n.sig (env.wait n.waits) = w
  obtain ⟨sel, buf⟩ := w
  dsimp only
  cases sel with
  | signal =>
    exact ⟨.signal, ({ n with sig := buf, waits := n.waits + 1 }.emit
      (.readyWait { ob := o, name := name } .signal)).log .info "component startup complete",
      rfl, rfl, Or.inl rfl⟩
  | timeout =>
    rcases Fatal_cases "component startup timed out"
      ({ n with sig := buf, waits := n.waits + 1 }.emit
        (.readyWait { ob := o, name := name } .timeout)) with h | h
    · exact ⟨.timeout, ({ n with sig := buf, waits := n.waits + 1 }.emit
        (.readyWait { ob := o, name := name } .timeout)).log .fatal
        "component startup timed out", rfl, rfl, Or.inl h⟩
    · exact ⟨.timeout, ({ n with sig := buf, waits := n.waits + 1 }.emit
        (.readyWait { ob := o, name := name } .timeout)).log .fatal
        "component startup timed out", rfl, rfl, Or.inr ⟨_, h⟩⟩
  | sig =>
    exact ⟨.sig, ({ n with sig := buf, waits := n.waits + 1 }.emit
      (.readyWait { ob := o, name := name } .sig)).log .warn "component startup aborted",
      rfl, rfl, Or.inr ⟨_, rfl⟩⟩

/-- Starting one component: its factory is invoked, whatever comes of it; the object it
returns is pushed on the stack of started objects, under the name of the component, exactly
when the step returns; and the list of components only grows at its end. -/
theorem handleComponent_started (env : Env U O S) (v : namedComponentFunc U O) (n : Node U O S) :
    (∃ d, (handleComponent env v n).node.trace = n.trace ++ d ∧ (∀ e ∈ d, e.phase = 7) ∧
      invoked d = [v]) ∧
    n.fnb.components <+: (handleComponent env v n).node.fnb.components ∧
    ((∃ z, (handleComponent env v n).term = some z) →
      (handleComponent env v n).node.fnb.doneObject = n.fnb.doneObject) ∧
    ((handleComponent env v n).term = none →
      ∃ o err, Event.componentFn v (some o) err ∈ (handleComponent env v n).node.trace ∧
        (handleComponent env v n).node.fnb.doneObject =
          n.fnb.doneObject ++ [{ ob := o, name := v.name }]) := by
  obtain ⟨hct, hcd, hcc, -, -⟩ := callComponent_frame env v.fn n
  simp only [handleComponent]
  generalize callComponent env v.fn n = c at hct hcd hcc
  obtain ⟨m, ob, err⟩ := c
  dsimp only at hct hcd hcc ⊢
  have key : ∀ (r : Step (Node U O S)) (k : Node U O S),
      (r = .next k ∨ ∃ z, r = .halt z k) →
      k.trace = n.trace ++ [.componentFn v ob err] → k.fnb = m.fnb →
      (∃ d, (r.bind fun n2 => match ob with
          | none => .halt .panic n2
          | some readyAware => (awaitReady env v.name readyAware n2).bind fun n3 =>
            .next { n3 with fnb := { n3.fnb with
              doneObject := n3.fnb.doneObject ++ [namedDoneObject.mk readyAware v.name] } }).node.trace =
          n.trace ++ d ∧ (∀ e ∈ d, e.phase = 7) ∧ invoked d = [v]) ∧
      n.fnb.components <+: (r.bind fun n2 => match ob with
          | none => .halt .panic n2
          | some readyAware => (awaitReady env v.name readyAware n2).bind fun n3 =>
            .next { n3 with fnb := { n3.fnb with
              doneObject := n3.fnb.doneObject ++ [namedDoneObject.mk readyAware v.name] } }).node.fnb.components ∧
      ((∃ z, (r.bind fun n2 => match ob with
          | none => .halt .panic n2
          | some readyAware => (awaitReady env v.name readyAware n2).bind fun n3 =>
            .next { n3 with fnb := { n3.fnb with
              doneObject := n3.fnb.doneObject ++ [namedDoneObject.mk readyAware v.name] } }).term = some z) →
        (r.bind fun n2 => match ob with
          | none => .halt .panic n2
          | some readyAware => (awaitReady env v.name readyAware n2).bind fun n3 =>
            .next { n3 with fnb := { n3.fnb with
              doneObject := n3.fnb.doneObject ++ [namedDoneObject.mk readyAware v.name] } }).node.fnb.doneObject =
          n.fnb.doneObject) ∧
      ((r.bind fun n2 => match ob with
          | none => .halt .panic n2
          | some readyAware => (awaitReady env v.name readyAware n2).bind fun n3 =>
            .next { n3 with fnb := { n3.fnb with
              doneObject := n3.fnb.doneObject ++ [namedDoneObject.mk readyAware v.name] } }).term = none →
        ∃ o e2, Event.componentFn v (some o) e2 ∈ (r.bind fun n2 => match ob with
          | none => .halt .panic n2
          | some readyAware => (awaitReady env v.name readyAware n2).bind fun n3 =>
            .next { n3 with fnb := { n3.fnb with
              doneObject := n3.fnb.doneObject ++ [namedDoneObject.mk readyAware v.name] } }).node.trace ∧
          (r.bind fun n2 => match ob with
          | none => .halt .panic n2
          | some readyAware => (awaitReady env v.name readyAware n2).bind fun n3 =>
            .next { n3 with fnb := { n3.fnb with
              doneObject := n3.fnb.doneObject ++ [namedDoneObject.mk readyAware v.name] } }).node.fnb.doneObject =
            n.fnb.doneObject ++ [{ ob := o, name := v.name }]) := by
    intro r k hr hkt hkf
    rcases hr with rfl | ⟨z, rfl⟩
    · simp only [Step.bind]
      cases ob with
      | none =>
        exact ⟨⟨[.componentFn v none err], hkt, by simp [Event.phase], by simp [invoked]⟩,
          by simpa [Step.node, hkf] using hcc,
          fun _ => by simp [Step.node, hkf, hcd], fun h => by simp [Step.term] at h⟩
      | some o =>
        dsimp only
        obtain ⟨sel, q, hqt, hqf, hq⟩ := awaitReady_cases env v.name o k
        have htr : q.trace = n.trace ++
            [.componentFn v (some o) err, .readyWait { ob := o, name := v.name } sel] := by
          rw [hqt, hkt]; simp
        rcases hq with hq | ⟨z, hq⟩
        · rw [hq]
          refine ⟨⟨_, htr, by simp [Event.phase], by simp [invoked]⟩, ?_,
            fun ⟨z, hz⟩ => by simp [Step.bind, Step.term] at hz, fun _ => ⟨o, err, ?_, ?_⟩⟩
          · simpa [Step.bind, Step.node, hqf, hkf] using hcc
          · simp [Step.bind, Step.node, htr]
          · simp [Step.bind, Step.node, hqf, hkf, hcd]
        · rw [hq]
          refine ⟨⟨_, htr, by simp [Event.phase], by simp [invoked]⟩, ?_,
            fun _ => ?_, fun h => by simp [Step.bind, Step.term] at h⟩
          · simpa [Step.bind, Step.node, hqf, hkf] using hcc
          · simp [Step.bind, Step.node, hqf, hkf, hcd]
    · exact ⟨⟨[.componentFn v ob err], hkt, by simp [Event.phase], by simp [invoked]⟩,
        by simpa [Step.bind, Step.node, hkf] using hcc,
        fun _ => by simp [Step.bind, Step.node, hkf, hcd],
        fun h => by simp [Step.bind, Step.term] at h⟩
  cases err with
  | some e =>
    dsimp only
    rcases Fatal_cases "component initialization failed"
      (m.emit (.componentFn v ob (some e))) with h | h
    · rw [h]
      exact key (.next
        ((m.emit (.componentFn v ob (some e))).log .fatal "component initialization failed")) _
        (Or.inl rfl) (by simp only [Node.emit, Node.log, hct]) rfl
    · rw [h]
      exact key (.halt (.fatal "component initialization failed")
        ((m.emit (.componentFn v ob (some e))).log .fatal "component initialization failed")) _
        (Or.inr ⟨_, rfl⟩) (by simp only [Node.emit, Node.log, hct]) rfl
  | none =>
    exact key (.next
      ((m.emit (.componentFn v ob none)).log .info "component initialization complete")) _
      (Or.inl rfl) (by simp only [Node.emit, Node.log, hct]) rfl

/-- The loop over the components walks the list it was entered with: the factories invoked
are an initial part `p` of that list, all of it when the loop returns, whatever was registered
meanwhile; and the objects pushed on the stack of started objects are, one for one and in
order, objects returned by the factories of an initial part of `p`, under the names of their
components. -/
theorem compLoop_walk (env : Env U O S) :
    ∀ (cs : List (namedComponentFunc U O)) (n : Node U O S),
      ∃ p objs q d, p <+: cs ∧ q <+: p ∧
        (forEach (handleComponent env) cs n).node.trace = n.trace ++ d ∧
        (∀ e ∈ d, e.phase = 7) ∧ invoked d = p ∧
        n.fnb.components <+: (forEach (handleComponent env) cs n).node.fnb.components ∧
        (forEach (handleComponent env) cs n).node.fnb.doneObject = n.fnb.doneObject ++ objs ∧
        List.Forall₂ (fun (x : namedDoneObject O) v => x.name = v.name ∧
          ∃ err, Event.componentFn v (some x.ob) err ∈
            (forEach (handleComponent env) cs n).node.trace) objs q ∧
        ((forEach (handleComponent env) cs n).term = none → p = cs ∧ q = cs)
  | [], n => ⟨[], [], [], [], List.prefix_refl _, List.prefix_refl _,
      by simp [forEach, Step.node], by simp, by simp [invoked], List.prefix_refl _,
      by simp [forEach, Step.node], List.Forall₂.nil, fun _ => ⟨rfl, rfl⟩⟩
  | v :: cs, n => by
    obtain ⟨⟨d1, ht1, hp1, hi1⟩, hc, hd1, hd2⟩ := handleComponent_started env v n
    simp only [forEach]
    cases hk : handleComponent env v n with
    | halt z m =>
      rw [hk] at ht1 hc hd1
      simp only [Step.node, Step.term] at ht1 hc hd1
      exact ⟨[v], [], [], d1, by simp, List.nil_prefix, by simpa [Step.bind, Step.node] using ht1,
        hp1, hi1, by simpa [Step.bind, Step.node] using hc,
        by simpa [Step.bind, Step.node] using hd1 ⟨z, rfl⟩, List.Forall₂.nil,
        fun h => by simp [Step.bind, Step.term] at h⟩
    | next m =>
      rw [hk] at ht1 hc hd2
      simp only [Step.node, Step.term] at ht1 hc hd2
      obtain ⟨o, err, ho, hdo⟩ := hd2 trivial
      obtain ⟨p, objs, q, d2, hp, hq, ht2, hp2, hi2, hcomp, hdone, hall, hfull⟩ :=
        compLoop_walk env cs m
      simp only [Step.bind]
      refine ⟨v :: p, { ob := o, name := v.name } :: objs, v :: q, d1 ++ d2, ?_, ?_, ?_, ?_, ?_,
        hc.trans hcomp, ?_, ?_, fun h => ?_⟩
      · exact (List.prefix_cons_inj v).2 hp
      · exact (List.prefix_cons_inj v).2 hq
      · rw [ht2, ht1, List.append_assoc]
      · intro e he
        rcases List.mem_append.1 he with he | he
        · exact hp1 e he
        · exact hp2 e he
      · rw [invoked_append, hi1, hi2]; rfl
      · rw [hdone, hdo]; simp
      · refine List.Forall₂.cons ⟨rfl, err, ?_⟩ hall
        rw [ht2]
        exact List.mem_append_left _ ho
      · obtain ⟨e1, e2⟩ := hfull h
        rw [e1, e2]
        exact ⟨rfl, rfl⟩

/-- The main loop and the shutdown add interactions of the stages from 8 on and leave the
builder as it is. -/
theorem runShutdown_phase (env : Env U O S) (n : Node U O S) :
    (runShutdown env n).node.fnb = n.fnb ∧
    ∃ shut, (runShutdown env n).node.trace = n.trace ++ shut ∧ ∀ e ∈ shut, 8 ≤ e.phase := by
  obtain ⟨hf, shut, ht, hs⟩ := runShutdown_shape env n
  refine ⟨hf, shut, ht, ?_⟩
  rcases hs with ⟨rfl, -⟩ | ⟨ws, x, w, rfl, hw, -, -⟩ | ⟨ws, err, rfl, hw, -, -, -, -⟩
  · simp [Event.phase]
  · intro e he
    simp only [List.cons_append, List.mem_cons, List.mem_append, List.mem_singleton,
      List.not_mem_nil, or_false] at he
    rcases he with rfl | he | rfl
    · simp [Event.phase]
    · rw [hw.phase e he]; omega
    · simp [Event.phase]
  · intro e he
    simp only [List.cons_append, List.mem_cons, List.mem_append, List.mem_singleton,
      List.not_mem_nil, or_false] at he
    rcases he with rfl | he | rfl
    · simp [Event.phase]
    · rw [hw.phase e he]; omega
    · simp [Event.phase]

theorem Run_unfold (env : Env U O S) (fnb : FlowNodeBuilder U O) (store : S) :
    Run env fnb store =
      (runInits env (startNode env fnb store)).bind fun n =>
      (forEach (handlePostInit env) n.fnb.postInitFns n).bind fun n =>
      (forEach (handleModule env) n.fnb.modules n).bind fun n =>
      (forEach (handleComponent env) n.fnb.components n).bind (runShutdown env) := by
  rw [Run_eq]
  simp only [runStartup, Step.bind_assoc]

/-- Run from the node at which the walk over the components begins. -/
theorem Run_from_walk (env : Env U O S) (fnb : FlowNodeBuilder U O) (store : S)
    (n1 n2 n3 : Node U O S)
    (h1 : runInits env (startNode env fnb store) = .next n1)
    (h2 : forEach (handlePostInit env) n1.fnb.postInitFns n1 = .next n2)
    (h3 : forEach (handleModule env) n2.fnb.modules n2 = .next n3) :
    Run env fnb store =
      (forEach (handleComponent env) n3.fnb.components n3).bind (runShutdown env) ∧
    (∀ e ∈ n3.trace, e.phase ≤ 6) ∧ hooksRun n3.trace = n1.fnb.postInitFns ∧
    modulesRun n3.trace = n2.fnb.modules ∧ (∀ e ∈ n1.trace, e.phase ≤ 4) ∧
    n1.trace <+: n3.trace := by
  have hq1 := (runInits_within env (startNode env fnb store)).1
  rw [h1] at hq1
  obtain ⟨d1, ht1, hp1⟩ := hq1
  have hnil : (startNode env fnb store).trace = [] := rfl
  simp only [Step.node, hnil, List.nil_append] at ht1
  obtain ⟨m2, hm2, ht2⟩ := postLoop_next env n1.fnb.postInitFns n1
  rw [h2] at hm2
  cases hm2
  obtain ⟨d3, ht3, hp3, -, hr3⟩ := modLoop_shape env n2.fnb.modules n2
  rw [h3] at ht3 hr3
  simp only [Step.node, Step.term] at ht3 hr3
  have hd1h : hooksRun d1 = [] := hooksRun_eq_nil fun e he => by
    have := hp1 e he; omega
  have hd1m : modulesRun d1 = [] := modulesRun_eq_nil fun e he => by
    have := hp1 e he; omega
  have hd3h : hooksRun d3 = [] := hooksRun_eq_nil fun e he => by
    rw [hp3 e he]; omega
  have hpm : modulesRun (n1.fnb.postInitFns.map .postInit : List (Event U O)) = [] :=
    modulesRun_eq_nil fun e he => by
      obtain ⟨f, -, rfl⟩ := List.mem_map.1 he
      simp [Event.phase]
  refine ⟨?_, fun e he => ?_, ?_, ?_, ?_, ?_⟩
  · rw [Run_unfold, h1]
    simp only [Step.bind]
    rw [h2]
    simp only [Step.bind]
    rw [h3]
  · rw [ht3, ht2, ht1] at he
    simp only [List.mem_append, List.mem_map] at he
    rcases he with (he | ⟨f, -, rfl⟩) | he
    · have := hp1 e he; omega
    · simp [Event.phase]
    · rw [hp3 e he]
  · rw [ht3, ht2, ht1, hooksRun_append, hooksRun_append, hd1h, hd3h, hooksRun_map]
    simp
  · rw [ht3, ht2, ht1, modulesRun_append, modulesRun_append, hd1m, hpm, hr3 trivial]
    simp
  · rw [ht1]; exact hp1
  · rw [ht3, ht2, List.append_assoc]
    exact List.prefix_append _ _

/-- The walks of Run over the registered components, seen from the node at which the walk
over the components begins. -/
theorem Run_walk (env : Env U O S) (fnb : FlowNodeBuilder U O) (store : S)
    (n1 n2 n3 : Node U O S)
    (h1 : runInits env (startNode env fnb store) = .next n1)
    (h2 : forEach (handlePostInit env) n1.fnb.postInitFns n1 = .next n2)
    (h3 : forEach (handleModule env) n2.fnb.modules n2 = .next n3) :
    ∃ objs q, q <+: invoked (Run env fnb store).node.trace ∧
      invoked (Run env fnb store).node.trace <+: n3.fnb.components ∧
      n3.fnb.components <+: (Run env fnb store).node.fnb.components ∧
      (Run env fnb store).node.fnb.doneObject = n3.fnb.doneObject ++ objs ∧
      List.Forall₂ (fun (x : namedDoneObject O) v => x.name = v.name ∧
        ∃ err, Event.componentFn v (some x.ob) err ∈ (Run env fnb store).node.trace) objs q ∧
      ((∃ e ∈ (Run env fnb store).node.trace, 8 ≤ e.phase) →
        invoked (Run env fnb store).node.trace = n3.fnb.components ∧ q = n3.fnb.components) ∧
      hooksRun (Run env fnb store).node.trace = n1.fnb.postInitFns ∧
      modulesRun (Run env fnb store).node.trace = n2.fnb.modules ∧
      n3.trace <+: (Run env fnb store).node.trace := by
  obtain ⟨hrun, hph, hhooks, hmods, -, -⟩ := Run_from_walk env fnb store n1 n2 n3 h1 h2 h3
  have hinv3 : invoked n3.trace = [] := invoked_eq_nil hph
  obtain ⟨p, objs, q, dc, hp, hq, htc, hpc, hinv, hcomp, hdone, hall, hfull⟩ :=
    compLoop_walk env n3.fnb.components n3
  rw [hrun]
  cases hL : forEach (handleComponent env) n3.fnb.components n3 with
  | halt z m =>
    rw [hL] at hcomp hdone hall htc
    simp only [Step.node] at hcomp hdone hall htc
    simp only [Step.bind, Step.node]
    have hinvm : invoked m.trace = p := by rw [htc, invoked_append, hinv3, hinv]; rfl
    refine ⟨objs, q, by rw [hinvm]; exact hq, by rw [hinvm]; exact hp, hcomp, hdone, hall, ?_,
      ?_, ?_, by rw [htc]; exact List.prefix_append _ _⟩
    · rintro ⟨e, he, h8⟩
      rw [htc, List.mem_append] at he
      rcases he with he | he
      · have := hph e he; omega
      · have := hpc e he; omega
    · rw [htc, hooksRun_append, hhooks, hooksRun_eq_nil fun e he => by rw [hpc e he]; omega]
      simp
    · rw [htc, modulesRun_append, hmods,
        modulesRun_eq_nil fun e he => by rw [hpc e he]; omega]
      simp
  | next n4 =>
    rw [hL] at hcomp hdone hall htc hfull
    simp only [Step.node, Step.term] at hcomp hdone hall htc hfull
    obtain ⟨e1, e2⟩ := hfull trivial
    obtain ⟨hfnb, shut, hts, hsp⟩ := runShutdown_phase env n4
    simp only [Step.bind]
    have hinvr : invoked (runShutdown env n4).node.trace = p := by
      rw [hts, htc, invoked_append, invoked_append, hinv3, hinv,
        invoked_eq_nil_of_ne fun e he => by have := hsp e he; omega]
      simp
    rw [hinvr, hfnb]
    refine ⟨objs, q, hq, hp, hcomp, hdone, ?_, fun _ => ⟨e1, e2⟩, ?_, ?_, ?_⟩
    · refine hall.imp fun x v hxv => ⟨hxv.1, ?_⟩
      obtain ⟨err, herr⟩ := hxv.2
      exact ⟨err, by rw [hts]; exact List.mem_append_left _ herr⟩
    · rw [hts, htc, hooksRun_append, hooksRun_append, hhooks,
        hooksRun_eq_nil fun e he => by rw [hpc e he]; omega,
        hooksRun_eq_nil fun e he => by have := hsp e he; omega]
      simp
    · rw [hts, htc, modulesRun_append, modulesRun_append, hmods,
        modulesRun_eq_nil fun e he => by rw [hpc e he]; omega,
        modulesRun_eq_nil fun e he => by have := hsp e he; omega]
      simp
    · rw [hts, htc, List.append_assoc]
      exact List.prefix_append _ _

/-- A run in which an interaction of the component walk or a later one took place went
through the base inits, initState and the loops over the hooks and the modules. -/
theorem Run_reached_walk (env : Env U O S) (fnb : FlowNodeBuilder U O) (store : S)
    (h : ∃ e ∈ (Run env fnb store).node.trace, 7 ≤ e.phase) :
    ∃ n1 n2 n3, runInits env (startNode env fnb store) = .next n1 ∧
      forEach (handlePostInit env) n1.fnb.postInitFns n1 = .next n2 ∧
      forEach (handleModule env) n2.fnb.modules n2 = .next n3 := by
  obtain ⟨e, he, h7⟩ := h
  have hrun := Run_unfold env fnb store
  have hq1 := (runInits_within env (startNode env fnb store)).1
  have hnil : (startNode env fnb store).trace = [] := rfl
  cases h1 : runInits env (startNode env fnb store) with
  | halt z m =>
    rw [h1] at hq1 hrun
    obtain ⟨d1, ht1, hp1⟩ := hq1
    simp only [Step.node, hnil, List.nil_append] at ht1
    rw [hrun] at he
    simp only [Step.bind, Step.node] at he
    rw [ht1] at he
    have := hp1 e he
    omega
  | next n1 =>
    rw [h1] at hq1 hrun
    obtain ⟨d1, ht1, hp1⟩ := hq1
    simp only [Step.node, hnil, List.nil_append] at ht1
    obtain ⟨n2, h2, ht2⟩ := postLoop_next env n1.fnb.postInitFns n1
    simp only [Step.bind] at hrun
    rw [h2] at hrun
    simp only [Step.bind] at hrun
    obtain ⟨d3, ht3, hp3, -⟩ := modLoop_shape env n2.fnb.modules n2
    cases h3 : forEach (handleModule env) n2.fnb.modules n2 with
    | next n3 => exact ⟨n1, n2, n3, rfl, h2, h3⟩
    | halt z m =>
      rw [h3] at hrun ht3
      simp only [Step.node] at ht3
      rw [hrun] at he
      simp only [Step.bind, Step.node] at he
      rw [ht3, ht2, ht1] at he
      simp only [List.mem_append, List.mem_map] at he
      rcases he with (he | ⟨f, -, rfl⟩) | he
      · have := hp1 e he; omega
      · simp [Event.phase] at h7
      · have := hp3 e he; omega

theorem forall₂_names {objs : List (namedDoneObject O)} {q : List (namedComponentFunc U O)}
    {P : namedDoneObject O → namedComponentFunc U O → Prop}
    (h : List.Forall₂ (fun d v => d.name = v.name ∧ P d v) objs q) :
    objs.map (fun d => d.name) = q.map (fun v => v.name) := by
  induction h with
  | nil => rfl
  | cons hd _ ih => simp [hd.1, ih]

theorem doneAwaited_names_reverse (env : Env U O S) (fnb : FlowNodeBuilder U O) (store : S)
    (hexit : (Run env fnb store).term = some .exit0) :
    doneAwaited (Run env fnb store).node.trace =
      (Run env fnb store).node.fnb.doneObject.reverse := by
  obtain ⟨x, j, hg⟩ := Run_good env fnb store
  exact hg.fin (hg.exit hexit)

/-- C24: take a builder made by FlowNode on which the caller made any registration calls
before Run, and let no post-init hook and no module init function register a component while
Run is under way. When the startup succeeds, so that Run reaches its main loop, the component
factories invoked are, in this order: network, metrics server, tracer, the components of the
caller in the order they were registered, the profiler if and only if the profiler is enabled
in the parsed configuration, and mempools metrics. When the shutdown succeeds too and the
process exits with status 0, the done signals were awaited in the reverse of that order. -/
theorem Run_flowNode_component_order (env : Env U O S) (role datadir : String)
    (rs : List (Registration U O)) (store : S)
    (hq : ∀ u b s, componentsOf (env.postInitFn u b s).regs = [] ∧
      componentsOf (env.moduleFn u b s).1.regs = [])
    (hmain : ∃ got, Event.mainWait got ∈
      (Run env (applyRegs (FlowNode role datadir) rs) store).node.trace) :
    (∃ prof, invoked (Run env (applyRegs (FlowNode role datadir) rs) store).node.trace =
        [{ fn := .network, name := "network" }, { fn := .metricsServer, name := "metrics server" },
          { fn := .tracer, name := "tracer" }] ++ componentsOf rs ++ prof ++
          [{ fn := .mempools env.NewMempoolCollector, name := "mempools metrics" }] ∧
      prof.map (fun v => v.name) =
        if (env.Parse (FlowNode role datadir : FlowNodeBuilder U O).BaseConfig).profilerEnabled
        then ["profiler"] else []) ∧
    ((Run env (applyRegs (FlowNode role datadir) rs) store).term = some .exit0 →
      (doneAwaited (Run env (applyRegs (FlowNode role datadir) rs) store).node.trace).map
          (fun d => d.name) =
        ((invoked (Run env (applyRegs (FlowNode role datadir) rs) store).node.trace).map
          (fun v => v.name)).reverse) := by
  obtain ⟨got, hgot⟩ := hmain
  obtain ⟨n1, n2, n3, h1, h2, h3⟩ := Run_reached_walk env _ store
    ⟨_, hgot, by simp [Event.phase]⟩
  obtain ⟨objs, q, -, -, -, hdone, hall, hfull, -⟩ := Run_walk env _ store n1 n2 n3 h1 h2 h3
  obtain ⟨hinv, hqe⟩ := hfull ⟨_, hgot, by simp [Event.phase]⟩
  obtain ⟨prof, hc1, hd1, -, hprof⟩ := runInits_next env _ _ h1
  obtain ⟨-, hd2, hc2⟩ := postLoop_components env _ _ _ h2
  obtain ⟨-, hd3, hc3⟩ := modLoop_components env _ _ _ h3
  have hc0 : (startNode env (applyRegs (FlowNode role datadir) rs) store).fnb.components =
      [{ fn := .network, name := "network" }, { fn := .metricsServer, name := "metrics server" },
        { fn := .tracer, name := "tracer" }] ++ componentsOf rs :=
    applyRegs_components_eq rs (FlowNode role datadir)
  have hd0 : (startNode env (applyRegs (FlowNode role datadir) rs) store).fnb.doneObject = [] :=
    applyRegs_doneObject rs (FlowNode role datadir)
  have hb0 : (startNode env (applyRegs (FlowNode role datadir) rs) store).fnb.BaseConfig =
      env.Parse (FlowNode role datadir : FlowNodeBuilder U O).BaseConfig :=
    congrArg env.Parse (applyRegs_BaseConfig rs (FlowNode role datadir))
  have hcomps : n3.fnb.components =
      [{ fn := .network, name := "network" }, { fn := .metricsServer, name := "metrics server" },
        { fn := .tracer, name := "tracer" }] ++ componentsOf rs ++ prof ++
        [{ fn := .mempools env.NewMempoolCollector, name := "mempools metrics" }] := by
    rw [hc3 fun u b s => (hq u b s).2, hc2 fun u b s => (hq u b s).1, hc1, hc0]
  refine ⟨⟨prof, by rw [hinv, hcomps], ?_⟩, fun hexit => ?_⟩
  · rw [hb0] at hprof
    rcases hprof with ⟨hp, rfl⟩ | ⟨hp, rfl⟩
    · simp [hp]
    · simp [hp]
  · rw [doneAwaited_names_reverse env _ store hexit, hdone, hd3, hd2, hd1, hd0,
      List.nil_append, List.map_reverse, forall₂_names hall, hqe, hinv]

/-- C24 at an example: with the profiler enabled on the command line and the components `a`
and `b` of the caller, seven components start, the profiler between `b` and the mempools
metrics, and they are stopped in the reverse order. -/
theorem Run_flowNode_component_order_witness :
    (invoked (Run profiledEnv flowFnb 0).node.trace).map (fun v => v.name) =
      ["network", "metrics server", "tracer", "a", "b", "profiler", "mempools metrics"] ∧
    (Run profiledEnv flowFnb 0).term = some .exit0 ∧
    ((Run profiledEnv flowFnb 0).term = some .exit0 →
      (doneAwaited (Run profiledEnv flowFnb 0).node.trace).map (fun d => d.name) =
        ((invoked (Run profiledEnv flowFnb 0).node.trace).map (fun v => v.name)).reverse) :=
  ⟨by rfl, by rfl,
    (Run_flowNode_component_order profiledEnv "consensus" "/data"
      [.Component "a" (.user 1), .Module "m" 5, .Component "b" (.user 2)] 0
      (fun _ _ _ => ⟨rfl, rfl⟩) ⟨true, by decide⟩).2⟩

/-- The hooks and the modules that ran, seen from the nodes at which their walks began, also
when the walk over the modules ends the process. -/
theorem Run_hooks_modules (env : Env U O S) (fnb : FlowNodeBuilder U O) (store : S)
    (n1 n2 : Node U O S)
    (h1 : runInits env (startNode env fnb store) = .next n1)
    (h2 : forEach (handlePostInit env) n1.fnb.postInitFns n1 = .next n2) :
    hooksRun (Run env fnb store).node.trace = n1.fnb.postInitFns ∧
    modulesRun (Run env fnb store).node.trace <+: n2.fnb.modules := by
  cases h3 : forEach (handleModule env) n2.fnb.modules n2 with
  | next n3 =>
    obtain ⟨objs, q, -, -, -, -, -, -, hhooks, hmods, -⟩ :=
      Run_walk env fnb store n1 n2 n3 h1 h2 h3
    exact ⟨hhooks, by rw [hmods]⟩
  | halt z m =>
    have hrun : Run env fnb store = .halt z m := by
      rw [Run_unfold, h1]
      simp only [Step.bind]
      rw [h2]
      simp only [Step.bind]
      rw [h3]
    have hq1 := (runInits_within env (startNode env fnb store)).1
    rw [h1] at hq1
    obtain ⟨d1, ht1, hp1⟩ := hq1
    have hnil : (startNode env fnb store).trace = [] := rfl
    simp only [Step.node, hnil, List.nil_append] at ht1
    obtain ⟨m2, hm2, ht2⟩ := postLoop_next env n1.fnb.postInitFns n1
    rw [h2] at hm2
    cases hm2
    obtain ⟨d3, ht3, hp3, hr3, -⟩ := modLoop_shape env n2.fnb.modules n2
    rw [h3] at ht3
    simp only [Step.node] at ht3
    rw [hrun]
    simp only [Step.node]
    rw [ht3, ht2, ht1]
    constructor
    · rw [hooksRun_append, hooksRun_append, hooksRun_map,
        hooksRun_eq_nil fun e he => by have := hp1 e he; omega,
        hooksRun_eq_nil fun e he => by rw [hp3 e he]; omega]
      simp
    · rw [modulesRun_append, modulesRun_append,
        modulesRun_eq_nil fun e he => by have := hp1 e he; omega,
        modulesRun_eq_nil fun e he => by
          obtain ⟨f, -, rfl⟩ := List.mem_map.1 he
          simp [Event.phase]]
      simpa using hr3

/-- C25: Run walks each registered sequence as it stood when the walk of that sequence
began. With `n1` and `n2` the nodes at which the walks over the hooks and over the modules
begin: the hooks that ran are the hooks registered at `n1`, the modules that ran are an
initial part of the modules registered at `n2`, and what a post-init hook, a module init
function or a component factory registers is appended to the components, after everything
registered earlier. With `n3` the node at which the walk over the components begins, every
module registered at `n2` ran, the components registered at `n1` and by the hooks and the
modules are in the list of `n3`, in that order, and the factories invoked are an initial part
of that list, all of it once the main loop is reached, though the list of components may
have grown during the walk: a component registered by a factory during the walk is not
started. The objects on the stack of started objects, beyond those the builder came with,
were returned, one for one and in order, by factories that were invoked, and only the done
signals of objects on that stack are awaited. -/
theorem Run_walks_snapshots (env : Env U O S) (fnb : FlowNodeBuilder U O) (store : S)
    (n1 n2 : Node U O S)
    (h1 : runInits env (startNode env fnb store) = .next n1)
    (h2 : forEach (handlePostInit env) n1.fnb.postInitFns n1 = .next n2) :
    (hooksRun (Run env fnb store).node.trace = n1.fnb.postInitFns ∧
      modulesRun (Run env fnb store).node.trace <+: n2.fnb.modules ∧
      n1.fnb.components <+: n2.fnb.components) ∧
    (∀ n3, forEach (handleModule env) n2.fnb.modules n2 = .next n3 →
      (invoked (Run env fnb store).node.trace <+: n3.fnb.components ∧
        n3.fnb.components <+: (Run env fnb store).node.fnb.components ∧
        ((∃ e ∈ (Run env fnb store).node.trace, 8 ≤ e.phase) →
          invoked (Run env fnb store).node.trace = n3.fnb.components)) ∧
      (modulesRun (Run env fnb store).node.trace = n2.fnb.modules ∧
        n2.fnb.components <+: n3.fnb.components) ∧
      ∃ objs q, q <+: invoked (Run env fnb store).node.trace ∧
        (Run env fnb store).node.fnb.doneObject = fnb.doneObject ++ objs ∧
        List.Forall₂ (fun (d : namedDoneObject O) v => d.name = v.name ∧
          ∃ err, Event.componentFn v (some d.ob) err ∈ (Run env fnb store).node.trace) objs q ∧
        doneAwaited (Run env fnb store).node.trace <+: (fnb.doneObject ++ objs).reverse) ∧
    (∀ f n, (handlePostInit env f n).node.fnb.components =
      n.fnb.components ++ componentsOf (env.postInitFn f n.fnb n.store).regs) ∧
    (∀ v n, (handleModule env v n).node.fnb.components =
      n.fnb.components ++ componentsOf (env.moduleFn v.fn n.fnb n.store).1.regs) ∧
    (∀ u n, (callComponent env (.user u) n).1.fnb.components =
      n.fnb.components ++ componentsOf (env.componentFn u n.fnb n.store).1.regs) := by
  obtain ⟨hhooks, hmodsp⟩ := Run_hooks_modules env fnb store n1 n2 h1 h2
  obtain ⟨prof, -, hd1, -, -⟩ := runInits_next env _ _ h1
  obtain ⟨hc2, hd2, -⟩ := postLoop_components env _ _ _ h2
  refine ⟨⟨hhooks, hmodsp, hc2⟩, fun n3 h3 => ?_,
    fun f n => (handlePostInit_components env f n).1,
    fun v n => (handleModule_components env v n).1, callComponent_components env⟩
  obtain ⟨objs, q, hq, hinv, hcomp, hdone, hall, hfull, -, hmods, -⟩ :=
    Run_walk env fnb store n1 n2 n3 h1 h2 h3
  obtain ⟨hc3, hd3, -⟩ := modLoop_components env _ _ _ h3
  obtain ⟨x, j, hg⟩ := Run_good env fnb store
  have hd0 : n3.fnb.doneObject = fnb.doneObject := by
    rw [hd3, hd2, hd1]
    rfl
  rw [hd0] at hdone
  refine ⟨⟨hinv, hcomp, fun h => (hfull h).1⟩, ⟨hmods, hc3⟩, objs, q, hq, hdone, hall, ?_⟩
  rw [← hdone]
  exact hg.stop

/-- C25 at an example: the hook registers `late` and the module `mcomp`, which are started
after `a` and the mempools metrics; the factory of `a` registers `nested`, which is in the
list of components when Run ends and was never started. -/
theorem Run_walks_snapshots_witness :
    (Run nestingEnv nestFnb 0).node.fnb.components.map (fun v => v.name) =
      ["a", "mempools metrics", "late", "mcomp", "nested"] ∧
    (invoked (Run nestingEnv nestFnb 0).node.trace).map (fun v => v.name) =
      ["a", "mempools metrics", "late", "mcomp"] ∧
    (doneAwaited (Run nestingEnv nestFnb 0).node.trace).map (fun d => d.name) =
      ["mcomp", "late", "mempools metrics", "a"] ∧
    (Run nestingEnv nestFnb 0).term = some .exit0 ∧
    invoked (Run nestingEnv nestFnb 0).node.trace <+:
      (forEach (handleModule nestingEnv)
        (forEach (handlePostInit nestingEnv)
          (runInits nestingEnv (startNode nestingEnv nestFnb 0)).node.fnb.postInitFns
          (runInits nestingEnv (startNode nestingEnv nestFnb 0)).node).node.fnb.modules
        (forEach (handlePostInit nestingEnv)
          (runInits nestingEnv (startNode nestingEnv nestFnb 0)).node.fnb.postInitFns
          (runInits nestingEnv (startNode nestingEnv nestFnb 0)).node).node).node.fnb.components :=
  ⟨by rfl, by rfl, by rfl, by rfl,
    ((Run_walks_snapshots nestingEnv nestFnb 0 _ _
      (Step.eq_next_of_term (by rfl)) (Step.eq_next_of_term (by rfl))).2.1 _
      (Step.eq_next_of_term (by rfl))).1.1⟩

end

section
variable {U O S : Type}

/-! ## The bootstrap functions -/

end

/-! ## Runs in which a fatal log event does not exit

The flag `--loglevel panic` makes initLogger configure a logger whose level is above `fatal`:
the event that `fnb.Logger.Fatal()` returns is then disabled and its `Msg` returns to the
caller. The runs below are evaluated on builders made by FlowNode. -/

section
variable {U O S : Type}

theorem pushed_true (t : List (Event U O)) : pushed true t = readied t := by
  unfold pushed readied
  congr 1
  funext e
  cases e with
  | readyWait d r => cases r <;> rfl
  | _ => rfl

/-- At a level at which a fatal log event exits, which is every level up to `fatal`, a failure
ends the run where it occurs: nothing follows an
interaction that failed, the process exits the way the interaction says, and the stack of
started objects holds the objects whose ready signal fired, in that order. -/
theorem Run_failure_is_last (env : Env U O S) (fnb : FlowNodeBuilder U O) (store : S)
    (hx : fatalExits env fnb = true) :
    (∀ pre e post t, (Run env fnb store).node.trace = pre ++ e :: post →
      e.term true = some t → post = [] ∧ (Run env fnb store).term = some t) ∧
    (Run env fnb store).node.fnb.doneObject =
      fnb.doneObject ++ readied (Run env fnb store).node.trace := by
  obtain ⟨j, h⟩ := Run_good_at env fnb store
  rw [hx] at h
  exact ⟨fun pre e post t ht he => h.last ht he, by rw [← pushed_true]; exact h.done⟩

end

/-- C1 fails in the code: under the flag `--loglevel panic` the ready signal of the component
`a` does not fire before the timer runs out; the fatal log event is filtered and the factory
of the next component, `b`, is invoked right after the wait that the timer resolved. -/
theorem Run_next_factory_after_timeout :
    ((atLevelPanic (exampleEnv slowStart)).Parse flowTwoFnb.BaseConfig).level = "panic" ∧
    (Run (atLevelPanic (exampleEnv slowStart)) flowTwoFnb 1).node.trace =
      resumeInits ++ flowStarted ++
        [.componentFn { fn := .user 1, name := "a" } (some 1) none,
          .readyWait { ob := 1, name := "a" } .timeout,
          .componentFn { fn := .user 2, name := "b" } (some 2) none,
          .readyWait { ob := 2, name := "b" } .signal] ++ flowRunning ++ flowStopped ∧
    (Level.fatal, "component startup timed out") ∈
      (Run (atLevelPanic (exampleEnv slowStart)) flowTwoFnb 1).node.logs :=
  ⟨by rfl, by rfl, by decide⟩

/-- C2 fails in the code: under the flag `--loglevel panic` the object of the component `a`,
whose readiness wait was resolved by the timer, is on the stack of started objects when the
startup is over, between the tracer and `b`, and its done signal is awaited in the
shutdown. -/
theorem Run_pushes_timed_out_component :
    Event.readyWait { ob := 1, name := "a" } .timeout ∈
      (Run (atLevelPanic (exampleEnv slowStart)) flowTwoFnb 1).node.trace ∧
    (Run (atLevelPanic (exampleEnv slowStart)) flowTwoFnb 1).node.fnb.doneObject =
      [{ ob := 104, name := "network" }, { ob := 103, name := "metrics server" },
        { ob := 101, name := "tracer" }, { ob := 1, name := "a" }, { ob := 2, name := "b" },
        { ob := 102, name := "mempools metrics" }] ∧
    readied (Run (atLevelPanic (exampleEnv slowStart)) flowTwoFnb 1).node.trace =
      [{ ob := 104, name := "network" }, { ob := 103, name := "metrics server" },
        { ob := 101, name := "tracer" }, { ob := 2, name := "b" },
        { ob := 102, name := "mempools metrics" }] ∧
    doneAwaited (Run (atLevelPanic (exampleEnv slowStart)) flowTwoFnb 1).node.trace =
      [{ ob := 102, name := "mempools metrics" }, { ob := 2, name := "b" },
        { ob := 1, name := "a" }, { ob := 101, name := "tracer" },
        { ob := 103, name := "metrics server" }, { ob := 104, name := "network" }] :=
  ⟨by decide, by rfl, by rfl, by rfl⟩

/-- C6 fails in the code: under the flag `--loglevel panic` the public halves of the configured
network key and staking key both differ from the keys of the identity in protocol state; both
fatal log events are filtered, initState completes, every component is started, and after a
signal the process shuts down and exits with status 0. -/
theorem Run_key_mismatch_goes_on :
    flowMismatchEnv.PublicKey 7 ≠ 7 ∧ flowMismatchEnv.PublicKey 8 ≠ 8 ∧
    (Run (atLevelPanic flowMismatchEnv) flowTwoFnb 1).node.trace =
      [.call .nodeID true, .call .loadPrivateNodeInfo true, .call .ParseLevel true,
        .call .MkdirAll true, .call .badgerOpen true, .call .NewTracer true,
        .call .InitMax true, .call .NewState true, .headQuery none,
        .call (.loadRootBlock .resume) true, .call (.loadRootQC .resume) true,
        .call (.loadDKGPublicData .resume) true, .call .myID true, .call .Identity true,
        .call .networkKeyEquals false, .call .stakingKeyEquals false, .call .localNew true] ++
        flowStarted ++
        [.componentFn { fn := .user 1, name := "a" } (some 1) none,
          .readyWait { ob := 1, name := "a" } .signal,
          .componentFn { fn := .user 2, name := "b" } (some 2) none,
          .readyWait { ob := 2, name := "b" } .signal] ++ flowRunning ++ flowStopped ∧
    (Run (atLevelPanic flowMismatchEnv) flowTwoFnb 1).term = some .exit0 ∧
    (Run (atLevelPanic flowMismatchEnv) flowTwoFnb 1).term.bind Termination.code = some 0 :=
  ⟨by decide, by decide, by rfl, by rfl, by rfl⟩

/-- C7 fails in the code: under the flag `--loglevel panic` the readiness wait of the
component `a` is resolved by the timer; the process does not end there: the factory of `b` is
invoked afterwards, the object of `a` is on the stack of started objects, and after a signal
the process shuts down and exits with status 0. -/
theorem Run_ready_timeout_goes_on :
    ∃ pre post,
      (Run (atLevelPanic (exampleEnv slowStart)) flowTwoFnb 1).node.trace =
        pre ++ .readyWait { ob := 1, name := "a" } .timeout :: post ∧
      .componentFn { fn := .user 2, name := "b" } (some 2) none ∈ post ∧
      { ob := 1, name := "a" } ∈
        (Run (atLevelPanic (exampleEnv slowStart)) flowTwoFnb 1).node.fnb.doneObject ∧
      (Run (atLevelPanic (exampleEnv slowStart)) flowTwoFnb 1).term = some .exit0 :=
  ⟨resumeInits ++ flowStarted ++ [.componentFn { fn := .user 1, name := "a" } (some 1) none],
    [.componentFn { fn := .user 2, name := "b" } (some 2) none,
      .readyWait { ob := 2, name := "b" } .signal] ++ flowRunning ++ flowStopped,
    by rfl, by decide, by decide, by rfl⟩

/-- C9 fails in the code: under the flag `--loglevel panic` the factory of the component `b`
returns an error together with an object; the fatal log event is filtered, the readiness of
that object is awaited, the factory of the mempools metrics is invoked afterwards, and in the
shutdown the done signal of every started object is awaited, that of `b` included. -/
theorem Run_factory_error_goes_on :
    (Run (atLevelPanic flowFailingEnv) flowTwoFnb 1).node.trace =
      resumeInits ++ flowStarted ++
        [.componentFn { fn := .user 1, name := "a" } (some 1) none,
          .readyWait { ob := 1, name := "a" } .signal,
          .componentFn { fn := .user 2, name := "b" } (some 2) (some "no such engine"),
          .readyWait { ob := 2, name := "b" } .signal] ++ flowRunning ++ flowStopped ∧
    (Run (atLevelPanic flowFailingEnv) flowTwoFnb 1).term = some .exit0 ∧
    (Level.fatal, "component initialization failed") ∈
      (Run (atLevelPanic flowFailingEnv) flowTwoFnb 1).node.logs :=
  ⟨by rfl, by rfl, by decide⟩

/-- C15 fails in the code: under the flag `--loglevel panic`, on a store with a finalized
head, the root quorum certificate in the bootstrap directory cannot be parsed; the load fails,
the fatal log event is filtered, initState completes on the resume path, every component is
started and the process waits in its main loop. -/
theorem Run_load_failure_goes_on :
    (loadRootQC (atLevelPanic qcFailEnv) "bootstrap").2 = some "unexpected end of JSON input" ∧
    (Run (atLevelPanic qcFailEnv) flowTwoFnb 1).node.trace =
      [.call .nodeID true, .call .loadPrivateNodeInfo true, .call .ParseLevel true,
        .call .MkdirAll true, .call .badgerOpen true, .call .NewTracer true,
        .call .InitMax true, .call .NewState true, .headQuery none,
        .call (.loadRootBlock .resume) true, .call (.loadRootQC .resume) false,
        .call (.loadDKGPublicData .resume) true, .call .myID true, .call .Identity true,
        .call .networkKeyEquals true, .call .stakingKeyEquals true, .call .localNew true] ++
        flowStarted ++
        [.componentFn { fn := .user 1, name := "a" } (some 1) none,
          .readyWait { ob := 1, name := "a" } .signal,
          .componentFn { fn := .user 2, name := "b" } (some 2) none,
          .readyWait { ob := 2, name := "b" } .signal,
          .componentFn { fn := .mempools 102, name := "mempools metrics" } (some 102) none,
          .readyWait { ob := 102, name := "mempools metrics" } .signal,
          .mainWait false] ∧
    (Run (atLevelPanic qcFailEnv) flowTwoFnb 1).term = some .blocked ∧
    (Level.fatal, "could not load root QC") ∈
      (Run (atLevelPanic qcFailEnv) flowTwoFnb 1).node.logs :=
  ⟨by rfl, by rfl, by rfl, by decide⟩

/-- C18 fails in the code: under the flag `--loglevel panic` the init function of the module
`m2` returns an error; the fatal log event is filtered, the init function of the module `m3`
runs afterwards, every component is started and the process waits in its main loop. -/
theorem Run_module_error_goes_on :
    (Run (atLevelPanic moduleFailEnv) flowStagedFnb 1).node.trace =
      resumeInits ++
        [.postInit 9, .moduleFn { fn := 1, name := "m1" } none,
          .moduleFn { fn := 2, name := "m2" } (some "no key"),
          .moduleFn { fn := 3, name := "m3" } none] ++ flowStarted ++
        [.componentFn { fn := .user 1, name := "a" } (some 1) none,
          .readyWait { ob := 1, name := "a" } .signal,
          .componentFn { fn := .mempools 102, name := "mempools metrics" } (some 102) none,
          .readyWait { ob := 102, name := "mempools metrics" } .signal,
          .mainWait false] ∧
    (Run (atLevelPanic moduleFailEnv) flowStagedFnb 1).term = some .blocked ∧
    (Level.fatal, "module initialization failed") ∈
      (Run (atLevelPanic moduleFailEnv) flowStagedFnb 1).node.logs :=
  ⟨by rfl, by rfl, by decide⟩

/-- C26 fails in the code: under the flag `--loglevel panic`, on the empty store, the four
root artifacts load and the genesis commit goes through, and then the public DKG data cannot
be parsed; the fatal log event is filtered and the failure does not end the process: initState
completes, every component is started and the process waits in its main loop. -/
theorem Run_dkg_failure_goes_on :
    (Run (atLevelPanic dkgFailEnv) flowTwoFnb 0).node.trace =
      genesisInits ++
        [.call (.loadDKGPublicData .bootstrap) false, .call .myID true, .call .Identity true,
          .call .networkKeyEquals true, .call .stakingKeyEquals true, .call .localNew true] ++
        flowStarted ++
        [.componentFn { fn := .user 1, name := "a" } (some 1) none,
          .readyWait { ob := 1, name := "a" } .signal,
          .componentFn { fn := .user 2, name := "b" } (some 2) none,
          .readyWait { ob := 2, name := "b" } .signal,
          .componentFn { fn := .mempools 102, name := "mempools metrics" } (some 102) none,
          .readyWait { ob := 102, name := "mempools metrics" } .signal,
          .mainWait false] ∧
    (Run (atLevelPanic dkgFailEnv) flowTwoFnb 0).term = some .blocked ∧
    (Run (atLevelPanic dkgFailEnv) flowTwoFnb 0).node.store = 1 ∧
    (Level.fatal, "could not load public DKG data") ∈
      (Run (atLevelPanic dkgFailEnv) flowTwoFnb 0).node.logs :=
  ⟨by rfl, by rfl, by rfl, by decide⟩

end cmd

namespace common

theorem mask_ofNat (k : Nat) : mask (k : Int) = 2 ^ (7 - k % 8) := by
  unfold mask
  have h : (7 - (k : Int).tmod 8).toNat = 7 - k % 8 := by
    have : (k : Int).tmod 8 = ((k % 8 : Nat) : Int) := (Int.ofNat_tmod k 8).symm
    rw [this]
    omega
  rw [h, Nat.one_shiftLeft]
  apply Nat.mod_eq_of_lt
  calc 2 ^ (7 - k % 8) ≤ 2 ^ 7 := Nat.pow_le_pow_right (by norm_num) (by omega)
    _ < 256 := by norm_num

theorem index_ofNat (b : List Nat) (k : Nat) : index b ((k : Int).tdiv 8) = b[k / 8]? := by
  unfold index
  have : (k : Int).tdiv 8 = ((k / 8 : Nat) : Int) := (Int.ofNat_tdiv k 8).symm
  rw [this, if_neg (by omega), Int.toNat_ofNat]

theorem and_mask_ne_zero (x w : Nat) : (x &&& 2 ^ w != 0) = x.testBit w := by
  rw [Nat.and_two_pow]
  cases x.testBit w <;> simp

/-- IsBitSet at an index in range reads the bit of weight 2^(7 - k mod 8) of byte k/8. -/
theorem IsBitSet_ofNat (b : List Nat) (k : Nat) (hk : k < 8 * b.length) :
    ∃ x, b[k / 8]? = some x ∧
      IsBitSet b (k : Int) = .ret (decide (x / 2 ^ (7 - k % 8) % 2 = 1), none) := by
  have hlt : k / 8 < b.length := by omega
  refine ⟨b[k / 8], List.getElem?_eq_getElem hlt, ?_⟩
  unfold IsBitSet
  have hge : ¬ ((k : Int) ≥ (b.length : Int) * 8) := by omega
  rw [if_neg hge, index_ofNat, List.getElem?_eq_getElem hlt, mask_ofNat]
  simp only [and_mask_ne_zero, Nat.testBit_to_div_mod]

theorem SetBit_ofNat (b : List Nat) (k : Nat) (hk : k < 8 * b.length) :
    ∃ x, b[k / 8]? = some x ∧
      SetBit b (k : Int) = .ret (b.set (k / 8) ((x ||| 2 ^ (7 - k % 8)) % 256), none) := by
  have hlt : k / 8 < b.length := by omega
  refine ⟨b[k / 8], List.getElem?_eq_getElem hlt, ?_⟩
  unfold SetBit
  have hge : ¬ ((k : Int) ≥ (b.length : Int) * 8) := by omega
  rw [if_neg hge, index_ofNat, List.getElem?_eq_getElem hlt, mask_ofNat]
  have h8 : (k : Int).tdiv 8 = ((k / 8 : Nat) : Int) := (Int.ofNat_tdiv k 8).symm
  rw [h8, Int.toNat_ofNat]

theorem lor_pow_lt (x w : Nat) (hx : x < 256) (hw : w ≤ 7) : x ||| 2 ^ w < 256 := by
  have h2 : (2 : Nat) ^ w < 2 ^ 8 := Nat.pow_lt_pow_right (by norm_num) (by omega)
  exact Nat.or_lt_two_pow (n := 8) hx h2

/-- Setting a bit that is clear adds its weight; setting a bit that is set changes nothing. -/
theorem lor_pow_eq (x w : Nat) :
    x ||| 2 ^ w = if x / 2 ^ w % 2 = 1 then x else x + 2 ^ w := by
  apply Nat.eq_of_testBit_eq
  intro i
  rw [Nat.testBit_or, Nat.testBit_two_pow]
  by_cases hb : x / 2 ^ w % 2 = 1
  · rw [if_pos hb]
    by_cases hi : w = i
    · subst hi
      simp [Nat.testBit_to_div_mod, hb]
    · simp [hi]
  · rw [if_neg hb]
    have hb0 : x / 2 ^ w % 2 = 0 := by omega
    by_cases hi : w = i
    · subst hi
      rw [Nat.add_comm, Nat.testBit_two_pow_add_eq]
      simp [Nat.testBit_to_div_mod, hb]
    · simp only [hi, decide_False, Bool.or_false]
      rcases Nat.lt_or_gt_of_ne hi with hlt | hgt
      · -- w < i
        have hr : x % 2 ^ (w + 1) < 2 ^ w := by
          rw [Nat.mod_pow_succ, hb0]
          simpa using Nat.mod_lt x (Nat.two_pow_pos w)
        have hx : x = 2 ^ (w + 1) * (x / 2 ^ (w + 1)) + x % 2 ^ (w + 1) :=
          (Nat.div_add_mod x _).symm
        have hr2 : x % 2 ^ (w + 1) + 2 ^ w < 2 ^ (w + 1) := by
          have h2 : 2 ^ (w + 1) = 2 * 2 ^ w := by ring
          omega
        have e1 : x.testBit i = (x / 2 ^ (w + 1)).testBit (i - (w + 1)) := by
          conv_lhs => rw [hx]
          rw [Nat.testBit_mul_pow_two_add _ (Nat.mod_lt x (Nat.two_pow_pos (w + 1)))]
          rw [if_neg (by omega)]
        have e2 : (x + 2 ^ w).testBit i = (x / 2 ^ (w + 1)).testBit (i - (w + 1)) := by
          have : x + 2 ^ w = 2 ^ (w + 1) * (x / 2 ^ (w + 1)) + (x % 2 ^ (w + 1) + 2 ^ w) := by
            omega
          rw [this, Nat.testBit_mul_pow_two_add _ hr2, if_neg (by omega)]
        rw [e1, e2]
      · rw [Nat.add_comm, Nat.testBit_two_pow_add_gt hgt]

/-- C20. For a byte slice `b` and an index `i` with `0 <= i < 8*len(b)`, SetBit returns no error
and changes byte `i/8` only, to which it adds the weight `2^(7 - i mod 8)` unless the byte
has that bit already; IsBitSet at `i` then returns true, and at every other index in range what
it returned before; IsBitSet at `j` reads the bit of weight `2^(7 - j mod 8)` of byte `j/8`. -/
theorem SetBit_IsBitSet (b : List Nat) (i : Int) (hb : ∀ x ∈ b, x < 256) (h0 : 0 ≤ i)
    (hi : i < 8 * (b.length : Int)) :
    ∃ b1 x, SetBit b i = .ret (b1, none) ∧
      b[(i / 8).toNat]? = some x ∧
      b1 = b.set (i / 8).toNat
        (if x / 2 ^ (7 - i % 8).toNat % 2 = 1 then x else x + 2 ^ (7 - i % 8).toNat) ∧
      (∀ y ∈ b1, y < 256) ∧
      IsBitSet b1 i = .ret (true, none) ∧
      (∀ j : Int, 0 ≤ j → j < 8 * (b.length : Int) → j ≠ i →
        IsBitSet b1 j = IsBitSet b j) ∧
      (∀ j : Int, 0 ≤ j → j < 8 * (b.length : Int) →
        ∃ y, b[(j / 8).toNat]? = some y ∧
          IsBitSet b j = .ret (decide (y / 2 ^ (7 - j % 8).toNat % 2 = 1), none)) := by
  obtain ⟨k, rfl⟩ := Int.eq_ofNat_of_zero_le h0
  have hk : k < 8 * b.length := by omega
  have hlt : k / 8 < b.length := by omega
  have e1 : ((k : Int) / 8).toNat = k / 8 := by omega
  have e2 : (7 - (k : Int) % 8).toNat = 7 - k % 8 := by omega
  obtain ⟨x, hx, hset⟩ := SetBit_ofNat b k hk
  have hx256 : x < 256 := hb x (List.getElem?_mem hx)
  have hnew : (x ||| 2 ^ (7 - k % 8)) % 256 = x ||| 2 ^ (7 - k % 8) :=
    Nat.mod_eq_of_lt (lor_pow_lt x _ hx256 (by omega))
  rw [hnew] at hset
  have hread : ∀ (l : List Nat) (j : Int), 0 ≤ j → j < 8 * (l.length : Int) →
      ∃ y, l[(j / 8).toNat]? = some y ∧
        IsBitSet l j = .ret (decide (y / 2 ^ (7 - j % 8).toNat % 2 = 1), none) := by
    intro l j hj0 hj
    obtain ⟨m, rfl⟩ := Int.eq_ofNat_of_zero_le hj0
    have f1 : ((m : Int) / 8).toNat = m / 8 := by omega
    have f2 : (7 - (m : Int) % 8).toNat = 7 - m % 8 := by omega
    rw [f1, f2]
    exact IsBitSet_ofNat l m (by omega)
  have hlen : (b.set (k / 8) (x ||| 2 ^ (7 - k % 8))).length = b.length := by simp
  refine ⟨_, x, hset, by rw [e1]; exact hx, by rw [e1, e2, lor_pow_eq], ?_, ?_, ?_, hread b⟩
  · intro y hy
    rcases List.mem_or_eq_of_mem_set hy with hy | rfl
    · exact hb y hy
    · exact lor_pow_lt x _ hx256 (by omega)
  · obtain ⟨y, hy, hr⟩ := hread (b.set (k / 8) (x ||| 2 ^ (7 - k % 8))) k h0
      (by rw [hlen]; exact hi)
    rw [hr, e1, List.getElem?_set_self hlt] at *
    cases hy
    rw [e2]
    have : (x ||| 2 ^ (7 - k % 8)).testBit (7 - k % 8) = true := by
      rw [Nat.testBit_or, Nat.testBit_two_pow_self, Bool.or_true]
    rw [Nat.testBit_to_div_mod] at this
    rw [this]
  · intro j hj0 hj hne
    obtain ⟨y1, hy1, hr1⟩ := hread (b.set (k / 8) (x ||| 2 ^ (7 - k % 8))) j hj0
      (by rw [hlen]; exact hj)
    obtain ⟨y0, hy0, hr0⟩ := hread b j hj0 hj
    rw [hr1, hr0]
    obtain ⟨m, rfl⟩ := Int.eq_ofNat_of_zero_le hj0
    have f1 : ((m : Int) / 8).toNat = m / 8 := by omega
    have f2 : (7 - (m : Int) % 8).toNat = 7 - m % 8 := by omega
    rw [f1] at hy1 hy0
    rw [f2]
    by_cases hbyte : k / 8 = m / 8
    · rw [← hbyte, List.getElem?_set_self hlt] at hy1
      rw [← hbyte, hx] at hy0
      cases hy1
      cases hy0
      have hw : 7 - k % 8 ≠ 7 - m % 8 := by
        intro h
        apply hne
        have : m = k := by omega
        rw [this]
      have : (x ||| 2 ^ (7 - k % 8)).testBit (7 - m % 8) = x.testBit (7 - m % 8) := by
        rw [Nat.testBit_or, Nat.testBit_two_pow_of_ne hw, Bool.or_false]
      rw [Nat.testBit_to_div_mod, Nat.testBit_to_div_mod] at this
      rw [this]
    · rw [List.getElem?_set_ne hbyte, hy0] at hy1
      cases hy1
      rfl

/-- C20 at an example: setting bit 9 of the slice [0x80, 0x01] gives [0x80, 0x41]; bit 9 is
the bit of weight 2^6 of byte 1. -/
theorem SetBit_IsBitSet_witness :
    (∀ x ∈ [128, 1], x < 256) ∧ (0 : Int) ≤ 9 ∧
    (9 : Int) < 8 * (([128, 1] : List Nat).length : Int) ∧
    SetBit [128, 1] 9 = .ret ([128, 65], none) ∧
    IsBitSet [128, 1] 9 = .ret (false, none) ∧
    IsBitSet [128, 65] 9 = .ret (true, none) ∧
    IsBitSet [128, 65] 0 = .ret (true, none) ∧
    IsBitSet [128, 65] 15 = .ret (true, none) ∧
    IsBitSet [128, 65] 8 = .ret (false, none) ∧
    ∃ b1 x, SetBit [128, 1] 9 = .ret (b1, none) ∧
      ([128, 1] : List Nat)[((9 : Int) / 8).toNat]? = some x ∧
      b1 = ([128, 1] : List Nat).set ((9 : Int) / 8).toNat
        (if x / 2 ^ (7 - (9 : Int) % 8).toNat % 2 = 1 then x
          else x + 2 ^ (7 - (9 : Int) % 8).toNat) ∧
      (∀ y ∈ b1, y < 256) ∧
      IsBitSet b1 9 = .ret (true, none) ∧
      (∀ j : Int, 0 ≤ j → j < 8 * (([128, 1] : List Nat).length : Int) → j ≠ 9 →
        IsBitSet b1 j = IsBitSet [128, 1] j) ∧
      (∀ j : Int, 0 ≤ j → j < 8 * (([128, 1] : List Nat).length : Int) →
        ∃ y, ([128, 1] : List Nat)[(j / 8).toNat]? = some y ∧
          IsBitSet [128, 1] j = .ret (decide (y / 2 ^ (7 - j % 8).toNat % 2 = 1), none)) :=
  ⟨by decide, by decide, by decide, by decide, by decide, by decide, by decide, by decide,
    by decide, SetBit_IsBitSet [128, 1] 9 (by decide) (by decide) (by decide)⟩

theorem Uint64ToBinary_eq (n : Nat) :
    Uint64ToBinary n = .ret [n / 256 ^ 7 % 256, n / 256 ^ 6 % 256, n / 256 ^ 5 % 256,
      n / 256 ^ 4 % 256, n / 256 ^ 3 % 256, n / 256 ^ 2 % 256, n / 256 ^ 1 % 256,
      n / 256 ^ 0 % 256] := by
  simp [Uint64ToBinary, PutUint64, byte, List.replicate, Nat.shiftRight_eq_div_pow]

/-- C21: for a `uint16` `n`, `Uint16ToBinary n` is the two bytes `[n / 256, n % 256]`, and
for a `uint64` `m`, `Uint64ToBinary m` is a slice of eight bytes whose `k`-th byte is
`(m / 256^(7-k)) % 256`; read as a big-endian number, most significant byte first, either
slice gives the integer back. -/
theorem Uint_ToBinary_bigEndian (n m : Nat) (hn : n < 2 ^ 16) (hm : m < 2 ^ 64) :
    (Uint16ToBinary n = .ret [n / 256, n % 256] ∧
      [n / 256, n % 256].foldl (fun acc x => acc * 256 + x) 0 = n) ∧
    ∃ bs, Uint64ToBinary m = .ret bs ∧ bs.length = 8 ∧
      (∀ k, k < 8 → bs[k]? = some (m / 256 ^ (7 - k) % 256)) ∧
      bs.foldl (fun acc x => acc * 256 + x) 0 = m := by
  refine ⟨⟨?_, ?_⟩, _, Uint64ToBinary_eq m, rfl, ?_, ?_⟩
  · have h : n / 256 % 256 = n / 256 := Nat.mod_eq_of_lt (by omega)
    simp [Uint16ToBinary, PutUint16, byte, List.replicate, Nat.shiftRight_eq_div_pow, h]
  · simp only [List.foldl]
    omega
  · intro k hk
    interval_cases k <;> rfl
  · simp only [List.foldl]
    norm_num
    omega

/-- C21 at an example: `0x1234` and `0x0102030405060708`. -/
theorem Uint_ToBinary_bigEndian_witness :
    (Uint16ToBinary 4660 = .ret [18, 52] ∧
      [18, 52].foldl (fun acc x => acc * 256 + x) 0 = 4660) ∧
    ∃ bs, Uint64ToBinary 72623859790382856 = .ret bs ∧ bs.length = 8 ∧
      (∀ k, k < 8 → bs[k]? = some (72623859790382856 / 256 ^ (7 - k) % 256)) ∧
      bs.foldl (fun acc x => acc * 256 + x) 0 = 72623859790382856 :=
  Uint_ToBinary_bigEndian 4660 72623859790382856 (by decide) (by decide)

end common

namespace broadcast

theorem set_same {α : Type} {l : List α} {a : Nat} {c : α} (h : l[a]? = some c) :
    l.set a c = l := by
  apply List.ext_getElem?
  intro i
  by_cases hi : a = i
  · subst hi
    have hlt : a < l.length := by
      rcases Nat.lt_or_ge a l.length with h1 | h1
      · exact h1
      · rw [List.getElem?_eq_none h1] at h; cases h
    rw [List.getElem?_set_self hlt, h]
  · rw [List.getElem?_set_ne hi]

theorem trySend_live {chans : List Chan} {a : Nat} {c : Chan} (h : chans[a]? = some c)
    (ho : c.closed = false) (hp : c.pending ≤ c.cap) :
    trySend chans a = .ok (chans.set a (bump c)) := by
  obtain ⟨cap, p, cl⟩ := c
  simp only at ho hp
  subst ho
  unfold trySend
  rw [h]
  simp only [Bool.false_eq_true, if_false]
  by_cases hlt : p < cap
  · rw [if_pos hlt]
    have : min cap (p + 1) = p + 1 := by omega
    simp only [bump, this]
  · rw [if_neg hlt]
    have : min cap (p + 1) = p := by omega
    simp only [bump, this]
    rw [set_same h]

theorem sendAll (subs : List (Int × Nat)) : ∀ chans : List Chan,
    (subs.map Prod.snd).Nodup →
    (∀ e ∈ subs, ∃ c, chans[e.2]? = some c ∧ c.closed = false ∧ c.pending ≤ c.cap) →
    ∃ chans', subs.foldlM (fun ch e => trySend ch e.2) chans = .ok chans' ∧
      chans'.length = chans.length ∧
      ∀ a, chans'[a]? = if a ∈ subs.map Prod.snd then (chans[a]?).map bump else chans[a]? := by
  induction subs with
  | nil => intro chans _ _; exact ⟨chans, rfl, rfl, fun a => by simp⟩
  | cons e rest ih =>
    intro chans hn hl
    rw [List.map_cons, List.nodup_cons] at hn
    obtain ⟨c, hc, ho, hp⟩ := hl e (List.mem_cons_self _ _)
    have hlt : e.2 < chans.length := by
      rcases Nat.lt_or_ge e.2 chans.length with h1 | h1
      · exact h1
      · rw [List.getElem?_eq_none h1] at hc; cases hc
    have hne : ∀ e' ∈ rest, e.2 ≠ e'.2 := fun e' he' heq =>
      hn.1 (heq ▸ List.mem_map_of_mem Prod.snd he')
    obtain ⟨chans', h1, h2, h3⟩ := ih (chans.set e.2 (bump c)) hn.2 (fun e' he' => by
      obtain ⟨c', hc', ho', hp'⟩ := hl e' (List.mem_cons_of_mem _ he')
      exact ⟨c', by rw [List.getElem?_set_ne (hne e' he')]; exact hc', ho', hp'⟩)
    refine ⟨chans', ?_, by rw [h2, List.length_set], fun a => ?_⟩
    · rw [List.foldlM_cons, trySend_live hc ho hp]
      exact h1
    · rw [h3 a]
      by_cases ha : e.2 = a
      · subst ha
        rw [if_neg hn.1, List.getElem?_set_self hlt, if_pos (by simp), hc]
        rfl
      · rw [List.getElem?_set_ne ha]
        have : (a ∈ List.map Prod.snd (e :: rest)) ↔ a ∈ List.map Prod.snd rest := by
          rw [List.map_cons, List.mem_cons]
          exact ⟨fun h => h.elim (fun h => absurd h.symm ha) id, Or.inr⟩
        simp only [this]

theorem NewBroadcaster_sizes (sizes : List Nat) :
    NewBroadcaster (sizes.map WithBufferSize) =
      { subscriptions := [], nextID := 0,
        bufSize := sizes.getLast?.getD defaultSubscriptionBufferSize } := by
  unfold NewBroadcaster
  generalize defaultSubscriptionBufferSize = d
  induction sizes generalizing d with
  | nil => rfl
  | cons x xs ih =>
    rw [List.map_cons, List.foldl_cons]
    show List.foldl _ (⟨[], 0, x⟩ : Broadcaster) _ = _
    rw [ih x]
    cases xs with
    | nil => rfl
    | cons y ys =>
      rw [List.getLast?_cons_cons]
      simp [List.getLast?_eq_getLast]

theorem start_inv (sizes : List Nat) : Inv (start (sizes.map WithBufferSize)) := by
  unfold start
  rw [NewBroadcaster_sizes]
  exact ⟨List.nodup_nil, List.nodup_nil, fun e he => absurd he (List.not_mem_nil e)⟩

theorem start_ranged (sizes : List Nat) : Ranged (start (sizes.map WithBufferSize)) := by
  unfold start
  rw [NewBroadcaster_sizes]
  exact ⟨le_refl _, by norm_num, fun e he => absurd he (List.not_mem_nil e)⟩

theorem getElem?_lt {α : Type} {l : List α} {a : Nat} {c : α} (h : l[a]? = some c) :
    a < l.length := by
  rcases Nat.lt_or_ge a l.length with h1 | h1
  · exact h1
  · rw [List.getElem?_eq_none h1] at h; cases h

theorem mapDelete_fresh {m : List (Int × Nat)} {id : Int} (h : ∀ e ∈ m, e.1 ≠ id) :
    mapDelete m id = m := by
  unfold mapDelete
  rw [List.filter_eq_self]
  intro e he
  simpa using h e he

theorem mapDelete_sublist (m : List (Int × Nat)) (id : Int) : (mapDelete m id).Sublist m :=
  List.filter_sublist _

theorem mem_mapDelete {m : List (Int × Nat)} {id : Int} {e : Int × Nat} :
    e ∈ mapDelete m id ↔ e ∈ m ∧ e.1 ≠ id := by
  simp [mapDelete]

theorem incr_eq {x : Int} (h0 : 0 ≤ x) (h1 : x + 1 < 2 ^ 63) : incr x = x + 1 := by
  unfold incr
  norm_num at h1 ⊢
  omega

theorem Subscribe_ok {s : Mem} (hb : s.b.bufSize < 2 ^ 63) :
    Subscribe s =
      ({ b := { s.b with nextID := incr s.b.nextID,
                         subscriptions := mapSet s.b.subscriptions (incr s.b.nextID) s.chans.length },
         chans := s.chans ++ [{ cap := s.b.bufSize, pending := 0, closed := false }] },
       .ok { id := incr s.b.nextID, ch := s.chans.length }) := by
  unfold Subscribe makeChan
  rw [if_pos hb]

theorem Subscribe_panic {s : Mem} (hb : ¬ s.b.bufSize < 2 ^ 63) :
    Subscribe s =
      ({ s with b := { s.b with nextID := incr s.b.nextID } },
       .error "makechan: size out of range") := by
  unfold Subscribe makeChan
  rw [if_neg hb]

theorem Subscribe_fresh {s : Mem} (h : Ranged s) : ∀ e ∈ s.b.subscriptions, e.1 ≠ s.b.nextID + 1 :=
  fun e he heq => by have := (h.range e he).2; omega

theorem Subscribe_inv {s : Mem} (h : Inv s) : Inv (Subscribe s).1 ∧
    (Subscribe s).1.b.bufSize = s.b.bufSize := by
  by_cases hb : s.b.bufSize < 2 ^ 63
  · rw [Subscribe_ok hb]
    have hlen : ∀ e ∈ s.b.subscriptions, e.2 < s.chans.length := fun e he => by
      obtain ⟨c, hc, -⟩ := h.live e he
      exact getElem?_lt hc
    have hsub : (mapDelete s.b.subscriptions (incr s.b.nextID)).Sublist s.b.subscriptions :=
      mapDelete_sublist _ _
    refine ⟨⟨?_, ?_, ?_⟩, rfl⟩
    · show (List.map Prod.fst (mapSet _ _ _)).Nodup
      unfold mapSet
      rw [List.map_cons, List.nodup_cons]
      refine ⟨fun hm => ?_, h.keys.sublist (hsub.map _)⟩
      obtain ⟨e, he, heq⟩ := List.mem_map.1 hm
      exact (mem_mapDelete.1 he).2 heq
    · show (List.map Prod.snd (mapSet _ _ _)).Nodup
      unfold mapSet
      rw [List.map_cons, List.nodup_cons]
      refine ⟨fun hm => ?_, h.addrs.sublist (hsub.map _)⟩
      obtain ⟨e, he, heq⟩ := List.mem_map.1 hm
      have := hlen e (mem_mapDelete.1 he).1
      simp only at heq
      omega
    · intro e he
      show ∃ c, (s.chans ++ [_])[e.2]? = some c ∧ _
      have he2 : e = (incr s.b.nextID, s.chans.length) ∨ e ∈ s.b.subscriptions := by
        rcases List.mem_cons.1 he with h1 | h1
        · exact Or.inl h1
        · exact Or.inr (mem_mapDelete.1 h1).1
      rcases he2 with rfl | he2
      · exact ⟨⟨s.b.bufSize, 0, false⟩, by simp, rfl, rfl, Nat.zero_le _⟩
      · obtain ⟨c, hc, h1, h2, h3⟩ := h.live e he2
        exact ⟨c, by rw [List.getElem?_append_left (hlen e he2)]; exact hc, h1, h2, h3⟩
  · rw [Subscribe_panic hb]
    exact ⟨⟨h.keys, h.addrs, h.live⟩, rfl⟩

theorem Subscribe_subscriptions {s : Mem} (h : Ranged s) (hb : s.b.bufSize < 2 ^ 63)
    (hn : s.b.nextID + 1 < 2 ^ 63) :
    (Subscribe s).2 = .ok { id := s.b.nextID + 1, ch := s.chans.length } ∧
    (Subscribe s).1.b.subscriptions = (s.b.nextID + 1, s.chans.length) :: s.b.subscriptions ∧
    (Subscribe s).1.chans = s.chans ++ [{ cap := s.b.bufSize, pending := 0, closed := false }] ∧
    (Subscribe s).1.b.nextID = s.b.nextID + 1 := by
  rw [Subscribe_ok hb, incr_eq h.nonneg hn]
  refine ⟨rfl, ?_, rfl, rfl⟩
  show mapSet _ _ _ = _
  unfold mapSet
  congr 1
  exact mapDelete_fresh (Subscribe_fresh h)

theorem Subscribe_ranged {s : Mem} (h : Ranged s) (hn : s.b.nextID + 1 < 2 ^ 63) :
    Ranged (Subscribe s).1 ∧ (Subscribe s).1.b.nextID = s.b.nextID + 1 := by
  have hi := incr_eq h.nonneg hn
  have h0 := h.nonneg
  by_cases hb : s.b.bufSize < 2 ^ 63
  · obtain ⟨-, h2, -, h4⟩ := Subscribe_subscriptions h hb hn
    refine ⟨⟨by rw [h4]; omega, by rw [h4]; exact hn, ?_⟩, h4⟩
    intro e he
    rw [h2, List.mem_cons] at he
    rw [h4]
    rcases he with rfl | he
    · simp only; omega
    · have := h.range e he; omega
  · rw [Subscribe_panic hb]
    refine ⟨⟨?_, ?_, ?_⟩, hi⟩
    · show 0 ≤ incr s.b.nextID
      rw [hi]; omega
    · show incr s.b.nextID < 2 ^ 63
      rw [hi]; exact hn
    · intro e he
      show 1 ≤ e.1 ∧ e.1 ≤ incr s.b.nextID
      rw [hi]
      have := h.range e he; omega

theorem Broadcast_spec {s : Mem} (h : Inv s) :
    ∃ s', Broadcast s = .ok s' ∧ s'.b = s.b ∧ Inv s' ∧
      ∀ a, s'.chans[a]? =
        if a ∈ s.b.subscriptions.map Prod.snd then (s.chans[a]?).map bump else s.chans[a]? := by
  obtain ⟨chans', h1, -, h3⟩ := sendAll s.b.subscriptions s.chans h.addrs (fun e he => by
    obtain ⟨c, hc, ho, -, hp⟩ := h.live e he
    exact ⟨c, hc, ho, hp⟩)
  refine ⟨{ s with chans := chans' }, ?_, rfl, ⟨h.keys, h.addrs, ?_⟩, h3⟩
  · unfold Broadcast
    rw [h1]
    rfl
  · intro e he
    obtain ⟨c, hc, ho, hcap, hp⟩ := h.live e he
    refine ⟨bump c, ?_, ho, hcap, ?_⟩
    · show chans'[e.2]? = _
      rw [h3, if_pos (List.mem_map_of_mem Prod.snd he), hc]
      rfl
    · show min c.cap (c.pending + 1) ≤ c.cap
      exact Nat.min_le_left _ _

theorem lookup_mem {m : List (Int × Nat)} {id : Int} {a : Nat} (h : m.lookup id = some a) :
    (id, a) ∈ m := by
  induction m with
  | nil => cases h
  | cons e m ih =>
    obtain ⟨k, v⟩ := e
    by_cases hk : id = k
    · subst hk
      rw [List.lookup_cons, beq_self_eq_true] at h
      cases h
      exact List.mem_cons_self _ _
    · rw [List.lookup_cons, beq_false_of_ne hk] at h
      exact List.mem_cons_of_mem _ (ih h)

theorem lookup_none {m : List (Int × Nat)} {id : Int} (h : m.lookup id = none) :
    ∀ e ∈ m, e.1 ≠ id := by
  induction m with
  | nil => intro e he; cases he
  | cons e m ih =>
    obtain ⟨k, v⟩ := e
    by_cases hk : id = k
    · subst hk
      rw [List.lookup_cons, beq_self_eq_true] at h
      cases h
    · rw [List.lookup_cons, beq_false_of_ne hk] at h
      intro e he
      rcases List.mem_cons.1 he with rfl | he
      · exact fun h => hk h.symm
      · exact ih h e he

theorem lookup_of_fresh {m : List (Int × Nat)} {id : Int} (h : ∀ e ∈ m, e.1 ≠ id) :
    m.lookup id = none := by
  cases hl : m.lookup id with
  | none => rfl
  | some a => exact absurd rfl (h _ (lookup_mem hl))

theorem lookup_of_mem {m : List (Int × Nat)} (hk : (m.map Prod.fst).Nodup) {e : Int × Nat}
    (he : e ∈ m) : m.lookup e.1 = some e.2 := by
  cases hl : m.lookup e.1 with
  | none => exact absurd rfl (lookup_none hl e he)
  | some a =>
    have h1 := lookup_mem hl
    have := List.inj_on_of_nodup_map hk h1 he rfl
    rw [← this]


theorem unsubscribe_absent {s : Mem} {id : Int} (h : ∀ e ∈ s.b.subscriptions, e.1 ≠ id) :
    unsubscribe id s = .ok s := by
  unfold unsubscribe
  rw [lookup_of_fresh h]

theorem unsubscribe_present {s : Mem} (h : Inv s) {e : Int × Nat} (he : e ∈ s.b.subscriptions) :
    ∃ c, s.chans[e.2]? = some c ∧ c.closed = false ∧
      unsubscribe e.1 s =
        .ok { b := { s.b with subscriptions := mapDelete s.b.subscriptions e.1 },
              chans := s.chans.set e.2 { c with closed := true } } := by
  obtain ⟨c, hc, ho, -⟩ := h.live e he
  refine ⟨c, hc, ho, ?_⟩
  unfold unsubscribe
  rw [lookup_of_mem h.keys he]
  simp only [close, hc, ho, Bool.false_eq_true, if_false]
  rfl

theorem unsubscribe_inv {s : Mem} (h : Inv s) (id : Int) :
    ∃ s', unsubscribe id s = .ok s' ∧ Inv s' ∧ s'.b.nextID = s.b.nextID ∧
      s'.b.bufSize = s.b.bufSize ∧ (Ranged s → Ranged s') := by
  by_cases hid : ∀ e ∈ s.b.subscriptions, e.1 ≠ id
  · exact ⟨s, unsubscribe_absent hid, h, rfl, rfl, fun hr => hr⟩
  · push_neg at hid
    obtain ⟨e, he, rfl⟩ := hid
    obtain ⟨c, hc, ho, hu⟩ := unsubscribe_present h he
    refine ⟨_, hu, ⟨?_, ?_, ?_⟩, rfl, rfl, fun hr => ⟨hr.nonneg, hr.below, ?_⟩⟩
    · exact h.keys.sublist ((mapDelete_sublist _ _).map _)
    · exact h.addrs.sublist ((mapDelete_sublist _ _).map _)
    · intro e' he'
      obtain ⟨hm, hne⟩ := mem_mapDelete.1 he'
      obtain ⟨c', hc', h1, h2, h3⟩ := h.live e' hm
      have hne2 : e.2 ≠ e'.2 := fun heq =>
        hne (congrArg Prod.fst (List.inj_on_of_nodup_map h.addrs hm he heq.symm))
      exact ⟨c', by show (s.chans.set _ _)[e'.2]? = _; rw [List.getElem?_set_ne hne2]; exact hc',
        h1, h2, h3⟩
    · intro e' he'
      exact hr.range e' (mem_mapDelete.1 he').1

theorem unsubscribe_twice {s : Mem} (id : Int) :
    ∀ s', unsubscribe id s = .ok s' → unsubscribe id s' = .ok s' := by
  intro s' hs
  apply unsubscribe_absent
  unfold unsubscribe at hs
  cases hl : s.b.subscriptions.lookup id with
  | none =>
    rw [hl] at hs
    cases hs
    exact lookup_none hl
  | some a =>
    rw [hl] at hs
    simp only at hs
    cases hcl : close s.chans a with
    | error m => rw [hcl] at hs; cases hs
    | ok chans =>
      rw [hcl] at hs
      cases hs
      intro e he
      exact (mem_mapDelete.1 he).2


theorem receive_inv {s : Mem} (h : Inv s) (a : Nat) :
    Inv (receive a s) ∧ (receive a s).b = s.b := by
  unfold receive
  cases hc : s.chans[a]? with
  | none => exact ⟨h, rfl⟩
  | some c =>
    simp only
    by_cases hp : 0 < c.pending
    · rw [if_pos hp]
      refine ⟨⟨h.keys, h.addrs, ?_⟩, rfl⟩
      intro e he
      obtain ⟨c', hc', h1, h2, h3⟩ := h.live e he
      by_cases hae : a = e.2
      · subst hae
        rw [hc] at hc'
        cases hc'
        exact ⟨⟨c.cap, c.pending - 1, c.closed⟩,
          by show (s.chans.set _ _)[e.2]? = _; rw [List.getElem?_set_self (getElem?_lt hc)],
          h1, h2, Nat.le_trans (Nat.sub_le _ _) h3⟩
      · exact ⟨c', by show (s.chans.set _ _)[e.2]? = _; rw [List.getElem?_set_ne hae]; exact hc',
          h1, h2, h3⟩
    · rw [if_neg hp]
      exact ⟨h, rfl⟩

theorem Ranged.of_b {s s' : Mem} (h : Ranged s) (hb : s'.b = s.b) : Ranged s' :=
  ⟨by rw [hb]; exact h.nonneg, by rw [hb]; exact h.below, by rw [hb]; exact h.range⟩

theorem exec_Subscribe {s s' : Mem} (h : exec s .Subscribe = .ok s') : s' = (Subscribe s).1 := by
  unfold exec at h
  cases h2 : (Subscribe s).2 with
  | error e => rw [h2] at h; cases h
  | ok x => rw [h2] at h; cases h; rfl

/-- Every call that returns keeps the invariant and the buffer size. -/
theorem exec_inv {s s' : Mem} (h : Inv s) (op : Op) (he : exec s op = .ok s') :
    Inv s' ∧ s'.b.bufSize = s.b.bufSize := by
  cases op with
  | Subscribe =>
    rw [exec_Subscribe he]
    exact Subscribe_inv h
  | Broadcast =>
    obtain ⟨s1, h1, h2, h3, -⟩ := Broadcast_spec h
    have : s' = s1 := by
      have h4 : exec s .Broadcast = .ok s1 := h1
      rw [he] at h4
      cases h4; rfl
    subst this
    exact ⟨h3, by rw [h2]⟩
  | Unsubscribe id =>
    obtain ⟨s1, h1, h2, -, h4, -⟩ := unsubscribe_inv h id
    have : s' = s1 := by
      have h5 : exec s (.Unsubscribe id) = .ok s1 := h1
      rw [he] at h5
      cases h5; rfl
    subst this
    exact ⟨h2, h4⟩
  | Receive a =>
    obtain ⟨h1, h2⟩ := receive_inv h a
    cases he
    exact ⟨h1, by rw [h2]⟩

/-- With a buffer size that `make` accepts every call returns. -/
theorem exec_returns {s : Mem} (h : Inv s) (hb : s.b.bufSize < 2 ^ 63) (op : Op) :
    ∃ s', exec s op = .ok s' := by
  cases op with
  | Subscribe => exact ⟨(Subscribe s).1, by unfold exec; rw [Subscribe_ok hb]; rfl⟩
  | Broadcast =>
    obtain ⟨s1, h1, -⟩ := Broadcast_spec h
    exact ⟨s1, h1⟩
  | Unsubscribe id =>
    obtain ⟨s1, h1, -⟩ := unsubscribe_inv h id
    exact ⟨s1, h1⟩
  | Receive a => exact ⟨_, rfl⟩

theorem exec_ranged {s s' : Mem} (h : Inv s) (hr : Ranged s) (op : Op)
    (hn : s.b.nextID + (if op = .Subscribe then 1 else 0) < 2 ^ 63) (he : exec s op = .ok s') :
    Ranged s' ∧ s'.b.nextID = s.b.nextID + if op = .Subscribe then 1 else 0 := by
  cases op with
  | Subscribe =>
    rw [exec_Subscribe he]
    exact Subscribe_ranged hr (by simpa using hn)
  | Broadcast =>
    obtain ⟨s1, h1, h2, -, -⟩ := Broadcast_spec h
    have : s' = s1 := by
      have h4 : exec s .Broadcast = .ok s1 := h1
      rw [he] at h4
      cases h4; rfl
    subst this
    exact ⟨hr.of_b h2, by rw [h2]; simp⟩
  | Unsubscribe id =>
    obtain ⟨s1, h1, -, h3, -, h5⟩ := unsubscribe_inv h id
    have : s' = s1 := by
      have h6 : exec s (.Unsubscribe id) = .ok s1 := h1
      rw [he] at h6
      cases h6; rfl
    subst this
    exact ⟨h5 hr, by rw [h3]; simp⟩
  | Receive a =>
    obtain ⟨-, h2⟩ := receive_inv h a
    cases he
    exact ⟨hr.of_b h2, by rw [h2]; simp⟩

theorem run_cons {op : Op} {ops : List Op} {s s' : Mem} (h : run (op :: ops) s = .ok s') :
    ∃ s1, exec s op = .ok s1 ∧ run ops s1 = .ok s' := by
  unfold run at h ⊢
  rw [List.foldlM_cons] at h
  cases h1 : exec s op with
  | error e => rw [h1] at h; cases h
  | ok s1 => rw [h1] at h; exact ⟨s1, rfl, h⟩

theorem run_inv (ops : List Op) : ∀ {s s' : Mem}, Inv s → run ops s = .ok s' →
    Inv s' ∧ s'.b.bufSize = s.b.bufSize := by
  induction ops with
  | nil => intro s s' h hs; cases hs; exact ⟨h, rfl⟩
  | cons op ops ih =>
    intro s s' h hs
    obtain ⟨s1, h1, h2⟩ := run_cons hs
    obtain ⟨k1, k2⟩ := exec_inv h op h1
    obtain ⟨j1, j2⟩ := ih k1 h2
    exact ⟨j1, by rw [j2, k2]⟩

theorem run_returns (ops : List Op) : ∀ {s : Mem}, Inv s → s.b.bufSize < 2 ^ 63 →
    ∃ s', run ops s = .ok s' := by
  induction ops with
  | nil => intro s _ _; exact ⟨s, rfl⟩
  | cons op ops ih =>
    intro s h hb
    obtain ⟨s1, h1⟩ := exec_returns h hb op
    obtain ⟨k1, k2⟩ := exec_inv h op h1
    obtain ⟨s2, h2⟩ := ih k1 (by rw [k2]; exact hb)
    refine ⟨s2, ?_⟩
    unfold run at h2 ⊢
    rw [List.foldlM_cons, h1]
    exact h2

theorem count_cons_Subscribe (op : Op) (ops : List Op) :
    ((op :: ops).count .Subscribe : Int) =
      (if op = .Subscribe then 1 else 0) + (ops.count .Subscribe : Int) := by
  rw [List.count_cons]
  by_cases hop : op = .Subscribe
  · subst hop; simp; omega
  · have : (op == Op.Subscribe) = false := by simpa using hop
    simp [hop, this]

theorem run_ranged (ops : List Op) : ∀ {s s' : Mem}, Inv s → Ranged s →
    s.b.nextID + ops.count .Subscribe < 2 ^ 63 → run ops s = .ok s' →
    Ranged s' ∧ s'.b.nextID = s.b.nextID + ops.count .Subscribe := by
  induction ops with
  | nil => intro s s' _ hr _ hs; cases hs; exact ⟨hr, by simp⟩
  | cons op ops ih =>
    intro s s' h hr hn hs
    obtain ⟨s1, h1, h2⟩ := run_cons hs
    rw [count_cons_Subscribe] at hn ⊢
    have hc : (0 : Int) ≤ (ops.count .Subscribe : Int) := Int.natCast_nonneg _
    obtain ⟨k1, k2⟩ := exec_ranged h hr op (by
      have : (if op = .Subscribe then (1 : Int) else 0) ≤ 1 := by split <;> omega
      omega) h1
    obtain ⟨j1, j2⟩ := ih (exec_inv h op h1).1 k1 (by rw [k2]; omega) h2
    exact ⟨j1, by rw [j2, k2]; omega⟩

theorem start_bufSize (sizes : List Nat) :
    (start (sizes.map WithBufferSize)).b.bufSize = sizes.getLast?.getD 10 := by
  unfold start; rw [NewBroadcaster_sizes]; rfl

theorem start_nextID (sizes : List Nat) : (start (sizes.map WithBufferSize)).b.nextID = 0 := by
  unfold start; rw [NewBroadcaster_sizes]

/-- With a buffer size that `make` rejects, a sequence of calls that returns has no
Subscribe in it. -/
theorem run_no_Subscribe (ops : List Op) : ∀ {s s' : Mem}, Inv s → ¬ s.b.bufSize < 2 ^ 63 →
    run ops s = .ok s' → ops.count .Subscribe = 0 := by
  induction ops with
  | nil => intro s s' _ _ _; rfl
  | cons op ops ih =>
    intro s s' h hb hs
    obtain ⟨s1, h1, h2⟩ := run_cons hs
    have hop : op ≠ .Subscribe := by
      rintro rfl
      unfold exec at h1
      rw [Subscribe_panic hb] at h1
      cases h1
    obtain ⟨k1, k2⟩ := exec_inv h op h1
    have := ih k1 (by rw [k2]; exact hb) h2
    rw [List.count_cons, this]
    have : (op == Op.Subscribe) = false := by simpa using hop
    simp [this]

/-- C27: in every state reached from `NewBroadcaster` (with any `WithBufferSize` options)
by Subscribe, Broadcast, Unsubscribe and receive calls, `Broadcast` returns (its `select`
has a `default` branch and no send panics), leaves the map of subscriptions and `nextID`
as they were, and turns every subscribed channel with capacity `c` and `p` pending
notifications into the same channel with `min c (p + 1)` pending ones, touching no other
channel; the capacity is that of the last `WithBufferSize` option, and 10 without one. Such
states exist: when that capacity is below `2^63`, the size up to which `make` accepts it, every
sequence of calls returns. -/
theorem Broadcast_fills_buffers (sizes : List Nat) (ops : List Op) :
    (∀ s, run ops (start (sizes.map WithBufferSize)) = .ok s →
      ∃ s', Broadcast s = .ok s' ∧
        s'.b.subscriptions = s.b.subscriptions ∧ s'.b.nextID = s.b.nextID ∧
        (∀ e ∈ s.b.subscriptions, ∃ c, s.chans[e.2]? = some c ∧
          c.cap = sizes.getLast?.getD 10 ∧
          s'.chans[e.2]? = some { c with pending := min c.cap (c.pending + 1) }) ∧
        (∀ a, a ∉ s.b.subscriptions.map Prod.snd → s'.chans[a]? = s.chans[a]?)) ∧
    (sizes.getLast?.getD 10 < 2 ^ 63 →
      ∃ s, run ops (start (sizes.map WithBufferSize)) = .ok s) := by
  refine ⟨fun s h1 => ?_, fun hb => run_returns ops (start_inv sizes)
    (by rw [start_bufSize]; exact hb)⟩
  obtain ⟨h2, h3⟩ := run_inv ops (start_inv sizes) h1
  rw [start_bufSize] at h3
  obtain ⟨s', k1, k2, -, k4⟩ := Broadcast_spec h2
  refine ⟨s', k1, by rw [k2], by rw [k2], fun e he => ?_, fun a ha => ?_⟩
  · obtain ⟨c, hc, -, hcap, -⟩ := h2.live e he
    refine ⟨c, hc, by rw [hcap, h3], ?_⟩
    rw [k4, if_pos (List.mem_map_of_mem Prod.snd he), hc]
    rfl
  · rw [k4, if_neg ha]

/-- C27 at work: two subscriptions on a broadcaster with buffers of size 2, one of them
with a full buffer after two broadcasts; the next `Broadcast` returns and leaves the
full buffer as it is and one notification in the empty one. -/
theorem Broadcast_fills_buffers_witness :
    run [.Subscribe, .Broadcast, .Broadcast, .Subscribe] (start ([2].map WithBufferSize)) =
      .ok { b := { subscriptions := [(2, 1), (1, 0)], nextID := 2, bufSize := 2 },
            chans := [{ cap := 2, pending := 2, closed := false },
                      { cap := 2, pending := 0, closed := false }] } ∧
    ∃ s', Broadcast { b := { subscriptions := [(2, 1), (1, 0)], nextID := 2, bufSize := 2 },
                      chans := [{ cap := 2, pending := 2, closed := false },
                                { cap := 2, pending := 0, closed := false }] } = .ok s' ∧
      s'.b.subscriptions = [(2, 1), (1, 0)] ∧ s'.b.nextID = 2 ∧
      (∀ e ∈ [((2 : Int), 1), (1, 0)], ∃ c : Chan,
        [({ cap := 2, pending := 2, closed := false } : Chan),
          { cap := 2, pending := 0, closed := false }][e.2]? = some c ∧
        c.cap = [2].getLast?.getD 10 ∧
        s'.chans[e.2]? = some { c with pending := min c.cap (c.pending + 1) }) ∧
      (∀ a, a ∉ [((2 : Int), 1), (1, 0)].map Prod.snd → s'.chans[a]? =
        [({ cap := 2, pending := 2, closed := false } : Chan),
          { cap := 2, pending := 0, closed := false }][a]?) :=
  ⟨rfl, (Broadcast_fills_buffers [2] [.Subscribe, .Broadcast, .Broadcast, .Subscribe]).1 _ rfl⟩

/-- C28 as stated fails: on a broadcaster made with `WithBufferSize(math.MaxUint)` the first
`Subscribe` panics in `make`, after it has incremented `nextID`: the call adds no entry to
the map, and a sequence of calls with a Subscribe in it does not return. -/
theorem Subscribe_panics :
    (Subscribe (start [WithBufferSize (2 ^ 64 - 1)])).2 = .error "makechan: size out of range" ∧
    (Subscribe (start [WithBufferSize (2 ^ 64 - 1)])).1.b.nextID = 1 ∧
    (Subscribe (start [WithBufferSize (2 ^ 64 - 1)])).1.b.subscriptions = [] ∧
    run [.Subscribe] (start [WithBufferSize (2 ^ 64 - 1)]) =
      .error "makechan: size out of range" := by
  exact ⟨rfl, rfl, rfl, rfl⟩

/-- C28, amended. Every state reached from `NewBroadcaster` (with any `WithBufferSize`
options) by Subscribe, Broadcast, Unsubscribe and receive calls has the buffer size of the
last option, 10 without one, and every channel of its subscriptions map is open. As long as
fewer than `2^63 - 1` calls of Subscribe were made, `nextID` is their number and every key of
the map lies in `1..nextID`; then, with a buffer size below `2^63`, the next `Subscribe`
returns the ID `nextID + 1`, which is no key of the map, adds that one entry with a new, open,
empty channel and keeps all others; with a buffer size of `2^63` or more it panics in
`make`, having incremented `nextID` and changed nothing else, and the map is empty.
`Unsubscribe` of a subscription in the map closes its channel, which was open, removes
exactly its entry and changes no other channel, and repeating it changes nothing, as does
`Unsubscribe` of a subscription that is not in the map; and `Broadcast` returns without a
send on a closed channel. -/
theorem reachable_subscriptions (sizes : List Nat) (ops : List Op) (s : Mem)
    (hs : run ops (start (sizes.map WithBufferSize)) = .ok s) :
    s.b.bufSize = sizes.getLast?.getD 10 ∧
    (∀ e ∈ s.b.subscriptions, ∃ c, s.chans[e.2]? = some c ∧ c.closed = false) ∧
    (ops.count .Subscribe + 1 < 2 ^ 63 →
      s.b.nextID = ops.count .Subscribe ∧
      (∀ e ∈ s.b.subscriptions, 1 ≤ e.1 ∧ e.1 ≤ s.b.nextID) ∧
      (s.b.bufSize < 2 ^ 63 →
        (Subscribe s).2 = .ok { id := s.b.nextID + 1, ch := s.chans.length } ∧
        (∀ e ∈ s.b.subscriptions, e.1 ≠ s.b.nextID + 1) ∧
        (Subscribe s).1.b.subscriptions =
          (s.b.nextID + 1, s.chans.length) :: s.b.subscriptions ∧
        (Subscribe s).1.chans =
          s.chans ++ [{ cap := s.b.bufSize, pending := 0, closed := false }] ∧
        (Subscribe s).1.b.nextID = s.b.nextID + 1) ∧
      (¬ s.b.bufSize < 2 ^ 63 →
        Subscribe s = ({ s with b := { s.b with nextID := s.b.nextID + 1 } },
          .error "makechan: size out of range") ∧
        s.b.subscriptions = [])) ∧
    (∀ e ∈ s.b.subscriptions, ∃ c s', s.chans[e.2]? = some c ∧ c.closed = false ∧
      unsubscribe e.1 s = .ok s' ∧
      (∀ x, x ∈ s'.b.subscriptions ↔ x ∈ s.b.subscriptions ∧ x ≠ e) ∧
      s'.chans = s.chans.set e.2 { c with closed := true } ∧
      s'.b.nextID = s.b.nextID ∧
      unsubscribe e.1 s' = .ok s') ∧
    (∀ id, (∀ e ∈ s.b.subscriptions, e.1 ≠ id) → unsubscribe id s = .ok s) ∧
    ∃ s', Broadcast s = .ok s' := by
  obtain ⟨h2, h3⟩ := run_inv ops (start_inv sizes) hs
  rw [start_bufSize] at h3
  refine ⟨h3, fun e he => ?_, fun hn => ?_, fun e he => ?_,
    fun id hid => unsubscribe_absent hid, ?_⟩
  · obtain ⟨c, hc, ho, -⟩ := h2.live e he
    exact ⟨c, hc, ho⟩
  · have hn2 : ((ops.count .Subscribe : Nat) : Int) + 1 < 2 ^ 63 := by exact_mod_cast hn
    obtain ⟨hr, h4⟩ := run_ranged ops (start_inv sizes) (start_ranged sizes)
      (by rw [start_nextID]; omega) hs
    rw [start_nextID, zero_add] at h4
    refine ⟨h4, hr.range, fun hb => ?_, fun hb => ?_⟩
    · obtain ⟨k1, k2, k3, k4⟩ := Subscribe_subscriptions hr hb (by rw [h4]; exact hn2)
      exact ⟨k1, Subscribe_fresh hr, k2, k3, k4⟩
    · have h0 : ops.count .Subscribe = 0 :=
        run_no_Subscribe ops (start_inv sizes) (by rw [start_bufSize, ← h3]; exact hb) hs
      rw [h0] at h4
      refine ⟨?_, ?_⟩
      · rw [Subscribe_panic hb, incr_eq hr.nonneg (by rw [h4]; norm_num)]
      · cases hsub : s.b.subscriptions with
        | nil => rfl
        | cons e l =>
          have := hr.range e (by rw [hsub]; exact List.mem_cons_self _ _)
          rw [h4] at this
          simp only [Nat.cast_zero] at this
          omega
  · obtain ⟨c, hc, ho, hu⟩ := unsubscribe_present h2 he
    refine ⟨c, _, hc, ho, hu, fun x => ?_, rfl, rfl, unsubscribe_twice e.1 _ hu⟩
    show x ∈ mapDelete _ _ ↔ _
    rw [mem_mapDelete]
    refine and_congr_right fun hx => ⟨fun hne heq => hne (by rw [heq]), fun hne heq => ?_⟩
    exact hne (List.inj_on_of_nodup_map h2.keys hx he heq)
  · obtain ⟨s', k1, -⟩ := Broadcast_spec h2
    exact ⟨s', k1⟩

/-- The amended C28 at work: after two subscriptions, the first of them cancelled, and one
broadcast, `nextID` is 2, the subscription left has the ID 2 and an open channel, and the
next `Subscribe` returns the ID 3 with a new channel. -/
theorem reachable_subscriptions_witness :
    run exampleOps (start ([].map WithBufferSize)) = .ok exampleMem ∧
    exampleMem.b.nextID = 2 ∧
    (∀ e ∈ exampleMem.b.subscriptions, 1 ≤ e.1 ∧ e.1 ≤ exampleMem.b.nextID) ∧
    (Subscribe exampleMem).2 = .ok { id := 3, ch := 2 } ∧
    (Subscribe exampleMem).1.b.subscriptions = [(3, 2), (2, 1)] ∧
    ∃ s', Broadcast exampleMem = .ok s' :=
  have h := reachable_subscriptions [] exampleOps exampleMem rfl
  have h3 := h.2.2.1 (by decide)
  have h4 := h3.2.2.1 (by decide)
  ⟨rfl, h3.1, h3.2.1, h4.1, h4.2.2.1, h.2.2.2.2.2⟩

end broadcast

namespace utils

theorem foldl_added (me : Identifier) (f : Nat → Bool) (chunks : List Chunk) :
    ∀ a : Assignment,
      (chunks.foldl (fun a c => if f c.Index then a.Add c [me] else a) a).added =
        a.added ++ (chunks.filter fun c => f c.Index).map fun c => (c, [me]) := by
  induction chunks with
  | nil => intro a; simp
  | cons c cs ih =>
    intro a
    rw [List.foldl_cons, ih]
    by_cases hc : f c.Index = true
    · simp [hc, Assignment.Add]
    · simp [hc]

/-- C22 fails in the code: with a predicate that is false at index 1, `Assign` on the
chunks with the indices 0 and 1 returns no error and an assignment in which the chunk with
index 1 is assigned to no one, whereas the doc comment of `Assign` has every input chunk
assigned to the verifier node. -/
theorem Assign_skips_chunk :
    ∃ a, (NewMockAssigner 7 fun i => i != 1).Assign [] [⟨0, 10⟩, ⟨1, 11⟩] 0 = (some a, none) ∧
      ¬ ∀ c ∈ [(⟨0, 10⟩ : Chunk), ⟨1, 11⟩], (c, [7]) ∈ a.added :=
  ⟨{ added := [(⟨0, 10⟩, [7])] }, by rfl, by decide⟩

/-- What `Assign` returns: for a non-empty chunk list no error and an assignment in which
exactly the input chunks whose index satisfies the predicate given to NewMockAssigner are
assigned, in the order of the input, each to the one identifier given to NewMockAssigner; so
every chunk of the input is assigned when the predicate holds of every index. For the empty
chunk list it returns an error and no assignment. -/
theorem Assign_assigns_selected (id : Identifier) (f : Nat → Bool) (ids : List Identifier)
    (chunks : List Chunk) (blockID : Identifier) (h : chunks ≠ []) :
    (∃ a, (NewMockAssigner id f).Assign ids chunks blockID = (some a, none) ∧
      a.added = (chunks.filter fun c => f c.Index).map (fun c => (c, [id])) ∧
      (∀ c vs, (c, vs) ∈ a.added ↔ c ∈ chunks ∧ f c.Index = true ∧ vs = [id]) ∧
      ((∀ c ∈ chunks, f c.Index = true) → ∀ c ∈ chunks, (c, [id]) ∈ a.added)) ∧
    ∃ e, (NewMockAssigner id f).Assign ids [] blockID = (none, some e) := by
  refine ⟨?_, _, rfl⟩
  have hlen : ¬ chunks.length = 0 := fun h0 => h (List.length_eq_zero.1 h0)
  have hadd : (chunks.foldl (fun a c => if f c.Index then a.Add c [id] else a)
      NewAssignment).added = (chunks.filter fun c => f c.Index).map fun c => (c, [id]) := by
    rw [foldl_added]
    rfl
  refine ⟨chunks.foldl (fun a c => if f c.Index then a.Add c [id] else a) NewAssignment,
    by simp only [MockAssigner.Assign, if_neg hlen]; rfl, hadd, ?_, ?_⟩
  · intro c vs
    rw [hadd]
    simp only [List.mem_map, List.mem_filter, Prod.mk.injEq]
    constructor
    · rintro ⟨c', ⟨hm, hf⟩, rfl, rfl⟩
      exact ⟨hm, hf, rfl⟩
    · rintro ⟨hm, hf, rfl⟩
      exact ⟨c, ⟨hm, hf⟩, rfl, rfl⟩
  · intro hall c hc
    rw [hadd]
    exact List.mem_map.2 ⟨c, List.mem_filter.2 ⟨hc, by simpa using hall c hc⟩, rfl⟩

end utils
